import Mathlib

/-!
# RBAC and menu-tree resolution of YuFungProject

Shallow embedding of the menu service (`internal/service/menu_service.go`), the menu
repository (`internal/repository/menu_repository.go`) and the RBAC repository
(`internal/repository/rbac_repository.go`).

Conventions of the embedding:

* a MongoDB collection is the list of its documents in natural order; `Find` without a sort
  returns the matching documents in that order, `FindOne`, `UpdateOne` and `DeleteOne` act on
  the first matching document, `InsertOne` appends;
* `time.Time` values are natural numbers, `primitive.ObjectID` is its hex string, Go `int`
  is `Int` (the code only compares sort orders);
* storage calls do not fail, except where a unique index rejects an insert;
* the recursive Go functions carry a fuel argument: `none` means that the recursion did not
  come back within the given depth, `some r` that the Go function returns `r`.
-/

namespace YuFung

/-! ## Data model (`internal/model/user.go`) -/

/-- Menu document (`model.Menu`). -/
structure Menu where
  ID : String
  MenuID : String
  ParentID : String
  MenuName : String
  MenuType : String
  RoutePath : String
  Component : String
  PermissionCode : String
  Icon : String
  SortOrder : Int
  Visible : Bool
  Status : String
  CreatedAt : Nat
  UpdatedAt : Nat
deriving DecidableEq, Repr

/-- Menu node of the administrative tree (`model.MenuInfo`). -/
inductive MenuInfo where
  | mk (ID MenuID ParentID MenuName MenuType RoutePath Component PermissionCode Icon : String)
      (SortOrder : Int) (Visible : Bool) (Status : String) (CreatedAt UpdatedAt : Nat)
      (Children : List MenuInfo) : MenuInfo
deriving Repr

/-- Menu node of the user navigation tree (`model.UserMenuResponse`). -/
inductive UserMenuResponse where
  | mk (MenuID MenuName RoutePath Component Icon : String) (SortOrder : Int)
      (Children : List UserMenuResponse) : UserMenuResponse
deriving Repr

/-- Role document (`model.Role`). -/
structure Role where
  ID : String
  RoleID : String
  RoleName : String
  RoleKey : String
  CompanyID : String
  SortOrder : Int
  DataScope : String
  MenuIDs : List String
  Status : String
  Remark : String
  CreatedAt : Nat
  UpdatedAt : Nat
deriving DecidableEq, Repr

/-- Row of the `user_roles` collection (`model.UserRole`, without `_id`). -/
structure UserRole where
  UserID : String
  RoleID : String
  CreatedAt : Nat
  UpdatedAt : Nat
deriving DecidableEq, Repr

/-- Row of the `role_permissions` collection (`model.RolePermission`, without `_id`). -/
structure RolePermission where
  RoleID : String
  MenuID : String
  PermissionType : String
  CreatedAt : Nat
  UpdatedAt : Nat
deriving DecidableEq, Repr

/-- Body of `POST /menus` (`model.MenuCreateRequest`). -/
structure MenuCreateRequest where
  ParentID : String
  MenuName : String
  MenuType : String
  RoutePath : String
  Component : String
  PermissionCode : String
  Icon : String
  SortOrder : Int
  Visible : Bool
  Status : String
deriving DecidableEq, Repr

/-- Body of `PUT /menus/:id` (`model.MenuUpdateRequest`). -/
structure MenuUpdateRequest where
  ParentID : String
  MenuName : String
  MenuType : String
  RoutePath : String
  Component : String
  PermissionCode : String
  Icon : String
  SortOrder : Int
  Visible : Bool
  Status : String
deriving DecidableEq, Repr

/-- Body of `PUT /menus/batch-status` (`model.BatchUpdateMenuStatusRequest`). -/
structure BatchUpdateMenuStatusRequest where
  MenuIDs : List String
  Status : String
deriving DecidableEq, Repr

/-- Field `SortOrder` of a `MenuInfo`. -/
def MenuInfo.SortOrder : MenuInfo → Int
  | .mk _ _ _ _ _ _ _ _ _ so _ _ _ _ _ => so

/-- Field `Children` of a `MenuInfo`. -/
def MenuInfo.Children : MenuInfo → List MenuInfo
  | .mk _ _ _ _ _ _ _ _ _ _ _ _ _ _ ch => ch

/-- The scalar fields of a `MenuInfo`, as the menu document they were copied from. -/
def MenuInfo.toMenu : MenuInfo → Menu
  | .mk id mid pid name ty route comp code icon so vis st ca ua _ =>
    ⟨id, mid, pid, name, ty, route, comp, code, icon, so, vis, st, ca, ua⟩

/-- Assignment `menuInfo.Children = ch`. -/
def MenuInfo.withChildren : MenuInfo → List MenuInfo → MenuInfo
  | .mk id mid pid name ty route comp code icon so vis st ca ua _, ch =>
    .mk id mid pid name ty route comp code icon so vis st ca ua ch

/-- Field `MenuID` of a `UserMenuResponse`. -/
def UserMenuResponse.MenuID : UserMenuResponse → String
  | .mk mid _ _ _ _ _ _ => mid

/-- Field `SortOrder` of a `UserMenuResponse`. -/
def UserMenuResponse.SortOrder : UserMenuResponse → Int
  | .mk _ _ _ _ _ so _ => so

/-- Field `Children` of a `UserMenuResponse`. -/
def UserMenuResponse.Children : UserMenuResponse → List UserMenuResponse
  | .mk _ _ _ _ _ _ ch => ch

mutual
/-- All menus of a subtree, the node first, then its descendants left to right. -/
def MenuInfo.flat : MenuInfo → List Menu
  | .mk id mid pid name ty route comp code icon so vis st ca ua ch =>
    (⟨id, mid, pid, name, ty, route, comp, code, icon, so, vis, st, ca, ua⟩ : Menu)
      :: MenuInfo.flatList ch
/-- All menus of a forest, at any depth. -/
def MenuInfo.flatList : List MenuInfo → List Menu
  | [] => []
  | t :: ts => MenuInfo.flat t ++ MenuInfo.flatList ts
end

mutual
/-- The `Children` lists found in a subtree, at any depth. -/
def MenuInfo.groups : MenuInfo → List (List MenuInfo)
  | .mk _ _ _ _ _ _ _ _ _ _ _ _ _ _ ch => ch :: MenuInfo.groupsList ch
/-- The `Children` lists found in a forest, at any depth. -/
def MenuInfo.groupsList : List MenuInfo → List (List MenuInfo)
  | [] => []
  | t :: ts => MenuInfo.groups t ++ MenuInfo.groupsList ts
end

/-- The sibling groups of a tree: the top-level list and every `Children` list. -/
def MenuInfo.siblingGroups (tree : List MenuInfo) : List (List MenuInfo) :=
  tree :: MenuInfo.groupsList tree

mutual
/-- All nodes of a user subtree, the node first. -/
def UserMenuResponse.nodes : UserMenuResponse → List UserMenuResponse
  | .mk mid name route comp icon so ch =>
    UserMenuResponse.mk mid name route comp icon so ch :: UserMenuResponse.nodesList ch
/-- All nodes of a user forest, at any depth. -/
def UserMenuResponse.nodesList : List UserMenuResponse → List UserMenuResponse
  | [] => []
  | t :: ts => UserMenuResponse.nodes t ++ UserMenuResponse.nodesList ts
end

mutual
/-- The `Children` lists found in a user subtree, at any depth. -/
def UserMenuResponse.groups : UserMenuResponse → List (List UserMenuResponse)
  | .mk _ _ _ _ _ _ ch => ch :: UserMenuResponse.groupsList ch
/-- The `Children` lists found in a user forest, at any depth. -/
def UserMenuResponse.groupsList : List UserMenuResponse → List (List UserMenuResponse)
  | [] => []
  | t :: ts => UserMenuResponse.groups t ++ UserMenuResponse.groupsList ts
end

/-- The sibling groups of a user tree: the top-level list and every `Children` list. -/
def UserMenuResponse.siblingGroups (tree : List UserMenuResponse) :
    List (List UserMenuResponse) :=
  tree :: UserMenuResponse.groupsList tree

/-! ## `sort.Slice` -/

/-- A sorting procedure the code calls but does not define: `sort.Slice` of the Go standard
library (documented as sorting by `less`, not guaranteed stable) and the server-side sort of a
MongoDB `Find`. The embedding relies on its contract only: the result is a permutation of the
input, and for a comparison `less` that is asymmetric and whose negation is transitive no
element is less than one placed before it. -/
structure Sorter where
  sort : {α : Type} → (α → α → Bool) → List α → List α
  perm : ∀ {α : Type} (less : α → α → Bool) (l : List α), (sort less l).Perm l
  sorted : ∀ {α : Type} (less : α → α → Bool),
    (∀ a b c, less b a = false → less c b = false → less c a = false) →
    (∀ a b, less a b = true → less b a = false) →
    ∀ l : List α, (sort less l).Pairwise (fun a b => less b a = false)

/-- One insertion step of Go's `insertionSortLessFunc`: there the new element moves left
while it is less than its predecessor; in a sorted slice that puts it just before the first
element it is less than, which is the position computed here. -/
def insertLess {α : Type} (less : α → α → Bool) (x : α) : List α → List α
  | [] => [x]
  | y :: ys => if less x y then x :: y :: ys else y :: insertLess less x ys

/-- Insertion sort, the algorithm `sort.Slice` runs on slices of at most 12 elements. -/
def insertionSortLess {α : Type} (less : α → α → Bool) (l : List α) : List α :=
  l.foldl (fun acc x => insertLess less x acc) []

/-- Insertion sort as a `Sorter`. -/
def insertionSorter : Sorter where
  sort := fun less l => insertionSortLess less l
  perm := by
    intro α less l
    have hins : ∀ (x : α) (acc : List α), (insertLess less x acc).Perm (x :: acc) := by
      intro x acc
      induction acc with
      | nil => exact List.Perm.refl _
      | cons y ys ih =>
        unfold insertLess
        split
        · exact List.Perm.refl _
        · exact ((List.Perm.cons y ih).trans (List.Perm.swap x y ys))
    have hfold : ∀ (l acc : List α),
        (l.foldl (fun acc x => insertLess less x acc) acc).Perm (acc ++ l) := by
      intro l
      induction l with
      | nil => intro acc; simp
      | cons x xs ih =>
        intro acc
        simp only [List.foldl_cons]
        refine (ih _).trans ?_
        refine ((hins x acc).append_right xs).trans ?_
        simpa using (@List.perm_middle _ x acc xs).symm
    simpa [insertionSortLess] using hfold l []
  sorted := by
    intro α less htrans hasymm l
    have hperm : ∀ (x : α) (acc : List α), (insertLess less x acc).Perm (x :: acc) := by
      intro x acc
      induction acc with
      | nil => exact List.Perm.refl _
      | cons y ys ih =>
        unfold insertLess
        split
        · exact List.Perm.refl _
        · exact ((List.Perm.cons y ih).trans (List.Perm.swap x y ys))
    have hins : ∀ (x : α) (acc : List α),
        acc.Pairwise (fun a b => less b a = false) →
        (insertLess less x acc).Pairwise (fun a b => less b a = false) := by
      intro x acc
      induction acc with
      | nil => intro _; simp [insertLess]
      | cons y ys ih =>
        intro h
        have hy := List.pairwise_cons.1 h
        unfold insertLess
        split
        · rename_i hlt
          refine List.pairwise_cons.2 ⟨?_, h⟩
          intro b hb
          rcases List.mem_cons.1 hb with rfl | hb
          · exact hasymm _ _ hlt
          · exact htrans _ _ _ (hasymm _ _ hlt) (hy.1 b hb)
        · rename_i hlt
          have hge : less x y = false := by simpa using hlt
          refine List.pairwise_cons.2 ⟨?_, ih hy.2⟩
          intro b hb
          rcases List.mem_cons.1 ((hperm x ys).subset hb) with rfl | hb
          · exact hge
          · exact hy.1 b hb
    have hfold : ∀ (l acc : List α), acc.Pairwise (fun a b => less b a = false) →
        (l.foldl (fun acc x => insertLess less x acc) acc).Pairwise
          (fun a b => less b a = false) := by
      intro l
      induction l with
      | nil => intro acc h; simpa using h
      | cons x xs ih =>
        intro acc h
        simp only [List.foldl_cons]
        exact ih _ (hins x acc h)
    simpa [insertionSortLess] using hfold l [] List.Pairwise.nil

/-! ## Tree builders (`internal/service/menu_service.go`) -/

/-- `convertToMenuInfo`: copies every field, `Children` is the empty list. -/
def convertToMenuInfo (menu : Menu) : MenuInfo :=
  .mk menu.ID menu.MenuID menu.ParentID menu.MenuName menu.MenuType menu.RoutePath
    menu.Component menu.PermissionCode menu.Icon menu.SortOrder menu.Visible menu.Status
    menu.CreatedAt menu.UpdatedAt []

/-- The loop `for _, menu := range menus { if menu.ParentID == parentID { ... append } }`
shared by `buildMenuTree` and `buildUserMenuTree`: `recTree` is the recursive call on the
node's `MenuID`, `node` builds the appended element from the menu and its children. -/
def rangeChildren {β : Type} (recTree : String → Option (List β)) (node : Menu → List β → β)
    (parentID : String) : List Menu → Option (List β)
  | [] => some []
  | menu :: rest =>
    if menu.ParentID = parentID then
      match recTree menu.MenuID with
      | none => none
      | some children =>
        match rangeChildren recTree node parentID rest with
        | none => none
        | some tree => some (node menu children :: tree)
    else rangeChildren recTree node parentID rest

/-- `buildMenuTree(menus, parentID)`. -/
def buildMenuTree (srt : Sorter) : Nat → List Menu → String → Option (List MenuInfo)
  | 0, _, _ => none
  | fuel + 1, menus, parentID =>
    (rangeChildren (fun id => buildMenuTree srt fuel menus id)
      (fun menu children => (convertToMenuInfo menu).withChildren children) parentID menus).map
      (srt.sort (fun a b => decide (a.SortOrder < b.SortOrder)))

/-- `buildUserMenuTree(menus, parentID)`. -/
def buildUserMenuTree (srt : Sorter) :
    Nat → List Menu → String → Option (List UserMenuResponse)
  | 0, _, _ => none
  | fuel + 1, menus, parentID =>
    (rangeChildren (fun id => buildUserMenuTree srt fuel menus id)
      (fun menu children => UserMenuResponse.mk menu.MenuID menu.MenuName menu.RoutePath
        menu.Component menu.Icon menu.SortOrder children) parentID menus).map
      (srt.sort (fun a b => decide (a.SortOrder < b.SortOrder)))



/-! ## Menu repository (`internal/repository/menu_repository.go`) -/

/-- The error a unique index raises on insert. -/
def duplicateKeyError : String := "E11000 duplicate key error"

/-- `utils.GenerateID(prefix)` (`pkg/utils/id.go`): `timestamp` is `time.Now().Unix()` and
`randomHex` the `%X` rendering of the four random bytes. -/
def GenerateID (pfx : String) (timestamp : Nat) (randomHex : String) : String :=
  if pfx = "user" then "USR" ++ toString timestamp ++ randomHex
  else if pfx = "company" then "CMP" ++ toString timestamp ++ randomHex
  else if pfx = "role" then "ROL" ++ toString timestamp ++ randomHex
  else pfx ++ toString timestamp ++ randomHex

/-- What a call reads from outside the store: the clock (`time.Now()`, its consecutive
readings within one call identified), the Unix timestamp and random bytes of `GenerateID`,
and the `_id` the driver gives an inserted document. -/
structure Env where
  now : Nat
  timestamp : Nat
  randomHex : String
  objectID : String

/-- `UpdateOne`: applies `f` to the first document matching `p`. -/
def updateFirst (p : Menu → Bool) (f : Menu → Menu) : List Menu → List Menu
  | [] => []
  | m :: ms => if p m then f m :: ms else m :: updateFirst p f ms

/-- The `updates` map (`bson.M`) of `UpdateMenu`: a key is present when its field is `some`. -/
structure MenuUpdates where
  parent_id : Option String := none
  menu_name : Option String := none
  permission_code : Option String := none
  menu_type : Option String := none
  route_path : Option String := none
  component : Option String := none
  icon : Option String := none
  sort_order : Option Int := none
  visible : Option Bool := none
  status : Option String := none
deriving DecidableEq, Repr

/-- `len(updates) == 0`. -/
def MenuUpdates.isEmpty (u : MenuUpdates) : Bool :=
  decide (u = {})

/-- The `$set` of `updates` together with `updated_at`. -/
def MenuUpdates.set (u : MenuUpdates) (now : Nat) (m : Menu) : Menu :=
  { m with
    ParentID := u.parent_id.getD m.ParentID
    MenuName := u.menu_name.getD m.MenuName
    PermissionCode := u.permission_code.getD m.PermissionCode
    MenuType := u.menu_type.getD m.MenuType
    RoutePath := u.route_path.getD m.RoutePath
    Component := u.component.getD m.Component
    Icon := u.icon.getD m.Icon
    SortOrder := u.sort_order.getD m.SortOrder
    Visible := u.visible.getD m.Visible
    Status := u.status.getD m.Status
    UpdatedAt := now }

namespace menuRepository

/-- `CreateMenu`: stamps the times, generates the id when it is empty and inserts; the unique
index `idx_menu_id_unique` rejects an id that is already stored. Returns the store and the
menu as the caller sees it afterwards (the struct is updated through the pointer). -/
def CreateMenu (menus : List Menu) (menu : Menu) (env : Env) :
    List Menu × Except String Menu :=
  let menu := { menu with CreatedAt := env.now, UpdatedAt := env.now }
  let menu := if menu.MenuID = "" then
      { menu with MenuID := GenerateID "MENU" env.timestamp env.randomHex } else menu
  if menus.any (fun m => decide (m.MenuID = menu.MenuID)) then
    (menus, .error ("创建菜单失败: " ++ duplicateKeyError))
  else
    (menus ++ [{ menu with ID := env.objectID }], .ok menu)

/-- `GetMenuByID`. -/
def GetMenuByID (menus : List Menu) (menuID : String) : Except String Menu :=
  match menus.find? (fun m => decide (m.MenuID = menuID)) with
  | none => .error "菜单不存在"
  | some menu => .ok menu

/-- `UpdateMenu`: `UpdateOne` with `$set`, `MatchedCount == 0` is an error. -/
def UpdateMenu (menus : List Menu) (menuID : String) (updates : MenuUpdates) (now : Nat) :
    List Menu × Except String Unit :=
  if menus.any (fun m => decide (m.MenuID = menuID)) then
    (updateFirst (fun m => decide (m.MenuID = menuID)) (updates.set now) menus, .ok ())
  else (menus, .error "菜单不存在")

/-- `DeleteMenu`: `DeleteOne`, `DeletedCount == 0` is an error. -/
def DeleteMenu (menus : List Menu) (menuID : String) : List Menu × Except String Unit :=
  if menus.any (fun m => decide (m.MenuID = menuID)) then
    (menus.eraseP (fun m => decide (m.MenuID = menuID)), .ok ())
  else (menus, .error "菜单不存在")

/-- `GetChildMenus`: the menus with the given `parent_id`, sorted by `sort_order`. -/
def GetChildMenus (dbs : Sorter) (menus : List Menu) (parentID : String) : List Menu :=
  dbs.sort (fun a b => decide (a.SortOrder < b.SortOrder))
    (menus.filter (fun m => decide (m.ParentID = parentID)))

/-- The documents the `Find` of `GetMenusByIDs` matches: the menus whose `menu_id` is in the
list, no sort. -/
def GetMenusByIDs.find (menus : List Menu) (menuIDs : List String) : List Menu :=
  menus.filter (fun m => decide (m.MenuID ∈ menuIDs))

/-- The text of the error the store gives for a filter whose `$in` operand is not an array.
The driver and the server are outside the repository; what follows only uses that the call
fails. -/
def inNeedsArrayError : String := "(BadValue) $in needs an array"

/-- `GetMenusByIDs`. The argument is a Go `[]string`, with `none` for the nil slice: the
driver encodes a nil slice as null, the store rejects `$in: null`, and the error of `Find`
is wrapped. -/
def GetMenusByIDs (menus : List Menu) (menuIDs : Option (List String)) :
    Except String (List Menu) :=
  match menuIDs with
  | none => .error ("查询菜单列表失败: " ++ inNeedsArrayError)
  | some ids => .ok (GetMenusByIDs.find menus ids)

/-- `BatchUpdateMenuStatus`: `UpdateMany` on the menus whose `menu_id` is in the list. -/
def BatchUpdateMenuStatus (menus : List Menu) (menuIDs : List String) (status : String)
    (now : Nat) : List Menu :=
  menus.map (fun m =>
    if m.MenuID ∈ menuIDs then { m with Status := status, UpdatedAt := now } else m)

/-- `CheckMenuNameExists`. -/
def CheckMenuNameExists (menus : List Menu) (menuName parentID excludeMenuID : String) : Bool :=
  decide (0 < menus.countP (fun m =>
    decide (m.MenuName = menuName) && decide (m.ParentID = parentID) &&
      (decide (excludeMenuID = "") || decide (m.MenuID ≠ excludeMenuID))))

/-- `CheckPermissionCodeExists`. -/
def CheckPermissionCodeExists (menus : List Menu) (permissionCode excludeMenuID : String) :
    Bool :=
  decide (0 < menus.countP (fun m =>
    decide (m.PermissionCode = permissionCode) &&
      (decide (excludeMenuID = "") || decide (m.MenuID ≠ excludeMenuID))))

/-- `HasChildMenus`. -/
def HasChildMenus (menus : List Menu) (menuID : String) : Bool :=
  decide (0 < menus.countP (fun m => decide (m.ParentID = menuID)))

/-- `GetMenuIDsByRoleIDs`, the elements of the slice it returns: the non-empty menu ids of the
listed roles whose status is `enable`, each once. The Go code collects them in a map and
returns them in the iteration order of that map, which is unspecified; callers use the result
as a set. -/
def GetMenuIDsByRoleIDs (roles : List Role) (roleIDs : List String) : List String :=
  if roleIDs.length = 0 then []
  else
    ((roles.filter (fun r => decide (r.RoleID ∈ roleIDs) && decide (r.Status = "enable"))).flatMap
      (fun r => r.MenuIDs.filter (fun menuID => decide (menuID ≠ "")))).dedup

/-- `GetMenuIDsByRoleIDs`, the Go slice it returns, with `none` for the nil slice. For no role
id it is `[]string{}`. Otherwise the collected ids are appended to `var menuIDs []string`,
which is still nil when there is no id to append. -/
def GetMenuIDsByRoleIDs.slice (roles : List Role) (roleIDs : List String) :
    Option (List String) :=
  if roleIDs.length = 0 then some []
  else
    match GetMenuIDsByRoleIDs roles roleIDs with
    | [] => none
    | menuID :: menuIDs => some (menuID :: menuIDs)

end menuRepository


/-! ## Menu service (`internal/service/menu_service.go`) -/

/-- The loop of `isChildMenu` over the children of `parentMenuID`. -/
def isChildMenuLoop (recCheck : String → Option Bool) (checkMenuID : String) :
    List Menu → Option Bool
  | [] => some false
  | child :: rest =>
    if child.MenuID = checkMenuID then some true
    else
      match recCheck child.MenuID with
      | none => none
      | some true => some true
      | some false => isChildMenuLoop recCheck checkMenuID rest

/-- `isChildMenu(parentMenuID, checkMenuID)`. -/
def isChildMenu (dbs : Sorter) : Nat → List Menu → String → String → Option Bool
  | 0, _, _, _ => none
  | fuel + 1, menus, parentMenuID, checkMenuID =>
    isChildMenuLoop (fun id => isChildMenu dbs fuel menus id checkMenuID) checkMenuID
      (menuRepository.GetChildMenus dbs menus parentMenuID)

namespace menuService

/-- `CreateMenu`. -/
def CreateMenu (menus : List Menu) (req : MenuCreateRequest) (env : Env) :
    List Menu × Except String MenuInfo :=
  if req.ParentID ≠ "" ∧ (menuRepository.GetMenuByID menus req.ParentID).toBool = false then
    (menus, .error "父菜单不存在")
  else if menuRepository.CheckMenuNameExists menus req.MenuName req.ParentID "" then
    (menus, .error "同一层级下菜单名称已存在")
  else if req.PermissionCode ≠ "" ∧
      menuRepository.CheckPermissionCodeExists menus req.PermissionCode "" = true then
    (menus, .error "权限标识符已存在")
  else
    let menu : Menu :=
      { ID := "", MenuID := "", ParentID := req.ParentID, MenuName := req.MenuName,
        MenuType := req.MenuType, RoutePath := req.RoutePath, Component := req.Component,
        PermissionCode := req.PermissionCode, Icon := req.Icon, SortOrder := req.SortOrder,
        Visible := req.Visible, Status := "enable", CreatedAt := 0, UpdatedAt := 0 }
    let menu := if req.Status ≠ "" then { menu with Status := req.Status } else menu
    match menuRepository.CreateMenu menus menu env with
    | (menus, .error err) => (menus, .error ("创建菜单失败: " ++ err))
    | (menus, .ok menu) => (menus, .ok (convertToMenuInfo menu))

/-- `GetMenuByID`. -/
def GetMenuByID (menus : List Menu) (menuID : String) : Except String MenuInfo :=
  match menuRepository.GetMenuByID menus menuID with
  | .error err => .error err
  | .ok menu => .ok (convertToMenuInfo menu)

/-- The parent validation of `UpdateMenu` (the block under `req.ParentID !=
existingMenu.ParentID`): the `updates` map after it, or the error returned. -/
def UpdateMenu.parent (dbs : Sorter) (fuel : Nat) (menus : List Menu) (menuID : String)
    (req : MenuUpdateRequest) (existingMenu : Menu) : Option (Except String MenuUpdates) :=
  if req.ParentID ≠ existingMenu.ParentID then
    if req.ParentID = menuID then some (.error "不能将菜单设置为自己的父菜单")
    else
      match (if req.ParentID ≠ "" then isChildMenu dbs fuel menus menuID req.ParentID
        else some false) with
      | none => none
      | some true => some (.error "不能将菜单设置为其子菜单的父菜单")
      | some false =>
        if req.ParentID ≠ "" ∧ (menuRepository.GetMenuByID menus req.ParentID).toBool = false
        then some (.error "父菜单不存在")
        else some (.ok { parent_id := some req.ParentID })
  else some (.ok {})

/-- The remaining validations and field updates of `UpdateMenu`, from the name check to
`status`: the `updates` map after them, or the error returned. Every key is written by one
statement of the Go code, under the condition given here; `parent_id` is left as the parent
validation set it. -/
def UpdateMenu.fields (menus : List Menu) (menuID : String) (req : MenuUpdateRequest)
    (existingMenu : Menu) (updates : MenuUpdates) : Except String MenuUpdates :=
  let parentID := if req.ParentID = "" then existingMenu.ParentID else req.ParentID
  if req.MenuName ≠ "" ∧ req.MenuName ≠ existingMenu.MenuName ∧
      menuRepository.CheckMenuNameExists menus req.MenuName parentID menuID = true then
    .error "同一层级下菜单名称已存在"
  else if req.PermissionCode ≠ existingMenu.PermissionCode ∧ req.PermissionCode ≠ "" ∧
      menuRepository.CheckPermissionCodeExists menus req.PermissionCode menuID = true then
    .error "权限标识符已存在"
  else
    .ok
      { parent_id := updates.parent_id
        menu_name :=
          if req.MenuName ≠ "" ∧ req.MenuName ≠ existingMenu.MenuName then some req.MenuName
          else none
        permission_code :=
          if req.PermissionCode ≠ existingMenu.PermissionCode then some req.PermissionCode
          else none
        menu_type := if req.MenuType ≠ "" then some req.MenuType else none
        route_path :=
          if req.RoutePath ≠ existingMenu.RoutePath then some req.RoutePath else none
        component :=
          if req.Component ≠ existingMenu.Component then some req.Component else none
        icon := if req.Icon ≠ existingMenu.Icon then some req.Icon else none
        sort_order := if req.SortOrder ≠ 0 then some req.SortOrder else none
        visible := if req.Visible ≠ existingMenu.Visible then some req.Visible else none
        status := if req.Status ≠ "" then some req.Status else none }

/-- `UpdateMenu`. -/
def UpdateMenu (dbs : Sorter) (fuel : Nat) (menus : List Menu) (menuID : String)
    (req : MenuUpdateRequest) (now : Nat) : Option (List Menu × Except String MenuInfo) :=
  match menuRepository.GetMenuByID menus menuID with
  | .error err => some (menus, .error err)
  | .ok existingMenu =>
    match UpdateMenu.parent dbs fuel menus menuID req existingMenu with
    | none => none
    | some (.error err) => some (menus, .error err)
    | some (.ok updates) =>
      match UpdateMenu.fields menus menuID req existingMenu updates with
      | .error err => some (menus, .error err)
      | .ok updates =>
        if updates.isEmpty then some (menus, .ok (convertToMenuInfo existingMenu))
        else
          match menuRepository.UpdateMenu menus menuID updates now with
          | (menus, .error err) => some (menus, .error ("更新菜单失败: " ++ err))
          | (menus, .ok _) => some (menus, GetMenuByID menus menuID)

/-- `DeleteMenu`. -/
def DeleteMenu (menus : List Menu) (menuID : String) : List Menu × Except String Unit :=
  match menuRepository.GetMenuByID menus menuID with
  | .error err => (menus, .error err)
  | .ok _ =>
    if menuRepository.HasChildMenus menus menuID then
      (menus, .error "该菜单下还有子菜单，请先删除子菜单")
    else
      match menuRepository.DeleteMenu menus menuID with
      | (menus, .error err) => (menus, .error ("删除菜单失败: " ++ err))
      | (menus, .ok _) => (menus, .ok ())

/-- `BatchUpdateMenuStatus`. -/
def BatchUpdateMenuStatus (menus : List Menu) (req : BatchUpdateMenuStatusRequest)
    (now : Nat) : List Menu × Except String Unit :=
  if req.MenuIDs.length = 0 then (menus, .error "菜单ID列表不能为空")
  else (menuRepository.BatchUpdateMenuStatus menus req.MenuIDs req.Status now, .ok ())

/-- The filter loop of `GetUserMenus` and `GetUserMenusByRoles`: the menus that are enabled,
visible and not buttons. -/
def visibleMenus (menus : List Menu) : List Menu :=
  menus.filter (fun menu =>
    decide (menu.Status = "enable") && menu.Visible && decide (menu.MenuType ≠ "button"))

/-- `GetUserMenus`. The slice handed to `GetMenusByIDs` has an element, so it is not nil. -/
def GetUserMenus (srt : Sorter) (fuel : Nat) (menus : List Menu) (menuIDs : List String) :
    Option (Except String (List UserMenuResponse)) :=
  if menuIDs.length = 0 then some (.ok [])
  else
    match menuRepository.GetMenusByIDs menus (some menuIDs) with
    | .error err => some (.error ("获取用户菜单失败: " ++ err))
    | .ok found => (buildUserMenuTree srt fuel (visibleMenus found) "").map .ok

/-- `GetUserMenusByRoles`. The slice of `GetMenuIDsByRoleIDs` goes to `GetMenusByIDs` as it
is, with no check of its length: when the roles resolve to no menu id it is the nil slice and
the call returns the wrapped error of the store. -/
def GetUserMenusByRoles (srt : Sorter) (fuel : Nat) (menus : List Menu) (roles : List Role)
    (roleIDs : List String) : Option (Except String (List UserMenuResponse)) :=
  if roleIDs.length = 0 then some (.ok [])
  else
    let menuIDs := menuRepository.GetMenuIDsByRoleIDs.slice roles roleIDs
    match menuRepository.GetMenusByIDs menus menuIDs with
    | .error err => some (.error ("获取菜单详细信息失败: " ++ err))
    | .ok found => (buildUserMenuTree srt fuel (visibleMenus found) "").map .ok

end menuService


/-! ## RBAC repository (`internal/repository/rbac_repository.go`) -/

/-- `InsertMany` (ordered, the driver's default) into a collection with a unique index on
`key`: the documents are inserted one after the other, and the first one whose key is already
stored stops the insert with a duplicate-key error; the documents before it stay inserted.
Returns the collection and whether every document was inserted. -/
def insertManyUnique {α κ : Type} [DecidableEq κ] (key : α → κ) :
    List α → List α → List α × Bool
  | coll, [] => (coll, true)
  | coll, doc :: docs =>
    if coll.any (fun x => decide (key x = key doc)) then (coll, false)
    else insertManyUnique key (coll ++ [doc]) docs

namespace rbacRepository

/-- `AssignRolesToUser`; `user_roles` carries the unique index `idx_user_role_unique` on
`(user_id, role_id)`. -/
def AssignRolesToUser (userRoles : List UserRole) (userID : String) (roleIDs : List String)
    (now : Nat) : List UserRole × Except String Unit :=
  let userRoles := userRoles.filter (fun ur => decide (ur.UserID ≠ userID))
  if 0 < roleIDs.length then
    let docs := roleIDs.map (fun roleID =>
      ({ UserID := userID, RoleID := roleID, CreatedAt := now, UpdatedAt := now } : UserRole))
    match insertManyUnique (fun ur => (ur.UserID, ur.RoleID)) userRoles docs with
    | (userRoles, false) => (userRoles, .error ("分配用户角色失败: " ++ duplicateKeyError))
    | (userRoles, true) => (userRoles, .ok ())
  else (userRoles, .ok ())

/-- `GetUserRoles`. -/
def GetUserRoles (userRoles : List UserRole) (userID : String) : List String :=
  (userRoles.filter (fun ur => decide (ur.UserID = userID))).map (fun ur => ur.RoleID)

/-- `AssignPermissionsToRole`; `role_permissions` carries the unique index
`idx_role_permission_unique` on `(role_id, menu_id)`. -/
def AssignPermissionsToRole (rolePermissions : List RolePermission) (roleID : String)
    (menuIDs : List String) (now : Nat) : List RolePermission × Except String Unit :=
  let rolePermissions := rolePermissions.filter (fun rp => decide (rp.RoleID ≠ roleID))
  if 0 < menuIDs.length then
    let docs := menuIDs.map (fun menuID =>
      ({ RoleID := roleID, MenuID := menuID, PermissionType := "menu", CreatedAt := now,
         UpdatedAt := now } : RolePermission))
    match insertManyUnique (fun rp => (rp.RoleID, rp.MenuID)) rolePermissions docs with
    | (rolePermissions, false) =>
      (rolePermissions, .error ("分配角色权限失败: " ++ duplicateKeyError))
    | (rolePermissions, true) => (rolePermissions, .ok ())
  else (rolePermissions, .ok ())

/-- `GetRolePermissions`. -/
def GetRolePermissions (rolePermissions : List RolePermission) (roleID : String) :
    List String :=
  (rolePermissions.filter (fun rp => decide (rp.RoleID = roleID))).map (fun rp => rp.MenuID)

end rbacRepository

/-! ## Role store and role service (`internal/repository/role_repository.go`,
`internal/service/role_service.go`) -/

/-- Body of `POST /roles` (`model.RoleCreateRequest`); an omitted `menu_ids` is the empty
list. -/
structure RoleCreateRequest where
  RoleName : String
  RoleKey : String
  CompanyID : String
  SortOrder : Int
  DataScope : String
  MenuIDs : List String
  Status : String
  Remark : String
deriving DecidableEq, Repr

/-- Body of `PUT /roles/:id` (`model.RoleUpdateRequest`); an omitted `menu_ids` is the empty
list. -/
structure RoleUpdateRequest where
  RoleName : String
  RoleKey : String
  SortOrder : Int
  DataScope : String
  MenuIDs : List String
  Status : String
  Remark : String
deriving DecidableEq, Repr

/-- Role as returned to the caller (`model.RoleInfo`). -/
structure RoleInfo where
  ID : String
  RoleID : String
  RoleName : String
  RoleKey : String
  CompanyID : String
  SortOrder : Int
  DataScope : String
  MenuIDs : List String
  Status : String
  Remark : String
  CreatedAt : Nat
  UpdatedAt : Nat
deriving DecidableEq, Repr

/-- The `updates` map (`bson.M`) of `UpdateRole`: an optional key is present when its field
is `some`; `menu_ids` and `updated_at` are always written. -/
structure RoleUpdates where
  role_name : Option String
  role_key : Option String
  sort_order : Option Int
  data_scope : Option String
  status : Option String
  remark : Option String
  menu_ids : List String
deriving DecidableEq, Repr

/-- The `$set` of `updates` together with `updated_at`. -/
def RoleUpdates.set (u : RoleUpdates) (now : Nat) (r : Role) : Role :=
  { r with
    RoleName := u.role_name.getD r.RoleName
    RoleKey := u.role_key.getD r.RoleKey
    SortOrder := u.sort_order.getD r.SortOrder
    DataScope := u.data_scope.getD r.DataScope
    Status := u.status.getD r.Status
    Remark := u.remark.getD r.Remark
    MenuIDs := u.menu_ids
    UpdatedAt := now }

/-- `UpdateOne` on any collection: applies `f` to the first document matching `p`. -/
def updateOne {α : Type} (p : α → Bool) (f : α → α) : List α → List α
  | [] => []
  | x :: xs => if p x then f x :: xs else x :: updateOne p f xs

namespace roleRepository

/-- `CreateRole`: stamps the times, generates the id when it is empty and inserts; the unique
indexes `idx_role_id_unique` and `idx_role_key_unique` reject a role id or a role key that is
already stored. Returns the store and the role as the caller sees it afterwards. -/
def CreateRole (roles : List Role) (role : Role) (env : Env) :
    List Role × Except String Role :=
  let role := { role with CreatedAt := env.now, UpdatedAt := env.now }
  let role := if role.RoleID = "" then
      { role with RoleID := GenerateID "ROLE" env.timestamp env.randomHex } else role
  if roles.any (fun r => decide (r.RoleID = role.RoleID) || decide (r.RoleKey = role.RoleKey))
  then (roles, .error ("创建角色失败: " ++ duplicateKeyError))
  else (roles ++ [{ role with ID := env.objectID }], .ok role)

/-- `GetRoleByID`. -/
def GetRoleByID (roles : List Role) (roleID : String) : Except String Role :=
  match roles.find? (fun r => decide (r.RoleID = roleID)) with
  | none => .error "角色不存在"
  | some role => .ok role

/-- `UpdateRole`: `UpdateOne` with `$set`; `MatchedCount == 0` is an error, and the unique
index `idx_role_key_unique` rejects a new role key that another stored role carries. -/
def UpdateRole (roles : List Role) (roleID : String) (updates : RoleUpdates) (now : Nat) :
    List Role × Except String Unit :=
  match roles.find? (fun r => decide (r.RoleID = roleID)) with
  | none => (roles, .error "角色不存在")
  | some role =>
    if (updates.set now role).RoleKey ≠ role.RoleKey ∧
        roles.any (fun r => decide (r.RoleKey = (updates.set now role).RoleKey)) = true then
      (roles, .error ("更新角色失败: " ++ duplicateKeyError))
    else (updateOne (fun r => decide (r.RoleID = roleID)) (updates.set now) roles, .ok ())

/-- `DeleteRole`: `DeleteOne`, `DeletedCount == 0` is an error. -/
def DeleteRole (roles : List Role) (roleID : String) : List Role × Except String Unit :=
  if roles.any (fun r => decide (r.RoleID = roleID)) then
    (roles.eraseP (fun r => decide (r.RoleID = roleID)), .ok ())
  else (roles, .error "角色不存在")

/-- `CheckRoleKeyExists`. -/
def CheckRoleKeyExists (roles : List Role) (roleKey excludeRoleID : String) : Bool :=
  decide (0 < roles.countP (fun r =>
    decide (r.RoleKey = roleKey) &&
      (decide (excludeRoleID = "") || decide (r.RoleID ≠ excludeRoleID))))

/-- `CheckRoleNameExists`. -/
def CheckRoleNameExists (roles : List Role) (roleName companyID excludeRoleID : String) :
    Bool :=
  decide (0 < roles.countP (fun r =>
    decide (r.RoleName = roleName) && decide (r.CompanyID = companyID) &&
      (decide (excludeRoleID = "") || decide (r.RoleID ≠ excludeRoleID))))

end roleRepository

namespace rbacRepository

/-- `RemovePermissionsFromRole`: `DeleteMany` on the rows of the role whose menu id is in the
list. -/
def RemovePermissionsFromRole (rolePermissions : List RolePermission) (roleID : String)
    (menuIDs : List String) : List RolePermission :=
  rolePermissions.filter (fun rp => !(decide (rp.RoleID = roleID) && decide (rp.MenuID ∈ menuIDs)))

/-- `GetUserPermissions`: the aggregation `$match` on `user_id`, `$lookup` of the
`role_permissions` rows with the same `role_id`, `$unwind`, `$group` by `menu_id`. The groups
come back in an order the server chooses; each menu id is one group. -/
def GetUserPermissions (userRoles : List UserRole) (rolePermissions : List RolePermission)
    (userID : String) : List String :=
  let matched := userRoles.filter (fun ur => decide (ur.UserID = userID))
  let unwound := matched.flatMap (fun ur =>
    (rolePermissions.filter (fun rp => decide (rp.RoleID = ur.RoleID))).map (fun rp => (ur, rp)))
  (unwound.map (fun row => row.2.MenuID)).dedup

/-- `CheckUserPermission`: the aggregation `$match` on `user_id`, `$lookup` and `$unwind` of
the `role_permissions` rows, `$lookup` and `$unwind` of the `menus` with the row's `menu_id`,
`$match` on `menu.permission_code`, `$limit` 1; the result is `len(results) > 0`. -/
def CheckUserPermission (userRoles : List UserRole) (rolePermissions : List RolePermission)
    (menus : List Menu) (userID permissionCode : String) : Bool :=
  let matched := userRoles.filter (fun ur => decide (ur.UserID = userID))
  let unwound := matched.flatMap (fun ur =>
    (rolePermissions.filter (fun rp => decide (rp.RoleID = ur.RoleID))).map (fun rp => (ur, rp)))
  let joined := unwound.flatMap (fun row =>
    (menus.filter (fun m => decide (m.MenuID = row.2.MenuID))).map (fun m => (row, m)))
  let results := (joined.filter (fun row => decide (row.2.PermissionCode = permissionCode))).take 1
  decide (0 < results.length)

end rbacRepository

/-- The collections the role service works on: `roles`, `role_permissions` and
`user_roles`. -/
structure RoleState where
  roles : List Role
  rolePermissions : List RolePermission
  userRoles : List UserRole
deriving DecidableEq, Repr

namespace roleService

/-- `roleModelToInfo`. -/
def roleModelToInfo (role : Role) : RoleInfo :=
  { ID := role.ID, RoleID := role.RoleID, RoleName := role.RoleName, RoleKey := role.RoleKey,
    CompanyID := role.CompanyID, SortOrder := role.SortOrder, DataScope := role.DataScope,
    MenuIDs := role.MenuIDs, Status := role.Status, Remark := role.Remark,
    CreatedAt := role.CreatedAt, UpdatedAt := role.UpdatedAt }

/-- `CreateRole`. The company lookup `GetCompanyByID` returns `(nil, nil)` for a company that
does not exist, so it only fails when storage does and is left out. -/
def CreateRole (st : RoleState) (req : RoleCreateRequest) (env : Env) :
    RoleState × Except String RoleInfo :=
  if roleRepository.CheckRoleKeyExists st.roles req.RoleKey "" then
    (st, .error ("角色标识符 " ++ req.RoleKey ++ " 已存在"))
  else if roleRepository.CheckRoleNameExists st.roles req.RoleName req.CompanyID "" then
    (st, .error ("角色名称 " ++ req.RoleName ++ " 已存在"))
  else
    let role : Role :=
      { ID := "", RoleID := GenerateID "ROLE" env.timestamp env.randomHex,
        RoleName := req.RoleName, RoleKey := req.RoleKey, CompanyID := req.CompanyID,
        SortOrder := req.SortOrder, DataScope := req.DataScope, MenuIDs := req.MenuIDs,
        Status := req.Status, Remark := req.Remark, CreatedAt := env.now,
        UpdatedAt := env.now }
    match roleRepository.CreateRole st.roles role env with
    | (_, .error err) => (st, .error ("创建角色失败: " ++ err))
    | (roles, .ok role) =>
      if 0 < req.MenuIDs.length then
        match rbacRepository.AssignPermissionsToRole st.rolePermissions role.RoleID req.MenuIDs
          env.now with
        | (rolePermissions, .error err) =>
          ({ st with roles := roles, rolePermissions := rolePermissions },
            .error ("分配角色权限失败: " ++ err))
        | (rolePermissions, .ok _) =>
          ({ st with roles := roles, rolePermissions := rolePermissions },
            .ok (roleModelToInfo role))
      else ({ st with roles := roles }, .ok (roleModelToInfo role))

/-- `GetRoleByID`. -/
def GetRoleByID (st : RoleState) (roleID : String) : Except String RoleInfo :=
  match roleRepository.GetRoleByID st.roles roleID with
  | .error err => .error ("获取角色失败: " ++ err)
  | .ok role =>
    .ok { roleModelToInfo role with
      MenuIDs := rbacRepository.GetRolePermissions st.rolePermissions roleID }

/-- `UpdateRole`. -/
def UpdateRole (st : RoleState) (roleID : String) (req : RoleUpdateRequest) (now : Nat) :
    RoleState × Except String RoleInfo :=
  match roleRepository.GetRoleByID st.roles roleID with
  | .error err => (st, .error ("角色不存在: " ++ err))
  | .ok existingRole =>
    if req.RoleKey ≠ "" ∧ req.RoleKey ≠ existingRole.RoleKey ∧
        roleRepository.CheckRoleKeyExists st.roles req.RoleKey roleID = true then
      (st, .error ("角色标识符 " ++ req.RoleKey ++ " 已存在"))
    else if req.RoleName ≠ "" ∧ req.RoleName ≠ existingRole.RoleName ∧
        roleRepository.CheckRoleNameExists st.roles req.RoleName existingRole.CompanyID
          roleID = true then
      (st, .error ("角色名称 " ++ req.RoleName ++ " 已存在"))
    else
      let updates : RoleUpdates :=
        { role_name := if req.RoleName ≠ "" then some req.RoleName else none
          role_key := if req.RoleKey ≠ "" then some req.RoleKey else none
          sort_order := if req.SortOrder ≠ 0 then some req.SortOrder else none
          data_scope := if req.DataScope ≠ "" then some req.DataScope else none
          status := if req.Status ≠ "" then some req.Status else none
          remark := if req.Remark ≠ "" then some req.Remark else none
          menu_ids := req.MenuIDs }
      match roleRepository.UpdateRole st.roles roleID updates now with
      | (_, .error err) => (st, .error ("更新角色失败: " ++ err))
      | (roles, .ok _) =>
        match rbacRepository.AssignPermissionsToRole st.rolePermissions roleID req.MenuIDs
          now with
        | (rolePermissions, .error err) =>
          ({ st with roles := roles, rolePermissions := rolePermissions },
            .error ("更新角色权限失败: " ++ err))
        | (rolePermissions, .ok _) =>
          ({ st with roles := roles, rolePermissions := rolePermissions },
            GetRoleByID { st with roles := roles, rolePermissions := rolePermissions } roleID)

/-- `DeleteRole`. -/
def DeleteRole (st : RoleState) (roleID : String) : RoleState × Except String Unit :=
  match roleRepository.GetRoleByID st.roles roleID with
  | .error err => (st, .error ("角色不存在: " ++ err))
  | .ok _ =>
    let menuIDs := rbacRepository.GetRolePermissions st.rolePermissions roleID
    let rolePermissions :=
      if 0 < menuIDs.length then
        rbacRepository.RemovePermissionsFromRole st.rolePermissions roleID menuIDs
      else st.rolePermissions
    match roleRepository.DeleteRole st.roles roleID with
    | (_, .error err) =>
      ({ st with rolePermissions := rolePermissions }, .error ("删除角色失败: " ++ err))
    | (roles, .ok _) => ({ st with roles := roles, rolePermissions := rolePermissions }, .ok ())

end roleService


/-! ## Menu list (`GetMenuList` of `internal/service/menu_service.go` and
`internal/repository/menu_repository.go`) -/

/-- Query of `GET /menus` (`model.MenuQueryRequest`); `Visible` is a `*bool`, `none` when the
parameter is absent. -/
structure MenuQueryRequest where
  MenuName : String
  MenuType : String
  Status : String
  Visible : Option Bool
  PermissionCode : String
deriving DecidableEq, Repr

/-- Answer of `GetMenuList` (`model.MenuListResponse`). -/
structure MenuListResponse where
  Menus : List MenuInfo
  Total : Nat
deriving Repr

/-- `menuRepository.GetMenuList`: `Find` with the filter, sorted by the store on
`(parent_id, sort_order, created_at)`, all ascending; strings are compared character by
character. -/
def menuRepository.GetMenuList (dbs : Sorter) (menus : List Menu) (filter : Menu → Bool) :
    List Menu :=
  dbs.sort (fun a b =>
      decide (a.ParentID.data < b.ParentID.data) ||
        (decide (a.ParentID = b.ParentID) &&
          (decide (a.SortOrder < b.SortOrder) ||
            (decide (a.SortOrder = b.SortOrder) && decide (a.CreatedAt < b.CreatedAt)))))
    (menus.filter filter)

/-- The `bson.M` filter `GetMenuList` builds from the request: one condition per field that is
set. `regexMatch pattern text` stands for the store's case-insensitive `$regex` match. -/
def menuService.GetMenuList.filter (regexMatch : String → String → Bool)
    (req : MenuQueryRequest) (m : Menu) : Bool :=
  (decide (req.MenuName = "") || regexMatch req.MenuName m.MenuName) &&
  (decide (req.MenuType = "") || decide (m.MenuType = req.MenuType)) &&
  (decide (req.Status = "") || decide (m.Status = req.Status)) &&
  (match req.Visible with
    | none => true
    | some v => decide (m.Visible = v)) &&
  (decide (req.PermissionCode = "") || regexMatch req.PermissionCode m.PermissionCode)

/-- `menuService.GetMenuList`: the tree built from the menus found, and their number. -/
def menuService.GetMenuList (srt dbs : Sorter) (regexMatch : String → String → Bool)
    (fuel : Nat) (menus : List Menu) (req : MenuQueryRequest) :
    Option (Except String MenuListResponse) :=
  let found := menuRepository.GetMenuList dbs menus
    (menuService.GetMenuList.filter regexMatch req)
  (buildMenuTree srt fuel found "").map
    (fun menuTree => .ok { Menus := menuTree, Total := found.length })


/-! ## Role list (`GetRoleList` and `GetRolesByCompanyID` of
`internal/repository/role_repository.go` and `internal/service/role_service.go`) -/

/-- How a call ends: it returns a value, or the Go runtime stops it with a run-time panic. -/
inductive Outcome (α : Type) where
  | returned (value : α)
  | fault (reason : String)

/-- Query of `GET /roles` (`model.RoleQueryRequest`); an absent `page` or `page_size` is
`0`. -/
structure RoleQueryRequest where
  Page : Int
  PageSize : Int
  RoleName : String
  RoleKey : String
  CompanyID : String
  DataScope : String
  Status : String
deriving DecidableEq, Repr

/-- The `binding` tags of `model.RoleQueryRequest` (`page`: `omitempty,min=1`; `page_size`:
`omitempty,min=1,max=100`), for values of the Go type `int`: `ShouldBindQuery` returns no
error only for a query that satisfies them. -/
def RoleQueryRequest.bindingOK (req : RoleQueryRequest) : Bool :=
  (decide (req.Page = 0) || decide (1 ≤ req.Page)) && decide (req.Page < 2 ^ 63) &&
  (decide (req.PageSize = 0) || (decide (1 ≤ req.PageSize) && decide (req.PageSize ≤ 100)))

/-- The `binding` tags of `model.RoleCreateRequest`: `ShouldBindJSON` returns no error only
for a body that satisfies them (`min` and `max` of a string count its characters). -/
def RoleCreateRequest.bindingOK (req : RoleCreateRequest) : Bool :=
  decide (req.RoleName ≠ "") && decide (2 ≤ req.RoleName.length) &&
    decide (req.RoleName.length ≤ 50) &&
  decide (req.RoleKey ≠ "") && decide (2 ≤ req.RoleKey.length) &&
    decide (req.RoleKey.length ≤ 50) &&
  decide (req.DataScope ≠ "") && decide (req.DataScope ∈ ["all", "company", "self"]) &&
  (decide (req.Status = "") || decide (req.Status ∈ ["enable", "disable"]))

/-- Answer of `GetRoleList` (`model.RoleListResponse`). -/
structure RoleListResponse where
  Roles : List RoleInfo
  Total : Int
  Page : Int
  PageSize : Int
  TotalPages : Int
deriving DecidableEq, Repr

/-- Arithmetic of the Go type `int` (64 bits, wrapping). -/
def wrapInt64 (x : Int) : Int :=
  (x + 2 ^ 63) % 2 ^ 64 - 2 ^ 63

/-- The error the server raises for a `find` with a negative `skip`. -/
def negativeSkipError : String := "BSON field 'skip' value must be >= 0"

/-- `roleRepository.GetRoleList`: `Find` with the filter, sorted by the store on `sort_order`
ascending and `created_at` descending, with `skip = (page - 1) * pageSize` and
`limit = pageSize`; a limit of `0` is no limit and a negative limit counts as its absolute
value. The second component is `CountDocuments` of the filter. -/
def roleRepository.GetRoleList (dbs : Sorter) (roles : List Role) (filter : Role → Bool)
    (page pageSize : Int) : Except String (List Role × Int) :=
  let skip := wrapInt64 ((page - 1) * pageSize)
  if skip < 0 then .error ("查询角色列表失败: " ++ negativeSkipError)
  else
    let sorted := dbs.sort (fun a b =>
        decide (a.SortOrder < b.SortOrder) ||
          (decide (a.SortOrder = b.SortOrder) && decide (b.CreatedAt < a.CreatedAt)))
      (roles.filter filter)
    let rest := sorted.drop skip.toNat
    let found := if pageSize = 0 then rest else rest.take pageSize.natAbs
    .ok (found, ((roles.filter filter).length : Int))

/-- `roleRepository.GetRolesByCompanyID`: the enabled roles whose `company_id` is the given
one or empty, sorted by the store on `sort_order`. -/
def roleRepository.GetRolesByCompanyID (dbs : Sorter) (roles : List Role)
    (companyID : String) : List Role :=
  dbs.sort (fun a b => decide (a.SortOrder < b.SortOrder))
    (roles.filter (fun r =>
      (decide (r.CompanyID = companyID) || decide (r.CompanyID = "")) &&
        decide (r.Status = "enable")))

/-- The `bson.M` filter `GetRoleList` builds from the request: one condition per field that is
not empty. `regexMatch pattern text` stands for the store's case-insensitive `$regex`
match. -/
def roleService.GetRoleList.filter (regexMatch : String → String → Bool)
    (req : RoleQueryRequest) (r : Role) : Bool :=
  (decide (req.RoleName = "") || regexMatch req.RoleName r.RoleName) &&
  (decide (req.RoleKey = "") || regexMatch req.RoleKey r.RoleKey) &&
  (decide (req.CompanyID = "") || decide (r.CompanyID = req.CompanyID)) &&
  (decide (req.DataScope = "") || decide (r.DataScope = req.DataScope)) &&
  (decide (req.Status = "") || decide (r.Status = req.Status))

/-- `roleService.GetRoleList`. The division that computes `totalPages` is the integer
division of Go: it truncates, and a zero divisor is a run-time panic. -/
def roleService.GetRoleList (dbs : Sorter) (regexMatch : String → String → Bool)
    (st : RoleState) (req : RoleQueryRequest) : Outcome (Except String RoleListResponse) :=
  match roleRepository.GetRoleList dbs st.roles (roleService.GetRoleList.filter regexMatch req)
      req.Page req.PageSize with
  | .error err => .returned (.error ("获取角色列表失败: " ++ err))
  | .ok (roles, total) =>
    let roleInfos := roles.map (fun role =>
      { roleService.roleModelToInfo role with
        MenuIDs := rbacRepository.GetRolePermissions st.rolePermissions role.RoleID })
    if req.PageSize = 0 then .fault "runtime error: integer divide by zero"
    else
      .returned (.ok
        { Roles := roleInfos, Total := total, Page := req.Page, PageSize := req.PageSize,
          TotalPages := Int.tdiv (total + req.PageSize - 1) req.PageSize })

/-! ## HTTP handlers (`internal/controller/role_controller.go`,
`internal/controller/menu_controller.go`) -/

/-- What a handler writes with `c.JSON(status, model.Response{Code, Message, Data})`. -/
structure HttpResponse (δ : Type) where
  Status : Nat
  Code : Nat
  Message : String
  Data : Option δ

/-- `http.StatusOK`. -/
def http.StatusOK : Nat := 200

/-- `http.StatusBadRequest`. -/
def http.StatusBadRequest : Nat := 400

/-- `http.StatusNotFound`. -/
def http.StatusNotFound : Nat := 404

/-- `http.StatusInternalServerError`. -/
def http.StatusInternalServerError : Nat := 500

/-- `c.JSON(code, model.Response{Code: code, Message: message})`. -/
def HttpResponse.failure {δ : Type} (code : Nat) (message : String) : HttpResponse δ :=
  { Status := code, Code := code, Message := message, Data := none }

/-- `c.JSON(http.StatusOK, model.Response{Code: http.StatusOK, Message: message, Data:
data})`. -/
def HttpResponse.success {δ : Type} (message : String) (data : Option δ) : HttpResponse δ :=
  { Status := http.StatusOK, Code := http.StatusOK, Message := message, Data := data }

namespace roleController

/-- `CreateRole`; `bound` is what `c.ShouldBindJSON(&req)` gave: the request, or the binding
error. -/
def CreateRole (st : RoleState) (bound : Except String RoleCreateRequest) (env : Env) :
    RoleState × HttpResponse RoleInfo :=
  match bound with
  | .error err => (st, .failure http.StatusBadRequest ("参数格式错误: " ++ err))
  | .ok req =>
    match roleService.CreateRole st req env with
    | (st, .error err) =>
      (st, .failure http.StatusInternalServerError ("创建角色失败: " ++ err))
    | (st, .ok role) => (st, .success "创建角色成功" (some role))

/-- `GetRoleList`; `bound` is what `c.ShouldBindQuery(&req)` gave. -/
def GetRoleList (dbs : Sorter) (regexMatch : String → String → Bool) (st : RoleState)
    (bound : Except String RoleQueryRequest) : Outcome (HttpResponse RoleListResponse) :=
  match bound with
  | .error err => .returned (.failure http.StatusBadRequest ("参数格式错误: " ++ err))
  | .ok req =>
    match roleService.GetRoleList dbs regexMatch st req with
    | .fault reason => .fault reason
    | .returned (.error err) =>
      .returned (.failure http.StatusInternalServerError ("获取角色列表失败: " ++ err))
    | .returned (.ok response) => .returned (.success "获取角色列表成功" (some response))

/-- `GetRoleByID`. -/
def GetRoleByID (st : RoleState) (roleID : String) : HttpResponse RoleInfo :=
  if roleID = "" then .failure http.StatusBadRequest "角色ID不能为空"
  else
    match roleService.GetRoleByID st roleID with
    | .error err =>
      if err = "角色不存在" then .failure http.StatusNotFound "角色不存在"
      else .failure http.StatusInternalServerError ("获取角色信息失败: " ++ err)
    | .ok role => .success "获取角色信息成功" (some role)

/-- `UpdateRole`; `bound` is what `c.ShouldBindJSON(&req)` gave. -/
def UpdateRole (st : RoleState) (roleID : String) (bound : Except String RoleUpdateRequest)
    (now : Nat) : RoleState × HttpResponse RoleInfo :=
  if roleID = "" then (st, .failure http.StatusBadRequest "角色ID不能为空")
  else
    match bound with
    | .error err => (st, .failure http.StatusBadRequest ("参数格式错误: " ++ err))
    | .ok req =>
      match roleService.UpdateRole st roleID req now with
      | (st, .error err) =>
        if err = "角色不存在" then (st, .failure http.StatusNotFound "角色不存在")
        else (st, .failure http.StatusInternalServerError ("更新角色失败: " ++ err))
      | (st, .ok role) => (st, .success "更新角色成功" (some role))

/-- `DeleteRole`. -/
def DeleteRole (st : RoleState) (roleID : String) : RoleState × HttpResponse Unit :=
  if roleID = "" then (st, .failure http.StatusBadRequest "角色ID不能为空")
  else
    match roleService.DeleteRole st roleID with
    | (st, .error err) =>
      if err = "角色不存在" then (st, .failure http.StatusNotFound "角色不存在")
      else (st, .failure http.StatusInternalServerError ("删除角色失败: " ++ err))
    | (st, .ok _) => (st, .success "删除角色成功" none)

/-- `GetRolesByCompanyID`: two calls of `GetRoleList`, the first for the company, the second
with an empty `CompanyID`; a failure of the second one is dropped. -/
def GetRolesByCompanyID (dbs : Sorter) (regexMatch : String → String → Bool) (st : RoleState)
    (companyID : String) : Outcome (HttpResponse (List RoleInfo)) :=
  if companyID = "" then .returned (.failure http.StatusBadRequest "公司ID不能为空")
  else
    let req : RoleQueryRequest :=
      { Page := 1, PageSize := 1000, RoleName := "", RoleKey := "", CompanyID := companyID,
        DataScope := "", Status := "enable" }
    match roleService.GetRoleList dbs regexMatch st req with
    | .fault reason => .fault reason
    | .returned (.error err) =>
      .returned (.failure http.StatusInternalServerError ("获取公司角色列表失败: " ++ err))
    | .returned (.ok response) =>
      let platformReq : RoleQueryRequest :=
        { Page := 1, PageSize := 1000, RoleName := "", RoleKey := "", CompanyID := "",
          DataScope := "", Status := "enable" }
      match roleService.GetRoleList dbs regexMatch st platformReq with
      | .fault reason => .fault reason
      | .returned (.error _) =>
        .returned (.success "获取公司角色列表成功" (some (response.Roles ++ [])))
      | .returned (.ok platformResponse) =>
        .returned (.success "获取公司角色列表成功"
          (some (response.Roles ++ platformResponse.Roles)))

end roleController

namespace menuController

/-- `CreateMenu`; `bound` is what `c.ShouldBindJSON(&req)` gave. -/
def CreateMenu (menus : List Menu) (bound : Except String MenuCreateRequest) (env : Env) :
    List Menu × HttpResponse MenuInfo :=
  match bound with
  | .error err => (menus, .failure http.StatusBadRequest ("参数格式错误: " ++ err))
  | .ok req =>
    match menuService.CreateMenu menus req env with
    | (menus, .error err) =>
      (menus, .failure http.StatusInternalServerError ("创建菜单失败: " ++ err))
    | (menus, .ok menu) => (menus, .success "创建菜单成功" (some menu))

/-- `GetMenuByID`. -/
def GetMenuByID (menus : List Menu) (menuID : String) : HttpResponse MenuInfo :=
  if menuID = "" then .failure http.StatusBadRequest "菜单ID不能为空"
  else
    match menuService.GetMenuByID menus menuID with
    | .error err =>
      .failure (if err = "菜单不存在" then http.StatusNotFound
        else http.StatusInternalServerError) ("获取菜单失败: " ++ err)
    | .ok menu => .success "获取菜单成功" (some menu)

/-- `UpdateMenu`; `bound` is what `c.ShouldBindJSON(&req)` gave. -/
def UpdateMenu (dbs : Sorter) (fuel : Nat) (menus : List Menu) (menuID : String)
    (bound : Except String MenuUpdateRequest) (now : Nat) :
    Option (List Menu × HttpResponse MenuInfo) :=
  if menuID = "" then some (menus, .failure http.StatusBadRequest "菜单ID不能为空")
  else
    match bound with
    | .error err => some (menus, .failure http.StatusBadRequest ("参数格式错误: " ++ err))
    | .ok req =>
      match menuService.UpdateMenu dbs fuel menus menuID req now with
      | none => none
      | some (menus, .error err) =>
        some (menus, .failure (if err = "菜单不存在" then http.StatusNotFound
          else http.StatusInternalServerError) ("更新菜单失败: " ++ err))
      | some (menus, .ok menu) => some (menus, .success "更新菜单成功" (some menu))

/-- `DeleteMenu`. -/
def DeleteMenu (menus : List Menu) (menuID : String) : List Menu × HttpResponse Unit :=
  if menuID = "" then (menus, .failure http.StatusBadRequest "菜单ID不能为空")
  else
    match menuService.DeleteMenu menus menuID with
    | (menus, .error err) =>
      (menus, .failure (if err = "菜单不存在" then http.StatusNotFound
        else http.StatusInternalServerError) ("删除菜单失败: " ++ err))
    | (menus, .ok _) => (menus, .success "删除菜单成功" none)

end menuController


/-! ## Password strength (`pkg/utils/password.go`) -/

/-- The part of the `regexp` syntax that `ValidatePassword` uses: a character class given by
ranges, possibly negated, and the alternation of two expressions. -/
inductive Regexp where
  | cls (negated : Bool) (ranges : List (Char × Char))
  | alt (a b : Regexp)

/-- Whether the expression matches at the start of the text. A class consumes one character,
which is in the class when it lies in one of the ranges (not in any of them, for a negated
class). -/
def Regexp.matchPrefix : Regexp → List Char → Bool
  | .cls _ _, [] => false
  | .cls negated ranges, c :: _ =>
    (ranges.any (fun r => decide (r.1 ≤ c) && decide (c ≤ r.2))) != negated
  | .alt a b, text => a.matchPrefix text || b.matchPrefix text

/-- `(*Regexp).MatchString`: the text contains a match, starting at any position. -/
def Regexp.MatchString (re : Regexp) (s : String) : Bool :=
  s.data.tails.any re.matchPrefix

/-- `regexp.MustCompile` of the pattern `[0-9]`. -/
def reNumber : Regexp := .cls false [('0', '9')]

/-- `regexp.MustCompile` of the pattern `[a-z]`. -/
def reLower : Regexp := .cls false [('a', 'z')]

/-- `regexp.MustCompile` of the pattern `[A-Z]|[^a-zA-Z0-9]`. -/
def reUpperOrSpecial : Regexp :=
  .alt (.cls false [('A', 'Z')]) (.cls true [('a', 'z'), ('A', 'Z'), ('0', '9')])

/-- `ValidatePassword`; `len(password)` is the length in bytes. -/
def ValidatePassword (password : String) : Bool :=
  if password.utf8ByteSize < 8 then false
  else
    let hasNumber := reNumber.MatchString password
    let hasLower := reLower.MatchString password
    let hasUpperOrSpecial := reUpperOrSpecial.MatchString password
    hasNumber && hasLower && hasUpperOrSpecial


/-! ## Properties of node lists and stores -/

/-- The menu ids are pairwise distinct (unique index `idx_menu_id_unique`). -/
def UniqueIDs (menus : List Menu) : Prop :=
  (menus.map (fun m => m.MenuID)).Nodup

instance (menus : List Menu) : Decidable (UniqueIDs menus) := by
  unfold UniqueIDs; infer_instance

/-- No stored menu has the empty id, which the code keeps for "no parent": the repository
generates an id for a menu inserted without one and the handlers reject an empty id. -/
def NonEmptyIDs (menus : List Menu) : Prop :=
  ∀ m ∈ menus, m.MenuID ≠ ""

instance (menus : List Menu) : Decidable (NonEmptyIDs menus) := by
  unfold NonEmptyIDs; infer_instance

/-- The parent links are acyclic: read as edges from `MenuID` to `ParentID` between id
strings they admit a height, so no chain of links comes back to where it started. -/
def AcyclicLinks (menus : List Menu) : Prop :=
  ∃ height : String → Nat, ∀ m ∈ menus, height m.MenuID < height m.ParentID

/-- Every non-empty `ParentID` is the id of a menu of the list. -/
def ParentsPresent (menus : List Menu) : Prop :=
  ∀ m ∈ menus, m.ParentID = "" ∨ ∃ p ∈ menus, p.MenuID = m.ParentID

instance (menus : List Menu) : Decidable (ParentsPresent menus) := by
  unfold ParentsPresent; infer_instance

/-- `Under menus pid x`: following the parent links upwards from `x` through menus of the
list meets the id `pid`. -/
inductive Under (menus : List Menu) (pid : String) : Menu → Prop
  | direct {x : Menu} : x.ParentID = pid → Under menus pid x
  | via {x p : Menu} : p ∈ menus → p.MenuID = x.ParentID → Under menus pid p →
      Under menus pid x

/-- `Descendant menus a d`: the stored menu `d` is a child, grandchild, ... of the menu `a`;
an empty `ParentID` is no link (it marks a root menu). -/
inductive Descendant (menus : List Menu) (a : Menu) : Menu → Prop
  | child {d : Menu} : d ∈ menus → d.ParentID ≠ "" → d.ParentID = a.MenuID →
      Descendant menus a d
  | step {p d : Menu} : Descendant menus a p → d ∈ menus → d.ParentID ≠ "" →
      d.ParentID = p.MenuID → Descendant menus a d

/-- A menu the user navigation filter drops: disabled, invisible or a button. -/
def Hidden (m : Menu) : Prop :=
  m.Status ≠ "enable" ∨ m.Visible = false ∨ m.MenuType = "button"

instance (m : Menu) : Decidable (Hidden m) := by
  unfold Hidden; infer_instance

/-- `reachesRoot menus k pid`: following `parent_id` links from the id `pid` reaches an
empty `parent_id` within `k` steps. -/
def reachesRoot (menus : List Menu) : Nat → String → Bool
  | 0, pid => decide (pid = "")
  | k + 1, pid =>
    if pid = "" then true
    else
      match menus.find? (fun m => decide (m.MenuID = pid)) with
      | none => false
      | some p => reachesRoot menus k p.ParentID

/-- The forest invariant: from every menu the parent links reach a root within as many steps
as there are menus. -/
def Forest (menus : List Menu) : Prop :=
  ∀ m ∈ menus, reachesRoot menus menus.length m.ParentID = true

instance (menus : List Menu) : Decidable (Forest menus) := by
  unfold Forest; infer_instance

/-! ## Sample data -/

/-- A menu document with the given id, parent, sort order, status, visibility, type and
creation time; the other fields are empty. -/
def sampleMenu (menuID parentID : String) (sortOrder : Int) (status : String) (visible : Bool)
    (menuType : String) (createdAt : Nat) : Menu :=
  { ID := "", MenuID := menuID, ParentID := parentID, MenuName := menuID, MenuType := menuType,
    RoutePath := "", Component := "", PermissionCode := "", Icon := "", SortOrder := sortOrder,
    Visible := visible, Status := status, CreatedAt := createdAt, UpdatedAt := createdAt }

/-- A node list whose only menu names a parent that is not in the list. -/
def orphanList : List Menu :=
  [sampleMenu "child" "missing" 1 "enable" true "menu" 1]

/-- A directory with two pages, one of them with a button. -/
def sampleMenus : List Menu :=
  [sampleMenu "sys" "" 1 "enable" true "directory" 1,
   sampleMenu "users" "sys" 2 "enable" true "menu" 2,
   sampleMenu "roles" "sys" 1 "enable" true "menu" 3,
   sampleMenu "roles:add" "roles" 1 "enable" true "button" 4]

/-- A height for the ids of `sampleMenus`. -/
def sampleHeight (id : String) : Nat :=
  if id = "" then 3 else if id = "sys" then 2 else if id = "roles" ∨ id = "users" then 1 else 0


/-- A role document with the given id, status and granted menu ids. -/
def sampleRole (roleID status : String) (menuIDs : List String) : Role :=
  { ID := "", RoleID := roleID, RoleName := roleID, RoleKey := roleID, CompanyID := "",
    SortOrder := 0, DataScope := "all", MenuIDs := menuIDs, Status := status, Remark := "",
    CreatedAt := 0, UpdatedAt := 0 }

/-- A store with a disabled directory `admin` (holding the enabled page `audit`, which holds
the enabled page `trail`), an invisible page and a button. -/
def navMenus : List Menu :=
  [sampleMenu "home" "" 1 "enable" true "menu" 1,
   sampleMenu "admin" "" 2 "disable" true "directory" 2,
   sampleMenu "audit" "admin" 1 "enable" true "menu" 3,
   sampleMenu "trail" "audit" 1 "enable" true "menu" 4,
   sampleMenu "secret" "" 3 "enable" false "menu" 5,
   sampleMenu "home:add" "home" 1 "enable" true "button" 6]

/-- One enabled role that grants every menu of `navMenus`. -/
def navRoles : List Role :=
  [sampleRole "R1" "enable" ["home", "admin", "audit", "trail", "secret", "home:add"]]


/-- Rows of `user_roles`: user `U1` holds `R1` and `R2`, user `U2` holds `R1`. -/
def sampleUserRoles : List UserRole :=
  [⟨"U1", "R1", 0, 0⟩, ⟨"U1", "R2", 0, 0⟩, ⟨"U2", "R1", 0, 0⟩]

/-- Rows of `role_permissions`: role `R1` grants `M1` and `M3`, role `R2` grants `M1`. -/
def sampleRolePermissions : List RolePermission :=
  [⟨"R1", "M1", "menu", 0, 0⟩, ⟨"R1", "M3", "menu", 0, 0⟩, ⟨"R2", "M1", "menu", 0, 0⟩]


/-- `DescId menus a c`: the id `c` is met below the id `a`, walking down through the menus
whose `ParentID` is the id reached so far (the walk of `isChildMenu`). -/
inductive DescId (menus : List Menu) : String → String → Prop
  | child {a c : String} {ch : Menu} : ch ∈ menus → ch.ParentID = a → ch.MenuID = c →
      DescId menus a c
  | step {a c : String} {ch : Menu} : ch ∈ menus → ch.ParentID = a →
      DescId menus ch.MenuID c → DescId menus a c

/-- `Rooted menus n pid`: following `parent_id` links from the id `pid` reaches an empty
`parent_id` after exactly `n` links. -/
inductive Rooted (menus : List Menu) : Nat → String → Prop
  | root : Rooted menus 0 ""
  | step {n : Nat} {pid : String} {p : Menu} : pid ≠ "" →
      menus.find? (fun m => decide (m.MenuID = pid)) = some p → Rooted menus n p.ParentID →
      Rooted menus (n + 1) pid

/-- A call of the menu service that can change the menu store. -/
inductive MenuOp where
  | create (req : MenuCreateRequest) (env : Env)
  | update (menuID : String) (req : MenuUpdateRequest) (now : Nat)
  | delete (menuID : String)
  | batchStatus (req : BatchUpdateMenuStatusRequest) (now : Nat)

/-- The store after one call, whether the call succeeded or returned an error. -/
def MenuOp.apply (dbs : Sorter) (fuel : Nat) (menus : List Menu) : MenuOp → Option (List Menu)
  | .create req env => some (menuService.CreateMenu menus req env).1
  | .update menuID req now =>
    (menuService.UpdateMenu dbs fuel menus menuID req now).map (fun r => r.1)
  | .delete menuID => some (menuService.DeleteMenu menus menuID).1
  | .batchStatus req now => some (menuService.BatchUpdateMenuStatus menus req now).1

/-- The store after a sequence of calls executed one after the other. -/
def runOps (dbs : Sorter) (fuel : Nat) : List Menu → List MenuOp → Option (List Menu)
  | menus, [] => some menus
  | menus, op :: ops =>
    match op.apply dbs fuel menus with
    | none => none
    | some menus => runOps dbs fuel menus ops


/-- A request of `PUT /menus/:id` that names the given parent and leaves the other fields
empty. -/
def reparentRequest (parentID : String) : MenuUpdateRequest :=
  { ParentID := parentID, MenuName := "", MenuType := "", RoutePath := "", Component := "",
    PermissionCode := "", Icon := "", SortOrder := 0, Visible := true, Status := "" }


/-- A request of `POST /menus` for an enabled, visible page with the given name and
parent. -/
def createRequest (parentID menuName : String) : MenuCreateRequest :=
  { ParentID := parentID, MenuName := menuName, MenuType := "menu", RoutePath := "",
    Component := "", PermissionCode := "", Icon := "", SortOrder := 5, Visible := true,
    Status := "" }

/-- A sequence of calls on `sampleMenus`: a page is created under `users`, `roles` is moved
under `users`, moving `sys` under its descendant `roles:add` is refused, deleting `users`
is refused, `roles:add` is deleted and two menus are disabled. -/
def sampleOps : List MenuOp :=
  [MenuOp.create (createRequest "users" "profile") ⟨10, 1700000000, "0A1B2C3D", "oid1"⟩,
   MenuOp.update "roles" (reparentRequest "users") 11,
   MenuOp.update "sys" (reparentRequest "roles:add") 12,
   MenuOp.delete "users",
   MenuOp.delete "roles:add",
   MenuOp.batchStatus ⟨["sys", "users"], "disable"⟩ 13]


/-- Two root pages with the same sort order; the store returns the page created later
first. -/
def tieMenus : List Menu :=
  [sampleMenu "late" "" 1 "enable" true "menu" 20,
   sampleMenu "early" "" 1 "enable" true "menu" 10]

/-- One enabled role that grants both pages of `tieMenus`. -/
def tieRoles : List Role :=
  [sampleRole "R1" "enable" ["early", "late"]]


/-- A state in which user `U1` holds the roles `R1` and `R2` and user `U2` the role `R1`;
both roles are enabled. -/
def sampleState : RoleState :=
  { roles := [sampleRole "R1" "enable" ["M1", "M3"], sampleRole "R2" "enable" ["M1"]]
    rolePermissions := sampleRolePermissions
    userRoles := sampleUserRoles }

/-- The state `sampleState` with the role `R1` disabled. -/
def sampleStateDisabled : RoleState :=
  { roles := [sampleRole "R1" "disable" ["M1", "M3"], sampleRole "R2" "enable" ["M1"]]
    rolePermissions := sampleRolePermissions
    userRoles := sampleUserRoles }

/-- A role whose `menu_ids` holds the empty string next to a menu id. -/
def blankGrantRoles : List Role :=
  [sampleRole "R1" "enable" ["", "M1"]]

/-- A menu store whose only menu is disabled and carries the permission code `user:add`. -/
def disabledCodeMenus : List Menu :=
  [{ sampleMenu "M1" "" 1 "disable" true "button" 1 with PermissionCode := "user:add" }]


/-- The role ids are pairwise distinct (unique index `idx_role_id_unique`). -/
def UniqueRoleIDs (roles : List Role) : Prop :=
  (roles.map (fun r => r.RoleID)).Nodup

instance (roles : List Role) : Decidable (UniqueRoleIDs roles) := by
  unfold UniqueRoleIDs; infer_instance

/-- No two roles share a `role_key`. -/
def UniqueRoleKeys (roles : List Role) : Prop :=
  roles.Pairwise (fun a b => a.RoleKey ≠ b.RoleKey)

instance (roles : List Role) : Decidable (UniqueRoleKeys roles) := by
  unfold UniqueRoleKeys; infer_instance

/-- No two roles with the same `company_id` share a `role_name`. -/
def UniqueRoleNames (roles : List Role) : Prop :=
  roles.Pairwise (fun a b => a.CompanyID = b.CompanyID → a.RoleName ≠ b.RoleName)

instance (roles : List Role) : Decidable (UniqueRoleNames roles) := by
  unfold UniqueRoleNames; infer_instance

/-- Grant synchronisation: for every stored role, the menu ids embedded in the role and the
menu ids of its `role_permission` rows are the same set. -/
def GrantsSynced (st : RoleState) : Prop :=
  ∀ r ∈ st.roles,
    (∀ m ∈ r.MenuIDs, m ∈ rbacRepository.GetRolePermissions st.rolePermissions r.RoleID) ∧
    (∀ m ∈ rbacRepository.GetRolePermissions st.rolePermissions r.RoleID, m ∈ r.MenuIDs)

instance (st : RoleState) : Decidable (GrantsSynced st) := by
  unfold GrantsSynced; infer_instance

/-- Every `role_permission` row belongs to a stored role. -/
def RowsOwned (st : RoleState) : Prop :=
  ∀ rp ∈ st.rolePermissions, ∃ r ∈ st.roles, r.RoleID = rp.RoleID

instance (st : RoleState) : Decidable (RowsOwned st) := by
  unfold RowsOwned; infer_instance

/-- A call of the role service that can change the state. -/
inductive RoleOp where
  | create (req : RoleCreateRequest) (env : Env)
  | update (roleID : String) (req : RoleUpdateRequest) (now : Nat)
  | delete (roleID : String)

/-- The state after one call, whether the call succeeded or returned an error. -/
def RoleOp.apply (st : RoleState) : RoleOp → RoleState
  | .create req env => (roleService.CreateRole st req env).1
  | .update roleID req now => (roleService.UpdateRole st roleID req now).1
  | .delete roleID => (roleService.DeleteRole st roleID).1

/-- The `menu_ids` list a call carries. -/
def RoleOp.menuIDs : RoleOp → List String
  | .create req _ => req.MenuIDs
  | .update _ req _ => req.MenuIDs
  | .delete _ => []

/-- The state after a sequence of calls executed one after the other. -/
def runRoleOps : RoleState → List RoleOp → RoleState
  | st, [] => st
  | st, op :: ops => runRoleOps (op.apply st) ops

/-- The role document `CreateRole` stores for a request. -/
def createdRole (req : RoleCreateRequest) (env : Env) : Role :=
  { ID := env.objectID, RoleID := GenerateID "ROLE" env.timestamp env.randomHex,
    RoleName := req.RoleName, RoleKey := req.RoleKey, CompanyID := req.CompanyID,
    SortOrder := req.SortOrder, DataScope := req.DataScope, MenuIDs := req.MenuIDs,
    Status := req.Status, Remark := req.Remark, CreatedAt := env.now, UpdatedAt := env.now }

/-- The `role_permission` rows `AssignPermissionsToRole` writes for a list of menu ids. -/
def grantRows (roleID : String) (menuIDs : List String) (now : Nat) : List RolePermission :=
  menuIDs.map (fun menuID =>
    ({ RoleID := roleID, MenuID := menuID, PermissionType := "menu", CreatedAt := now,
       UpdatedAt := now } : RolePermission))


/-- A request of `POST /roles` for an enabled role of company `C1` with the given name, key
and menu ids. -/
def roleCreateRequest (roleName roleKey : String) (menuIDs : List String) :
    RoleCreateRequest :=
  { RoleName := roleName, RoleKey := roleKey, CompanyID := "C1", SortOrder := 1,
    DataScope := "all", MenuIDs := menuIDs, Status := "enable", Remark := "" }

/-- A request of `PUT /roles/:id` that sets the given name, key and menu ids and leaves the
other fields empty. -/
def roleUpdateRequest (roleName roleKey : String) (menuIDs : List String) :
    RoleUpdateRequest :=
  { RoleName := roleName, RoleKey := roleKey, SortOrder := 0, DataScope := "",
    MenuIDs := menuIDs, Status := "", Remark := "" }

/-- A sequence of calls on `sampleState`: a role `auditor` is created, a second role with the
key `auditor` is refused, renaming `R2` to the name of `R1` is refused, `R2` gets a new key
and new grants, and `R1` is deleted. -/
def sampleRoleOps : List RoleOp :=
  [RoleOp.create (roleCreateRequest "Auditor" "auditor" ["M1", "M2"])
     ⟨10, 1700000000, "0A1B2C3D", "oid1"⟩,
   RoleOp.create (roleCreateRequest "Other" "auditor" [])
     ⟨11, 1700000001, "0A1B2C3E", "oid2"⟩,
   RoleOp.update "R2" (roleUpdateRequest "R1" "" ["M1"]) 12,
   RoleOp.update "R2" (roleUpdateRequest "" "r2" ["M2", "M3"]) 13,
   RoleOp.delete "R1"]


/-- The state with no role, no `role_permission` row and no `user_role` row. -/
def emptyState : RoleState :=
  { roles := [], rolePermissions := [], userRoles := [] }


/-- Two root pages: `M1` is enabled and visible, `M2` is disabled. -/
def scenarioMenus : List Menu :=
  [sampleMenu "M1" "" 1 "enable" true "menu" 1, sampleMenu "M2" "" 2 "disable" true "menu" 2]


/-- No two menus with the same `parent_id` share a `menu_name`. -/
def UniqueSiblingNames (menus : List Menu) : Prop :=
  menus.Pairwise (fun a b => a.ParentID = b.ParentID → a.MenuName ≠ b.MenuName)

instance (menus : List Menu) : Decidable (UniqueSiblingNames menus) := by
  unfold UniqueSiblingNames; infer_instance

/-- Two root directories `P1` and `P2`; the page `A` under `P1` and the page `B` under `P2`
are both named `X`. -/
def clashMenus : List Menu :=
  [sampleMenu "P1" "" 1 "enable" true "directory" 1,
   sampleMenu "P2" "" 2 "enable" true "directory" 2,
   { sampleMenu "A" "P1" 1 "enable" true "menu" 3 with MenuName := "X" },
   { sampleMenu "B" "P2" 1 "enable" true "menu" 4 with MenuName := "X" }]


/-- A query of `GET /menus` that asks for the enabled menus only. -/
def enabledQuery : MenuQueryRequest :=
  { MenuName := "", MenuType := "", Status := "enable", Visible := none, PermissionCode := "" }


/-- A body of `POST /roles` without `status`, `company_id`, `menu_ids` and `remark`. -/
def statuslessRoleRequest : RoleCreateRequest :=
  { RoleName := "Auditor", RoleKey := "auditor", CompanyID := "", SortOrder := 0,
    DataScope := "all", MenuIDs := [], Status := "", Remark := "" }


/-- A role document of the given company with the given id, status and sort order. -/
def companyRole (roleID companyID status : String) (sortOrder : Int) : Role :=
  { sampleRole roleID status [] with CompanyID := companyID, SortOrder := sortOrder }

/-- A state with the enabled roles `A` of company `C1`, `B` of company `C2` and the platform
role `P`, and the disabled role `D` of company `C1`. -/
def companyState : RoleState :=
  { roles := [companyRole "A" "C1" "enable" 1, companyRole "B" "C2" "enable" 2,
      companyRole "P" "" "enable" 3, companyRole "D" "C1" "disable" 4]
    rolePermissions := []
    userRoles := [] }

/-- The query of `GET /roles` without any parameter. -/
def emptyRoleQuery : RoleQueryRequest :=
  { Page := 0, PageSize := 0, RoleName := "", RoleKey := "", CompanyID := "", DataScope := "",
    Status := "" }


/-- Two roles over `sampleMenus`: the enabled `R1` grants `sys` and `users`, the disabled `R2`
grants `roles` and `users`. -/
def mixedRoles : List Role :=
  [sampleRole "R1" "enable" ["sys", "users"], sampleRole "R2" "disable" ["roles", "users"]]

/-! # Properties

## The tree builders -/

theorem rangeChildren_some {β : Type} (recTree : String → Option (List β))
    (node : Menu → List β → β) (pid : String) :
    ∀ (menus : List Menu) (l : List β), rangeChildren recTree node pid menus = some l →
      (∀ m ∈ menus, m.ParentID = pid → (recTree m.MenuID).isSome = true) ∧
      l = (menus.filter (fun m => decide (m.ParentID = pid))).map
        (fun m => node m ((recTree m.MenuID).getD [])) := by
  intro menus
  induction menus with
  | nil =>
    intro l h
    simp [rangeChildren] at h
    simp [h]
  | cons x xs ih =>
    intro l h
    unfold rangeChildren at h
    by_cases hx : x.ParentID = pid
    · simp only [hx, if_true] at h
      cases hrec : recTree x.MenuID with
      | none => simp [hrec] at h
      | some ch =>
        simp only [hrec] at h
        cases hrest : rangeChildren recTree node pid xs with
        | none => simp [hrest] at h
        | some tl =>
          simp only [hrest, Option.some.injEq] at h
          obtain ⟨h1, h2⟩ := ih tl hrest
          refine ⟨?_, ?_⟩
          · intro m hm hp
            rcases List.mem_cons.1 hm with rfl | hm
            · simp [hrec]
            · exact h1 m hm hp
          · simp [List.filter_cons, hx, hrec, ← h, h2]
    · simp only [hx, if_false] at h
      obtain ⟨h1, h2⟩ := ih l h
      refine ⟨?_, ?_⟩
      · intro m hm hp
        rcases List.mem_cons.1 hm with rfl | hm
        · exact absurd hp hx
        · exact h1 m hm hp
      · simp [List.filter_cons, hx, h2]

theorem rangeChildren_of_isSome {β : Type} (recTree : String → Option (List β))
    (node : Menu → List β → β) (pid : String) :
    ∀ (menus : List Menu),
      (∀ m ∈ menus, m.ParentID = pid → (recTree m.MenuID).isSome = true) →
      rangeChildren recTree node pid menus =
        some ((menus.filter (fun m => decide (m.ParentID = pid))).map
          (fun m => node m ((recTree m.MenuID).getD []))) := by
  intro menus
  induction menus with
  | nil => intro _; simp [rangeChildren]
  | cons x xs ih =>
    intro h
    have hxs := ih (fun m hm hp => h m (List.mem_cons_of_mem _ hm) hp)
    unfold rangeChildren
    by_cases hx : x.ParentID = pid
    · have hsome := h x (List.mem_cons_self _ _) hx
      obtain ⟨ch, hch⟩ := Option.isSome_iff_exists.1 hsome
      simp [hx, hch, hxs, List.filter_cons]
    · simp [hx, hxs, List.filter_cons]

theorem Sorter.sorted_key (srt : Sorter) {α : Type} (key : α → Int) (l : List α) :
    (srt.sort (fun a b => decide (key a < key b)) l).Pairwise (fun a b => key a ≤ key b) := by
  have h := srt.sorted (fun a b => decide (key a < key b))
    (by intro a b c h1 h2; simp only [decide_eq_false_iff_not, not_lt] at *; omega)
    (by intro a b h1; simp only [decide_eq_true_eq, decide_eq_false_iff_not, not_lt] at *; omega) l
  refine h.imp ?_
  intro a b hab
  simpa using hab

theorem MenuInfo.flatList_eq_flatMap (l : List MenuInfo) :
    MenuInfo.flatList l = l.flatMap MenuInfo.flat := by
  induction l with
  | nil => simp [MenuInfo.flatList]
  | cons t ts ih => simp [MenuInfo.flatList, ih]

theorem MenuInfo.flat_node (m : Menu) (ch : List MenuInfo) :
    MenuInfo.flat ((convertToMenuInfo m).withChildren ch) = m :: MenuInfo.flatList ch := by
  simp [convertToMenuInfo, MenuInfo.withChildren, MenuInfo.flat]

theorem MenuInfo.groupsList_eq_flatMap (l : List MenuInfo) :
    MenuInfo.groupsList l = l.flatMap MenuInfo.groups := by
  induction l with
  | nil => simp [MenuInfo.groupsList]
  | cons t ts ih => simp [MenuInfo.groupsList, ih]

theorem MenuInfo.groups_node (m : Menu) (ch : List MenuInfo) :
    MenuInfo.groups ((convertToMenuInfo m).withChildren ch) = MenuInfo.siblingGroups ch := by
  simp [convertToMenuInfo, MenuInfo.withChildren, MenuInfo.groups, MenuInfo.siblingGroups]

theorem MenuInfo.sortOrder_node (m : Menu) (ch : List MenuInfo) :
    ((convertToMenuInfo m).withChildren ch).SortOrder = m.SortOrder := by
  simp [convertToMenuInfo, MenuInfo.withChildren, MenuInfo.SortOrder]


theorem UserMenuResponse.nodesList_eq_flatMap (l : List UserMenuResponse) :
    UserMenuResponse.nodesList l = l.flatMap UserMenuResponse.nodes := by
  induction l with
  | nil => simp [UserMenuResponse.nodesList]
  | cons t ts ih => simp [UserMenuResponse.nodesList, ih]

theorem UserMenuResponse.userGroupsList_eq_flatMap (l : List UserMenuResponse) :
    UserMenuResponse.groupsList l = l.flatMap UserMenuResponse.groups := by
  induction l with
  | nil => simp [UserMenuResponse.groupsList]
  | cons t ts ih => simp [UserMenuResponse.groupsList, ih]

theorem buildMenuTree_some (srt : Sorter) (fuel : Nat) (menus : List Menu) (pid : String)
    (t : List MenuInfo) (h : buildMenuTree srt (fuel + 1) menus pid = some t) :
    (∀ m ∈ menus, m.ParentID = pid → (buildMenuTree srt fuel menus m.MenuID).isSome = true) ∧
    t = srt.sort (fun a b => decide (a.SortOrder < b.SortOrder))
      ((menus.filter (fun m => decide (m.ParentID = pid))).map
        (fun m => (convertToMenuInfo m).withChildren
          ((buildMenuTree srt fuel menus m.MenuID).getD []))) := by
  simp only [buildMenuTree, Option.map_eq_some'] at h
  obtain ⟨l, hl, rfl⟩ := h
  obtain ⟨h1, h2⟩ := rangeChildren_some _ _ _ _ _ hl
  exact ⟨h1, by rw [h2]⟩

theorem buildMenuTree_of_isSome (srt : Sorter) (fuel : Nat) (menus : List Menu) (pid : String)
    (h : ∀ m ∈ menus, m.ParentID = pid →
      (buildMenuTree srt fuel menus m.MenuID).isSome = true) :
    buildMenuTree srt (fuel + 1) menus pid =
      some (srt.sort (fun a b => decide (a.SortOrder < b.SortOrder))
        ((menus.filter (fun m => decide (m.ParentID = pid))).map
          (fun m => (convertToMenuInfo m).withChildren
            ((buildMenuTree srt fuel menus m.MenuID).getD [])))) := by
  simp only [buildMenuTree]
  rw [rangeChildren_of_isSome _ _ _ _ h]
  rfl

theorem buildUserMenuTree_some (srt : Sorter) (fuel : Nat) (menus : List Menu) (pid : String)
    (t : List UserMenuResponse) (h : buildUserMenuTree srt (fuel + 1) menus pid = some t) :
    (∀ m ∈ menus, m.ParentID = pid →
      (buildUserMenuTree srt fuel menus m.MenuID).isSome = true) ∧
    t = srt.sort (fun a b => decide (a.SortOrder < b.SortOrder))
      ((menus.filter (fun m => decide (m.ParentID = pid))).map
        (fun m => UserMenuResponse.mk m.MenuID m.MenuName m.RoutePath m.Component m.Icon
          m.SortOrder ((buildUserMenuTree srt fuel menus m.MenuID).getD []))) := by
  simp only [buildUserMenuTree, Option.map_eq_some'] at h
  obtain ⟨l, hl, rfl⟩ := h
  obtain ⟨h1, h2⟩ := rangeChildren_some _ _ _ _ _ hl
  exact ⟨h1, by rw [h2]⟩

theorem buildUserMenuTree_of_isSome (srt : Sorter) (fuel : Nat) (menus : List Menu)
    (pid : String)
    (h : ∀ m ∈ menus, m.ParentID = pid →
      (buildUserMenuTree srt fuel menus m.MenuID).isSome = true) :
    buildUserMenuTree srt (fuel + 1) menus pid =
      some (srt.sort (fun a b => decide (a.SortOrder < b.SortOrder))
        ((menus.filter (fun m => decide (m.ParentID = pid))).map
          (fun m => UserMenuResponse.mk m.MenuID m.MenuName m.RoutePath m.Component m.Icon
            m.SortOrder ((buildUserMenuTree srt fuel menus m.MenuID).getD [])))) := by
  simp only [buildUserMenuTree]
  rw [rangeChildren_of_isSome _ _ _ _ h]
  rfl

/-- More fuel does not change a tree that was already returned. -/
theorem buildMenuTree_mono (srt : Sorter) (menus : List Menu) :
    ∀ (fuel : Nat) (pid : String) (t : List MenuInfo),
      buildMenuTree srt fuel menus pid = some t →
      buildMenuTree srt (fuel + 1) menus pid = some t := by
  intro fuel
  induction fuel with
  | zero => intro pid t h; simp [buildMenuTree] at h
  | succ k ih =>
    intro pid t h
    obtain ⟨h1, h2⟩ := buildMenuTree_some srt k menus pid t h
    have h3 : ∀ m ∈ menus, m.ParentID = pid →
        (buildMenuTree srt (k + 1) menus m.MenuID).isSome = true := by
      intro m hm hp
      obtain ⟨ch, hch⟩ := Option.isSome_iff_exists.1 (h1 m hm hp)
      simp [ih _ _ hch]
    rw [buildMenuTree_of_isSome srt (k + 1) menus pid h3, h2]
    congr 2
    apply List.map_congr_left
    intro m hm
    have hm' := List.mem_filter.1 hm
    obtain ⟨ch, hch⟩ := Option.isSome_iff_exists.1 (h1 m hm'.1 (by simpa using hm'.2))
    rw [ih _ _ hch, hch]

theorem buildMenuTree_mono_le (srt : Sorter) (menus : List Menu) (fuel k : Nat) (hk : fuel ≤ k)
    (pid : String) (t : List MenuInfo) (h : buildMenuTree srt fuel menus pid = some t) :
    buildMenuTree srt k menus pid = some t := by
  induction hk with
  | refl => exact h
  | step _ ih => exact buildMenuTree_mono srt menus _ pid t ih

theorem buildUserMenuTree_mono (srt : Sorter) (menus : List Menu) :
    ∀ (fuel : Nat) (pid : String) (t : List UserMenuResponse),
      buildUserMenuTree srt fuel menus pid = some t →
      buildUserMenuTree srt (fuel + 1) menus pid = some t := by
  intro fuel
  induction fuel with
  | zero => intro pid t h; simp [buildUserMenuTree] at h
  | succ k ih =>
    intro pid t h
    obtain ⟨h1, h2⟩ := buildUserMenuTree_some srt k menus pid t h
    have h3 : ∀ m ∈ menus, m.ParentID = pid →
        (buildUserMenuTree srt (k + 1) menus m.MenuID).isSome = true := by
      intro m hm hp
      obtain ⟨ch, hch⟩ := Option.isSome_iff_exists.1 (h1 m hm hp)
      simp [ih _ _ hch]
    rw [buildUserMenuTree_of_isSome srt (k + 1) menus pid h3, h2]
    congr 2
    apply List.map_congr_left
    intro m hm
    have hm' := List.mem_filter.1 hm
    obtain ⟨ch, hch⟩ := Option.isSome_iff_exists.1 (h1 m hm'.1 (by simpa using hm'.2))
    rw [ih _ _ hch, hch]

theorem buildUserMenuTree_mono_le (srt : Sorter) (menus : List Menu) (fuel k : Nat)
    (hk : fuel ≤ k) (pid : String) (t : List UserMenuResponse)
    (h : buildUserMenuTree srt fuel menus pid = some t) :
    buildUserMenuTree srt k menus pid = some t := by
  induction hk with
  | refl => exact h
  | step _ ih => exact buildUserMenuTree_mono srt menus _ pid t ih

theorem buildMenuTree_groups_sorted (srt : Sorter) (menus : List Menu) :
    ∀ (fuel : Nat) (pid : String) (t : List MenuInfo),
      buildMenuTree srt fuel menus pid = some t →
      ∀ g ∈ MenuInfo.siblingGroups t, g.Pairwise (fun a b => a.SortOrder ≤ b.SortOrder) := by
  intro fuel
  induction fuel with
  | zero => intro pid t h; simp [buildMenuTree] at h
  | succ k ih =>
    intro pid t h g hg
    obtain ⟨h1, h2⟩ := buildMenuTree_some srt k menus pid t h
    simp only [MenuInfo.siblingGroups, List.mem_cons] at hg
    rcases hg with rfl | hg
    · rw [h2]; exact srt.sorted_key _ _
    · rw [MenuInfo.groupsList_eq_flatMap, List.mem_flatMap] at hg
      obtain ⟨n, hn, hgn⟩ := hg
      rw [h2] at hn
      have hn' := (srt.perm _ _).subset hn
      obtain ⟨m, hm, rfl⟩ := List.mem_map.1 hn'
      have hm' := List.mem_filter.1 hm
      obtain ⟨ch, hch⟩ := Option.isSome_iff_exists.1 (h1 m hm'.1 (by simpa using hm'.2))
      rw [MenuInfo.groups_node, hch] at hgn
      exact ih _ _ hch g hgn

theorem buildUserMenuTree_groups_sorted (srt : Sorter) (menus : List Menu) :
    ∀ (fuel : Nat) (pid : String) (t : List UserMenuResponse),
      buildUserMenuTree srt fuel menus pid = some t →
      ∀ g ∈ UserMenuResponse.siblingGroups t,
        g.Pairwise (fun a b => a.SortOrder ≤ b.SortOrder) := by
  intro fuel
  induction fuel with
  | zero => intro pid t h; simp [buildUserMenuTree] at h
  | succ k ih =>
    intro pid t h g hg
    obtain ⟨h1, h2⟩ := buildUserMenuTree_some srt k menus pid t h
    simp only [UserMenuResponse.siblingGroups, List.mem_cons] at hg
    rcases hg with rfl | hg
    · rw [h2]; exact srt.sorted_key _ _
    · rw [UserMenuResponse.userGroupsList_eq_flatMap, List.mem_flatMap] at hg
      obtain ⟨n, hn, hgn⟩ := hg
      rw [h2] at hn
      have hn' := (srt.perm _ _).subset hn
      obtain ⟨m, hm, rfl⟩ := List.mem_map.1 hn'
      have hm' := List.mem_filter.1 hm
      obtain ⟨ch, hch⟩ := Option.isSome_iff_exists.1 (h1 m hm'.1 (by simpa using hm'.2))
      simp only [UserMenuResponse.groups, hch, Option.getD_some] at hgn
      exact ih _ _ hch g (by simpa [UserMenuResponse.siblingGroups] using hgn)


/-! ## Completeness of `buildMenuTree` -/

theorem Under.of_child {menus : List Menu} {pid : String} {c x : Menu} (hc : c ∈ menus)
    (hp : c.ParentID = pid) (h : Under menus c.MenuID x) : Under menus pid x := by
  induction h with
  | direct hx => exact Under.via hc hx.symm (Under.direct hp)
  | via hq hqx _ ih => exact Under.via hq hqx ih

theorem Under.exists_child {menus : List Menu} {pid : String} {x : Menu} (hx : x ∈ menus)
    (h : Under menus pid x) :
    ∃ c ∈ menus, c.ParentID = pid ∧ (x = c ∨ Under menus c.MenuID x) := by
  induction h with
  | direct hp => exact ⟨_, hx, hp, Or.inl rfl⟩
  | via hq hqx _ ih =>
    obtain ⟨c, hc, hcp, hor⟩ := ih hq
    refine ⟨c, hc, hcp, Or.inr ?_⟩
    rcases hor with rfl | hu
    · exact Under.direct hqx.symm
    · exact Under.via hq hqx hu

theorem Under.height_lt {menus : List Menu} {height : String → Nat}
    (hA : ∀ m ∈ menus, height m.MenuID < height m.ParentID) {pid : String} {x : Menu}
    (hx : x ∈ menus) (h : Under menus pid x) : height x.MenuID < height pid := by
  induction h with
  | direct hp => rw [← hp]; exact hA _ hx
  | via hq hqx _ ih =>
    have h1 := hA _ hx
    have h2 := ih hq
    rw [← hqx] at h1
    omega

theorem UniqueIDs.eq_of_id {menus : List Menu} (hU : UniqueIDs menus) {a b : Menu}
    (ha : a ∈ menus) (hb : b ∈ menus) (h : a.MenuID = b.MenuID) : a = b :=
  List.inj_on_of_nodup_map hU ha hb h

theorem UniqueIDs.nodup {menus : List Menu} (hU : UniqueIDs menus) : menus.Nodup :=
  List.Nodup.of_map _ hU

/-- The chain of ancestors of a menu is linear: two ids met on it are equal or one lies
above the other. -/
theorem Under.linear {menus : List Menu} (hU : UniqueIDs menus) {a b : String} {x : Menu}
    (ha : Under menus a x) (hb : Under menus b x) :
    a = b ∨ (∃ p ∈ menus, p.MenuID = a ∧ Under menus b p) ∨
      (∃ q ∈ menus, q.MenuID = b ∧ Under menus a q) := by
  induction ha with
  | direct hxa =>
    cases hb with
    | direct hxb => exact Or.inl (hxa.symm.trans hxb)
    | via hq hqx hqb => exact Or.inr (Or.inl ⟨_, hq, hqx.trans hxa, hqb⟩)
  | via hp hpx hpa ih =>
    cases hb with
    | direct hxb => exact Or.inr (Or.inr ⟨_, hp, hpx.trans hxb, hpa⟩)
    | via hq hqx hqb =>
      have : _ = _ := hU.eq_of_id hq hp (hqx.trans hpx.symm)
      subst this
      exact ih hqb

theorem Under.not_sibling {menus : List Menu} {height : String → Nat}
    (hA : ∀ m ∈ menus, height m.MenuID < height m.ParentID) {c₁ c₂ : Menu}
    (h₁ : c₁ ∈ menus) (h₂ : c₂ ∈ menus) (hp : c₁.ParentID = c₂.ParentID) :
    ¬ Under menus c₂.MenuID c₁ := by
  intro h
  have h3 := Under.height_lt hA h₁ h
  have h4 := hA _ h₁
  have h5 := hA _ h₂
  cases h with
  | direct hx => rw [hp] at hx; rw [hx] at h5; omega
  | via hq hqx hqu =>
    have h6 := Under.height_lt hA hq hqu
    rw [hqx, hp] at h6
    omega

theorem exists_height_bound (menus : List Menu) (height : String → Nat) :
    ∃ bound, ∀ m ∈ menus, height m.MenuID ≤ bound := by
  induction menus with
  | nil => exact ⟨0, by simp⟩
  | cons x xs ih =>
    obtain ⟨b, hb⟩ := ih
    refine ⟨max b (height x.MenuID), ?_⟩
    intro m hm
    rcases List.mem_cons.1 hm with rfl | hm
    · exact le_max_right _ _
    · exact le_trans (hb m hm) (le_max_left _ _)

/-- With acyclic links and every parent present, every menu hangs under the root. -/
theorem under_root_of_parentsPresent {menus : List Menu} {height : String → Nat}
    (hA : ∀ m ∈ menus, height m.MenuID < height m.ParentID) (hC : ParentsPresent menus) :
    ∀ x ∈ menus, Under menus "" x := by
  obtain ⟨bound, hb⟩ := exists_height_bound menus height
  have key : ∀ d : Nat, ∀ x ∈ menus, bound - height x.MenuID ≤ d → Under menus "" x := by
    intro d
    induction d with
    | zero =>
      intro x hx hd
      rcases hC x hx with h0 | ⟨p, hp, hpx⟩
      · exact Under.direct h0
      · have h1 := hA x hx
        have h2 := hb p hp
        have h3 := hb x hx
        rw [← hpx] at h1
        omega
    | succ d ih =>
      intro x hx hd
      rcases hC x hx with h0 | ⟨p, hp, hpx⟩
      · exact Under.direct h0
      · have h1 := hA x hx
        have h2 := hb p hp
        rw [← hpx] at h1
        exact Under.via hp hpx (ih p hp (by omega))
  intro x hx
  exact key _ x hx (le_refl _)


/-- On acyclic links with distinct ids, `buildMenuTree` returns once the fuel exceeds the
height of the parent id, and the tree holds exactly the menus under that id, each once. -/
theorem buildMenuTree_spec (srt : Sorter) {menus : List Menu} (hU : UniqueIDs menus)
    {height : String → Nat} (hA : ∀ m ∈ menus, height m.MenuID < height m.ParentID) :
    ∀ (fuel : Nat) (pid : String), height pid < fuel →
      ∃ t, buildMenuTree srt fuel menus pid = some t ∧
        (∀ x, x ∈ MenuInfo.flatList t ↔ x ∈ menus ∧ Under menus pid x) ∧
        (MenuInfo.flatList t).Nodup := by
  intro fuel
  induction fuel with
  | zero => intro pid h; omega
  | succ k ih =>
    intro pid hpid
    have hrec : ∀ m ∈ menus, m.ParentID = pid →
        ∃ t, buildMenuTree srt k menus m.MenuID = some t ∧
          (∀ x, x ∈ MenuInfo.flatList t ↔ x ∈ menus ∧ Under menus m.MenuID x) ∧
          (MenuInfo.flatList t).Nodup := by
      intro m hm hp
      have := hA m hm
      rw [hp] at this
      exact ih m.MenuID (by omega)
    have hsome : ∀ m ∈ menus, m.ParentID = pid →
        (buildMenuTree srt k menus m.MenuID).isSome = true := by
      intro m hm hp
      obtain ⟨t, ht, _⟩ := hrec m hm hp
      simp [ht]
    refine ⟨_, buildMenuTree_of_isSome srt k menus pid hsome, ?_⟩
    set children := menus.filter (fun m => decide (m.ParentID = pid)) with hchildren
    have hmemc : ∀ c, c ∈ children ↔ c ∈ menus ∧ c.ParentID = pid := by
      intro c; simp [hchildren, List.mem_filter]
    have hperm : (MenuInfo.flatList (srt.sort (fun a b => decide (a.SortOrder < b.SortOrder))
        (children.map (fun m => (convertToMenuInfo m).withChildren
          ((buildMenuTree srt k menus m.MenuID).getD []))))).Perm
        (children.flatMap (fun m =>
          m :: MenuInfo.flatList ((buildMenuTree srt k menus m.MenuID).getD []))) := by
      rw [MenuInfo.flatList_eq_flatMap]
      refine (List.Perm.flatMap_right _ (srt.perm _ _)).trans ?_
      rw [List.flatMap_map]
      simp only [MenuInfo.flat_node]
      exact List.Perm.refl _
    have hsub : ∀ c ∈ children, ∀ x,
        x ∈ MenuInfo.flatList ((buildMenuTree srt k menus c.MenuID).getD []) ↔
          x ∈ menus ∧ Under menus c.MenuID x := by
      intro c hc x
      obtain ⟨t, ht, h1, _⟩ := hrec c ((hmemc c).1 hc).1 ((hmemc c).1 hc).2
      rw [ht]
      exact h1 x
    constructor
    · intro x
      rw [hperm.mem_iff, List.mem_flatMap]
      constructor
      · rintro ⟨c, hc, hx⟩
        have hc' := (hmemc c).1 hc
        rcases List.mem_cons.1 hx with rfl | hx
        · exact ⟨hc'.1, Under.direct hc'.2⟩
        · have := (hsub c hc x).1 hx
          exact ⟨this.1, Under.of_child hc'.1 hc'.2 this.2⟩
      · rintro ⟨hx, hu⟩
        obtain ⟨c, hc, hcp, hor⟩ := Under.exists_child hx hu
        refine ⟨c, (hmemc c).2 ⟨hc, hcp⟩, ?_⟩
        rcases hor with rfl | hu'
        · exact List.mem_cons_self _ _
        · exact List.mem_cons_of_mem _ ((hsub c ((hmemc c).2 ⟨hc, hcp⟩) x).2 ⟨hx, hu'⟩)
    · rw [hperm.nodup_iff, List.nodup_flatMap]
      constructor
      · intro c hc
        have hc' := (hmemc c).1 hc
        obtain ⟨t, ht, h1, h2⟩ := hrec c hc'.1 hc'.2
        rw [ht]
        refine List.nodup_cons.2 ⟨?_, h2⟩
        intro hmem
        have := Under.height_lt hA hc'.1 ((h1 c).1 hmem).2
        omega
      · have hnd : children.Nodup := hU.nodup.filter _
        refine List.Pairwise.imp_of_mem ?_ hnd
        intro c₁ c₂ hc₁ hc₂ hne
        have h₁ := (hmemc c₁).1 hc₁
        have h₂ := (hmemc c₂).1 hc₂
        have hpp : c₁.ParentID = c₂.ParentID := h₁.2.trans h₂.2.symm
        show List.Disjoint _ _
        intro x hx₁ hx₂
        rcases List.mem_cons.1 hx₁ with rfl | hx₁
        · rcases List.mem_cons.1 hx₂ with rfl | hx₂
          · exact hne rfl
          · exact Under.not_sibling hA h₁.1 h₂.1 hpp ((hsub c₂ hc₂ _).1 hx₂).2
        · have hu₁ := (hsub c₁ hc₁ x).1 hx₁
          rcases List.mem_cons.1 hx₂ with rfl | hx₂
          · exact Under.not_sibling hA h₂.1 h₁.1 hpp.symm hu₁.2
          · have hu₂ := (hsub c₂ hc₂ x).1 hx₂
            rcases Under.linear hU hu₁.2 hu₂.2 with heq | ⟨p, hp, hpid, hup⟩ | ⟨q, hq, hqid, huq⟩
            · exact hne (hU.eq_of_id h₁.1 h₂.1 heq)
            · have : p = c₁ := hU.eq_of_id hp h₁.1 hpid
              subst this
              exact Under.not_sibling hA h₁.1 h₂.1 hpp hup
            · have : q = c₂ := hU.eq_of_id hq h₂.1 hqid
              subst this
              exact Under.not_sibling hA h₂.1 h₁.1 hpp.symm huq


theorem Sorter.sort_nil (srt : Sorter) {α : Type} (less : α → α → Bool) :
    srt.sort less [] = [] :=
  List.Perm.eq_nil (srt.perm less [])

/-- C1, counterexample: a one-element node list with distinct ids and acyclic links whose
menu names a parent outside the list; for every sorter and every positive fuel
`buildMenuTree(nodes, "")` returns the empty tree, which does not hold the input node. -/
theorem buildMenuTree_drops_orphan :
    UniqueIDs orphanList ∧ AcyclicLinks orphanList ∧
      (∀ (srt : Sorter) (fuel : Nat), buildMenuTree srt (fuel + 1) orphanList "" = some []) ∧
      ¬ (MenuInfo.flatList []).Perm orphanList := by
  refine ⟨by decide, ⟨fun id => if id = "child" then 0 else 1, by decide⟩, ?_, ?_⟩
  · intro srt fuel
    simp [buildMenuTree, orphanList, sampleMenu, rangeChildren, Sorter.sort_nil]
  · simp [MenuInfo.flatList, orphanList]

/-- C1 (amended): for a node list with pairwise-distinct menu ids and acyclic parent links in
which every non-empty `parent_id` is the id of a node of the list, `buildMenuTree(nodes, "")`
returns (for every large enough recursion depth, the same tree) a nested structure whose nodes
are a permutation of the input: every input node appears exactly once, and the tree holds
exactly as many nodes as the list. -/
theorem buildMenuTree_complete (srt : Sorter) (nodes : List Menu) (hU : UniqueIDs nodes)
    (hA : AcyclicLinks nodes) (hC : ParentsPresent nodes) :
    ∃ fuel tree, (∀ k, fuel ≤ k → buildMenuTree srt k nodes "" = some tree) ∧
      (MenuInfo.flatList tree).Perm nodes ∧
      (MenuInfo.flatList tree).length = nodes.length := by
  obtain ⟨height, hA⟩ := hA
  obtain ⟨t, ht, hmem, hnd⟩ := buildMenuTree_spec srt hU hA (height "" + 1) "" (by omega)
  have hperm : (MenuInfo.flatList t).Perm nodes := by
    refine (List.perm_ext_iff_of_nodup hnd hU.nodup).2 ?_
    intro x
    rw [hmem x]
    exact ⟨fun h => h.1, fun h => ⟨h, under_root_of_parentsPresent hA hC x h⟩⟩
  exact ⟨height "" + 1, t, fun k hk => buildMenuTree_mono_le srt nodes _ k hk "" t ht, hperm,
    hperm.length_eq⟩

theorem sampleMenus_unique : UniqueIDs sampleMenus := by decide

theorem sampleMenus_acyclic : AcyclicLinks sampleMenus :=
  ⟨sampleHeight, by decide⟩

theorem sampleMenus_parentsPresent : ParentsPresent sampleMenus := by decide

/-- Witness of `buildMenuTree_complete` on `sampleMenus`. -/
theorem buildMenuTree_complete_witness :
    UniqueIDs sampleMenus ∧ AcyclicLinks sampleMenus ∧ ParentsPresent sampleMenus ∧
      ∃ fuel tree, (∀ k, fuel ≤ k → buildMenuTree insertionSorter k sampleMenus "" = some tree) ∧
        (MenuInfo.flatList tree).Perm sampleMenus ∧
        (MenuInfo.flatList tree).length = sampleMenus.length :=
  ⟨sampleMenus_unique, sampleMenus_acyclic, sampleMenus_parentsPresent,
    buildMenuTree_complete insertionSorter sampleMenus sampleMenus_unique sampleMenus_acyclic
      sampleMenus_parentsPresent⟩



/-! ## Sibling order -/

/-- C7: in the trees returned by `buildMenuTree` and by `buildUserMenuTree`, for every node
list, parent id and sorter, every sibling group (the top-level list and every `Children` list)
is in non-decreasing `sort_order`. -/
theorem buildTrees_siblings_sorted (srt : Sorter) (fuel : Nat) (nodes : List Menu)
    (parentID : String) :
    (∀ tree, buildMenuTree srt fuel nodes parentID = some tree →
      ∀ g ∈ MenuInfo.siblingGroups tree,
        g.Pairwise (fun a b => a.SortOrder ≤ b.SortOrder)) ∧
    (∀ tree, buildUserMenuTree srt fuel nodes parentID = some tree →
      ∀ g ∈ UserMenuResponse.siblingGroups tree,
        g.Pairwise (fun a b => a.SortOrder ≤ b.SortOrder)) :=
  ⟨fun tree h => buildMenuTree_groups_sorted srt nodes fuel parentID tree h,
    fun tree h => buildUserMenuTree_groups_sorted srt nodes fuel parentID tree h⟩

/-- Witness of `buildTrees_siblings_sorted`: both builders return on `sampleMenus`, and the
sibling groups of the returned trees are sorted. -/
theorem buildTrees_siblings_sorted_witness :
    (∃ tree, buildMenuTree insertionSorter 4 sampleMenus "" = some tree ∧
      ∀ g ∈ MenuInfo.siblingGroups tree,
        g.Pairwise (fun a b => a.SortOrder ≤ b.SortOrder)) ∧
    (∃ tree, buildUserMenuTree insertionSorter 4 sampleMenus "" = some tree ∧
      ∀ g ∈ UserMenuResponse.siblingGroups tree,
        g.Pairwise (fun a b => a.SortOrder ≤ b.SortOrder)) :=
  ⟨⟨_, rfl, (buildTrees_siblings_sorted insertionSorter 4 sampleMenus "").1 _ rfl⟩,
    ⟨_, rfl, (buildTrees_siblings_sorted insertionSorter 4 sampleMenus "").2 _ rfl⟩⟩


/-! ## The user navigation tree -/

theorem UserMenuResponse.nodes_mk (a b c d e : String) (so : Int)
    (ch : List UserMenuResponse) :
    UserMenuResponse.nodes (UserMenuResponse.mk a b c d e so ch) =
      UserMenuResponse.mk a b c d e so ch :: UserMenuResponse.nodesList ch := by
  simp [UserMenuResponse.nodes]

/-- Every node of a tree returned by `buildUserMenuTree` is the projection of a menu of the
list, and that menu hangs directly under the requested parent id or under a menu whose node
is in the tree too. -/
theorem buildUserMenuTree_nodes (srt : Sorter) (menus : List Menu) :
    ∀ (fuel : Nat) (pid : String) (t : List UserMenuResponse),
      buildUserMenuTree srt fuel menus pid = some t →
      ∀ n ∈ UserMenuResponse.nodesList t, ∃ m ∈ menus,
        (∃ ch, n = UserMenuResponse.mk m.MenuID m.MenuName m.RoutePath m.Component m.Icon
          m.SortOrder ch) ∧
        (m.ParentID = pid ∨
          m.ParentID ∈ (UserMenuResponse.nodesList t).map UserMenuResponse.MenuID) := by
  intro fuel
  induction fuel with
  | zero => intro pid t h; simp [buildUserMenuTree] at h
  | succ k ih =>
    intro pid t h n hn
    obtain ⟨h1, h2⟩ := buildUserMenuTree_some srt k menus pid t h
    have hperm : (UserMenuResponse.nodesList t).Perm
        ((menus.filter (fun m => decide (m.ParentID = pid))).flatMap (fun m =>
          UserMenuResponse.mk m.MenuID m.MenuName m.RoutePath m.Component m.Icon m.SortOrder
              ((buildUserMenuTree srt k menus m.MenuID).getD []) ::
            UserMenuResponse.nodesList ((buildUserMenuTree srt k menus m.MenuID).getD []))) := by
      rw [h2, UserMenuResponse.nodesList_eq_flatMap]
      refine (List.Perm.flatMap_right _ (srt.perm _ _)).trans ?_
      rw [List.flatMap_map]
      simp only [UserMenuResponse.nodes_mk]
      exact List.Perm.refl _
    have hn' := hperm.subset hn
    obtain ⟨c, hc, hnc⟩ := List.mem_flatMap.1 hn'
    have hc' := List.mem_filter.1 hc
    have hcp : c.ParentID = pid := by simpa using hc'.2
    obtain ⟨tc, htc⟩ := Option.isSome_iff_exists.1 (h1 c hc'.1 hcp)
    rw [htc] at hnc
    simp only [Option.getD_some] at hnc
    have hcin : c.MenuID ∈ (UserMenuResponse.nodesList t).map UserMenuResponse.MenuID := by
      refine List.mem_map.2 ⟨UserMenuResponse.mk c.MenuID c.MenuName c.RoutePath c.Component
        c.Icon c.SortOrder tc, ?_, rfl⟩
      refine hperm.symm.subset (List.mem_flatMap.2 ⟨c, hc, ?_⟩)
      rw [htc]
      exact List.mem_cons_self _ _
    have hsubin : ∀ id ∈ (UserMenuResponse.nodesList tc).map UserMenuResponse.MenuID,
        id ∈ (UserMenuResponse.nodesList t).map UserMenuResponse.MenuID := by
      intro id hid
      obtain ⟨n', hn', rfl⟩ := List.mem_map.1 hid
      refine List.mem_map.2 ⟨n', ?_, rfl⟩
      refine hperm.symm.subset (List.mem_flatMap.2 ⟨c, hc, ?_⟩)
      rw [htc]
      exact List.mem_cons_of_mem _ hn'
    rcases List.mem_cons.1 hnc with rfl | hnc
    · exact ⟨c, hc'.1, ⟨tc, rfl⟩, Or.inl hcp⟩
    · obtain ⟨m, hm, hproj, hor⟩ := ih c.MenuID tc htc n hnc
      refine ⟨m, hm, hproj, Or.inr ?_⟩
      rcases hor with hmp | hmp
      · rw [hmp]; exact hcin
      · exact hsubin _ hmp

theorem visibleMenus_mem {menus : List Menu} {m : Menu}
    (h : m ∈ menuService.visibleMenus menus) :
    m ∈ menus ∧ m.Status = "enable" ∧ m.Visible = true ∧ m.MenuType ≠ "button" := by
  simp only [menuService.visibleMenus, List.mem_filter, Bool.and_eq_true, decide_eq_true_eq]
    at h
  exact ⟨h.1, h.2.1.1, h.2.1.2, h.2.2⟩

theorem GetMenusByIDs_mem {menus : List Menu} {ids : List String} {m : Menu}
    (h : m ∈ menuRepository.GetMenusByIDs.find menus ids) : m ∈ menus ∧ m.MenuID ∈ ids := by
  simpa [menuRepository.GetMenusByIDs.find, List.mem_filter] using h

/-- With a role id and a menu id resolved from the roles, `GetUserMenusByRoles` builds the tree
of the visible menus among the resolved ones. -/
theorem GetUserMenusByRoles_slice {srt : Sorter} {fuel : Nat} {menus : List Menu}
    {roles : List Role} {roleIDs : List String} (hr : ¬ roleIDs.length = 0)
    (hids : menuRepository.GetMenuIDsByRoleIDs roles roleIDs ≠ []) :
    menuService.GetUserMenusByRoles srt fuel menus roles roleIDs =
      (buildUserMenuTree srt fuel (menuService.visibleMenus
        (menuRepository.GetMenusByIDs.find menus
          (menuRepository.GetMenuIDsByRoleIDs roles roleIDs))) "").map .ok := by
  unfold menuService.GetUserMenusByRoles menuRepository.GetMenuIDsByRoleIDs.slice
  rw [if_neg hr, if_neg hr]
  cases hl : menuRepository.GetMenuIDsByRoleIDs roles roleIDs with
  | nil => exact absurd hl hids
  | cons a l => rfl

/-- With a role id and no menu id resolved from the roles, `GetUserMenusByRoles` hands the nil
slice to `GetMenusByIDs` and returns the wrapped error of the store. -/
theorem GetUserMenusByRoles_nil_slice {srt : Sorter} {fuel : Nat} {menus : List Menu}
    {roles : List Role} {roleIDs : List String} (hr : ¬ roleIDs.length = 0)
    (hids : menuRepository.GetMenuIDsByRoleIDs roles roleIDs = []) :
    menuService.GetUserMenusByRoles srt fuel menus roles roleIDs =
      some (.error ("获取菜单详细信息失败: 查询菜单列表失败: " ++
        menuRepository.inNeedsArrayError)) := by
  unfold menuService.GetUserMenusByRoles menuRepository.GetMenuIDsByRoleIDs.slice
  rw [if_neg hr, if_neg hr, hids]
  rfl

/-- The two entry points build their tree from the visible menus of some id list. -/
theorem GetUserMenusByRoles_ok {srt : Sorter} {fuel : Nat} {menus : List Menu}
    {roles : List Role} {roleIDs : List String} {tree : List UserMenuResponse}
    (h : menuService.GetUserMenusByRoles srt fuel menus roles roleIDs = some (.ok tree)) :
    tree = [] ∨ buildUserMenuTree srt fuel (menuService.visibleMenus
      (menuRepository.GetMenusByIDs.find menus
        (menuRepository.GetMenuIDsByRoleIDs roles roleIDs))) "" = some tree := by
  by_cases hr : roleIDs.length = 0
  · left
    unfold menuService.GetUserMenusByRoles at h
    rw [if_pos hr] at h
    simp only [Option.some.injEq, Except.ok.injEq] at h
    exact h.symm
  · right
    by_cases hids : menuRepository.GetMenuIDsByRoleIDs roles roleIDs = []
    · rw [GetUserMenusByRoles_nil_slice hr hids] at h
      simp at h
    · rw [GetUserMenusByRoles_slice hr hids] at h
      simp only [Option.map_eq_some'] at h
      obtain ⟨t, ht, heq⟩ := h
      simp only [Except.ok.injEq] at heq
      rw [← heq]; exact ht

theorem GetUserMenus_ok {srt : Sorter} {fuel : Nat} {menus : List Menu}
    {menuIDs : List String} {tree : List UserMenuResponse}
    (h : menuService.GetUserMenus srt fuel menus menuIDs = some (.ok tree)) :
    tree = [] ∨ buildUserMenuTree srt fuel (menuService.visibleMenus
      (menuRepository.GetMenusByIDs.find menus menuIDs)) "" = some tree := by
  unfold menuService.GetUserMenus at h
  split at h
  · left
    simp only [Option.some.injEq, Except.ok.injEq] at h
    exact h.symm
  · right
    simp only [menuRepository.GetMenusByIDs, Option.map_eq_some'] at h
    obtain ⟨t, ht, heq⟩ := h
    simp only [Except.ok.injEq] at heq
    rw [← heq]; exact ht

theorem userTree_nodes_visible (srt : Sorter) (fuel : Nat) (menus : List Menu)
    (ids : List String) (tree : List UserMenuResponse)
    (h : tree = [] ∨ buildUserMenuTree srt fuel (menuService.visibleMenus
      (menuRepository.GetMenusByIDs.find menus ids)) "" = some tree) :
    ∀ n ∈ UserMenuResponse.nodesList tree,
      (∃ m ∈ menus, m.MenuID ∈ ids ∧
        (∃ ch, n = UserMenuResponse.mk m.MenuID m.MenuName m.RoutePath m.Component m.Icon
          m.SortOrder ch) ∧
        m.Status = "enable" ∧ m.Visible = true ∧ m.MenuType ≠ "button") ∧
      (UniqueIDs menus → ∀ m ∈ menus, m.MenuID = n.MenuID → ¬ Hidden m) := by
  intro n hn
  rcases h with rfl | h
  · simp [UserMenuResponse.nodesList] at hn
  · obtain ⟨m, hm, ⟨ch, hproj⟩, _⟩ := buildUserMenuTree_nodes srt _ fuel "" tree h n hn
    have hv := visibleMenus_mem hm
    have hg := GetMenusByIDs_mem hv.1
    refine ⟨⟨m, hg.1, hg.2, ⟨ch, hproj⟩, hv.2⟩, ?_⟩
    intro hU m' hm' hid
    have hnid : n.MenuID = m.MenuID := by rw [hproj]; rfl
    have : m' = m := hU.eq_of_id hm' hg.1 (hid.trans hnid)
    subst this
    intro hh
    rcases hh with h1 | h1 | h1
    · exact h1 hv.2.1
    · rw [hv.2.2.1] at h1; exact Bool.noConfusion h1
    · exact hv.2.2.2 h1

/-- C2: for every menu store, role store and list of role ids (and for `GetUserMenus`, every
list of menu ids), every node at any depth of the returned tree is the projection of a stored,
granted menu whose status is `enable`, whose visible flag is true and whose type is not
`button`; with unique menu ids, no stored menu with the node's id is disabled, invisible or a
button. -/
theorem userMenus_only_visible (srt : Sorter) (fuel : Nat) (menus : List Menu)
    (roles : List Role) (roleIDs menuIDs : List String) :
    (∀ tree, menuService.GetUserMenusByRoles srt fuel menus roles roleIDs = some (.ok tree) →
      ∀ n ∈ UserMenuResponse.nodesList tree,
        (∃ m ∈ menus, m.MenuID ∈ menuRepository.GetMenuIDsByRoleIDs roles roleIDs ∧
          (∃ ch, n = UserMenuResponse.mk m.MenuID m.MenuName m.RoutePath m.Component m.Icon
            m.SortOrder ch) ∧
          m.Status = "enable" ∧ m.Visible = true ∧ m.MenuType ≠ "button") ∧
        (UniqueIDs menus → ∀ m ∈ menus, m.MenuID = n.MenuID → ¬ Hidden m)) ∧
    (∀ tree, menuService.GetUserMenus srt fuel menus menuIDs = some (.ok tree) →
      ∀ n ∈ UserMenuResponse.nodesList tree,
        (∃ m ∈ menus, m.MenuID ∈ menuIDs ∧
          (∃ ch, n = UserMenuResponse.mk m.MenuID m.MenuName m.RoutePath m.Component m.Icon
            m.SortOrder ch) ∧
          m.Status = "enable" ∧ m.Visible = true ∧ m.MenuType ≠ "button") ∧
        (UniqueIDs menus → ∀ m ∈ menus, m.MenuID = n.MenuID → ¬ Hidden m)) :=
  ⟨fun tree h => userTree_nodes_visible srt fuel menus _ tree (GetUserMenusByRoles_ok h),
    fun tree h => userTree_nodes_visible srt fuel menus _ tree (GetUserMenus_ok h)⟩


/-- Witness of `userMenus_only_visible`: on `navMenus` with every menu granted, both entry
points return a tree, and its nodes are projections of enabled, visible, non-button menus. -/
theorem userMenus_only_visible_witness :
    (∃ tree, menuService.GetUserMenusByRoles insertionSorter 2 navMenus navRoles ["R1"] =
        some (.ok tree) ∧
      ∀ n ∈ UserMenuResponse.nodesList tree,
        (∃ m ∈ navMenus, m.MenuID ∈ menuRepository.GetMenuIDsByRoleIDs navRoles ["R1"] ∧
          (∃ ch, n = UserMenuResponse.mk m.MenuID m.MenuName m.RoutePath m.Component m.Icon
            m.SortOrder ch) ∧
          m.Status = "enable" ∧ m.Visible = true ∧ m.MenuType ≠ "button") ∧
        (UniqueIDs navMenus → ∀ m ∈ navMenus, m.MenuID = n.MenuID → ¬ Hidden m)) ∧
    (∃ tree, menuService.GetUserMenus insertionSorter 2 navMenus ["home", "admin", "audit"] =
        some (.ok tree) ∧
      ∀ n ∈ UserMenuResponse.nodesList tree,
        (∃ m ∈ navMenus, m.MenuID ∈ ["home", "admin", "audit"] ∧
          (∃ ch, n = UserMenuResponse.mk m.MenuID m.MenuName m.RoutePath m.Component m.Icon
            m.SortOrder ch) ∧
          m.Status = "enable" ∧ m.Visible = true ∧ m.MenuType ≠ "button") ∧
        (UniqueIDs navMenus → ∀ m ∈ navMenus, m.MenuID = n.MenuID → ¬ Hidden m)) :=
  ⟨⟨_, rfl, (userMenus_only_visible insertionSorter 2 navMenus navRoles ["R1"] []).1 _ rfl⟩,
    ⟨_, rfl, (userMenus_only_visible insertionSorter 2 navMenus navRoles []
      ["home", "admin", "audit"]).2 _ rfl⟩⟩

/-- A node whose id is in the tree built from the root is the node of a listed menu whose
`ParentID` is empty or is itself the id of a node of the tree. -/
theorem userTree_parent_appears (srt : Sorter) (fuel : Nat) (vis : List Menu)
    (tree : List UserMenuResponse) (h : buildUserMenuTree srt fuel vis "" = some tree)
    (id : String) (hid : id ∈ (UserMenuResponse.nodesList tree).map UserMenuResponse.MenuID) :
    ∃ m ∈ vis, m.MenuID = id ∧ (m.ParentID = "" ∨
      m.ParentID ∈ (UserMenuResponse.nodesList tree).map UserMenuResponse.MenuID) := by
  obtain ⟨n, hn, rfl⟩ := List.mem_map.1 hid
  obtain ⟨m, hm, ⟨ch, hproj⟩, hor⟩ := buildUserMenuTree_nodes srt vis fuel "" tree h n hn
  exact ⟨m, hm, by rw [hproj]; rfl, hor⟩

/-- C3: for every menu store with unique menu ids and every list of role ids, if a stored
menu `x` is disabled, invisible or a button, then no descendant `d` of `x` (child,
grandchild, ...) has a node anywhere in the tree returned by `GetUserMenusByRoles`, whatever
the status, visibility and grants of `d` itself. -/
theorem hidden_menu_hides_descendants (srt : Sorter) (fuel : Nat) (menus : List Menu)
    (roles : List Role) (roleIDs : List String) (hU : UniqueIDs menus) (x d : Menu)
    (hx : x ∈ menus) (hh : Hidden x) (hd : Descendant menus x d)
    (tree : List UserMenuResponse)
    (ht : menuService.GetUserMenusByRoles srt fuel menus roles roleIDs = some (.ok tree)) :
    d.MenuID ∉ (UserMenuResponse.nodesList tree).map UserMenuResponse.MenuID := by
  rcases GetUserMenusByRoles_ok ht with rfl | hb
  · simp [UserMenuResponse.nodesList]
  · have hvis : ∀ m ∈ menuService.visibleMenus (menuRepository.GetMenusByIDs.find menus
        (menuRepository.GetMenuIDsByRoleIDs roles roleIDs)), m ∈ menus ∧ ¬ Hidden m := by
      intro m hm
      have hv := visibleMenus_mem hm
      refine ⟨(GetMenusByIDs_mem hv.1).1, ?_⟩
      intro hhid
      rcases hhid with h1 | h1 | h1
      · exact h1 hv.2.1
      · rw [hv.2.2.1] at h1; exact Bool.noConfusion h1
      · exact hv.2.2.2 h1
    have hxout : x.MenuID ∉
        (UserMenuResponse.nodesList tree).map UserMenuResponse.MenuID := by
      intro hin
      obtain ⟨m, hm, hmid, _⟩ := userTree_parent_appears srt fuel _ tree hb _ hin
      have : m = x := hU.eq_of_id (hvis m hm).1 hx hmid
      subst this
      exact (hvis m hm).2 hh
    induction hd with
    | child hdm hne hpar =>
      intro hin
      obtain ⟨m, hm, hmid, hor⟩ := userTree_parent_appears srt fuel _ tree hb _ hin
      have : m = _ := hU.eq_of_id (hvis m hm).1 hdm hmid
      subst this
      rcases hor with h0 | hp
      · exact hne h0
      · rw [hpar] at hp; exact hxout hp
    | step _ hdm hne hpar ih =>
      intro hin
      obtain ⟨m, hm, hmid, hor⟩ := userTree_parent_appears srt fuel _ tree hb _ hin
      have : m = _ := hU.eq_of_id (hvis m hm).1 hdm hmid
      subst this
      rcases hor with h0 | hp
      · exact hne h0
      · rw [hpar] at hp; exact ih hp

theorem navMenus_unique : UniqueIDs navMenus := by decide

theorem navMenus_trail_descendant :
    Descendant navMenus (sampleMenu "admin" "" 2 "disable" true "directory" 2)
      (sampleMenu "trail" "audit" 1 "enable" true "menu" 4) :=
  Descendant.step (p := sampleMenu "audit" "admin" 1 "enable" true "menu" 3)
    (Descendant.child (by decide) (by decide) rfl) (by decide) (by decide) rfl

/-- Witness of `hidden_menu_hides_descendants`: in `navMenus` the directory `admin` is
disabled; its grandchild `trail` is enabled, visible and granted, and has no node in the
tree returned for the role. -/
theorem hidden_menu_hides_descendants_witness :
    menuService.GetUserMenusByRoles insertionSorter 2 navMenus navRoles ["R1"] =
        some (.ok [UserMenuResponse.mk "home" "home" "" "" "" 1 []]) ∧
      "trail" ∉ (UserMenuResponse.nodesList
        [UserMenuResponse.mk "home" "home" "" "" "" 1 []]).map UserMenuResponse.MenuID :=
  ⟨rfl, hidden_menu_hides_descendants insertionSorter 2 navMenus navRoles ["R1"]
    navMenus_unique (sampleMenu "admin" "" 2 "disable" true "directory" 2)
    (sampleMenu "trail" "audit" 1 "enable" true "menu" 4) (by decide) (by decide)
    navMenus_trail_descendant _ rfl⟩


/-! ## Deleting a menu -/

theorem HasChildMenus_iff (menus : List Menu) (menuID : String) :
    menuRepository.HasChildMenus menus menuID = true ↔ ∃ c ∈ menus, c.ParentID = menuID := by
  simp [menuRepository.HasChildMenus, List.countP_pos_iff]

theorem GetMenuByID_of_mem (menus : List Menu) (menuID : String)
    (h : ∃ m ∈ menus, m.MenuID = menuID) :
    ∃ m, menuRepository.GetMenuByID menus menuID = .ok m ∧ m ∈ menus ∧ m.MenuID = menuID := by
  obtain ⟨m, hm, hid⟩ := h
  cases hf : menus.find? (fun m => decide (m.MenuID = menuID)) with
  | none =>
    have := List.find?_eq_none.1 hf m hm
    simp [hid] at this
  | some a =>
    refine ⟨a, by simp [menuRepository.GetMenuByID, hf], List.mem_of_find?_eq_some hf, ?_⟩
    simpa using List.find?_some hf

theorem GetMenuByID_ok {menus : List Menu} {menuID : String} {m : Menu}
    (h : menuRepository.GetMenuByID menus menuID = .ok m) :
    menus.find? (fun m => decide (m.MenuID = menuID)) = some m := by
  unfold menuRepository.GetMenuByID at h
  split at h
  · exact Except.noConfusion h
  · rename_i a hf
    simp only [Except.ok.injEq] at h
    rw [hf, h]

theorem any_id_of_mem {menus : List Menu} {menuID : String}
    (h : ∃ m ∈ menus, m.MenuID = menuID) :
    menus.any (fun m => decide (m.MenuID = menuID)) = true := by
  obtain ⟨m, hm, hid⟩ := h
  exact List.any_eq_true.2 ⟨m, hm, by simp [hid]⟩

theorem eraseP_id_eq_filter {menus : List Menu} (hU : UniqueIDs menus) (menuID : String) :
    menus.eraseP (fun m => decide (m.MenuID = menuID)) =
      menus.filter (fun m => decide (m.MenuID ≠ menuID)) := by
  induction menus with
  | nil => simp
  | cons x xs ih =>
    have hU' : UniqueIDs xs := (List.nodup_cons.1 hU).2
    have hx : x.MenuID ∉ xs.map (fun m => m.MenuID) := (List.nodup_cons.1 hU).1
    by_cases h : x.MenuID = menuID
    · have hall : ∀ m ∈ xs, decide (m.MenuID ≠ menuID) = true := by
        intro m hm
        simp only [ne_eq, decide_not, Bool.not_eq_eq_eq_not, Bool.not_true,
          decide_eq_false_iff_not]
        intro hmid
        exact hx (List.mem_map.2 ⟨m, hm, hmid.trans h.symm⟩)
      have hself := List.filter_eq_self.2 hall
      simp only [List.eraseP_cons, h, decide_True, cond_true, List.filter_cons, ne_eq,
        not_true_eq_false, decide_False, Bool.false_eq_true, if_false]
      exact hself.symm
    · simp [List.eraseP_cons, h, List.filter_cons, ih hU']

/-- The message of `DeleteMenu` for a menu that still has children. -/
theorem DeleteMenu_eq (menus : List Menu) (menuID : String)
    (hex : ∃ m ∈ menus, m.MenuID = menuID) :
    menuService.DeleteMenu menus menuID =
      if menuRepository.HasChildMenus menus menuID = true then
        (menus, .error "该菜单下还有子菜单，请先删除子菜单")
      else (menus.eraseP (fun m => decide (m.MenuID = menuID)), .ok ()) := by
  obtain ⟨m, hget, _, _⟩ := GetMenuByID_of_mem menus menuID hex
  unfold menuService.DeleteMenu
  rw [hget]
  simp only
  split
  · rfl
  · simp [menuRepository.DeleteMenu, any_id_of_mem hex]

/-- C6: for an existing menu id, `DeleteMenu(id)` returns the "has children" error and leaves
the store unchanged if and only if some menu has `parent_id = id`; otherwise it succeeds and
removes exactly one menu, the one with that id. In particular, in a store with unique ids, for
a parent whose only child is a leaf, deleting the parent fails, and then deleting the child
and after it the parent both succeed. -/
theorem DeleteMenu_has_children (menus : List Menu) (menuID : String)
    (hex : ∃ m ∈ menus, m.MenuID = menuID) :
    (menuService.DeleteMenu menus menuID =
        (menus, .error "该菜单下还有子菜单，请先删除子菜单") ↔
      ∃ c ∈ menus, c.ParentID = menuID) ∧
    ((¬ ∃ c ∈ menus, c.ParentID = menuID) →
      ∃ l₁ m l₂, menus = l₁ ++ m :: l₂ ∧ m.MenuID = menuID ∧
        (∀ a ∈ l₁, a.MenuID ≠ menuID) ∧
        menuService.DeleteMenu menus menuID = (l₁ ++ l₂, .ok ())) ∧
    (∀ child : Menu, UniqueIDs menus → child ∈ menus → child.ParentID = menuID →
      (∀ c ∈ menus, c.ParentID = menuID → c = child) →
      (∀ c ∈ menus, c.ParentID ≠ child.MenuID) →
      menuService.DeleteMenu menus menuID =
        (menus, .error "该菜单下还有子菜单，请先删除子菜单") ∧
      menuService.DeleteMenu menus child.MenuID =
        (menus.filter (fun m => decide (m.MenuID ≠ child.MenuID)), .ok ()) ∧
      menuService.DeleteMenu (menus.filter (fun m => decide (m.MenuID ≠ child.MenuID))) menuID =
        ((menus.filter (fun m => decide (m.MenuID ≠ child.MenuID))).filter
          (fun m => decide (m.MenuID ≠ menuID)), .ok ())) := by
  have heq := DeleteMenu_eq menus menuID hex
  refine ⟨?_, ?_, ?_⟩
  · rw [heq, ← HasChildMenus_iff]
    constructor
    · intro h
      by_contra hc
      rw [if_neg hc] at h
      have := congrArg Prod.snd h
      exact Except.noConfusion this
    · intro h; rw [if_pos h]
  · intro hno
    have hc : ¬ menuRepository.HasChildMenus menus menuID = true := by
      rw [HasChildMenus_iff]; exact hno
    rw [heq, if_neg hc]
    obtain ⟨m, hm, hid⟩ := hex
    obtain ⟨a, l₁, l₂, hl₁, ha, hmenus, herase⟩ :=
      List.exists_of_eraseP (p := fun m => decide (m.MenuID = menuID)) hm (by simp [hid])
    refine ⟨l₁, a, l₂, hmenus, by simpa using ha, ?_, by rw [herase]⟩
    intro b hb
    simpa using hl₁ b hb
  · intro child hU hchild hpar honly hleaf
    have hne : menuID ≠ child.MenuID := by
      intro h; exact hleaf child hchild (hpar.trans h)
    have h1 : menuRepository.HasChildMenus menus menuID = true :=
      (HasChildMenus_iff menus menuID).2 ⟨child, hchild, hpar⟩
    have h2 : ¬ menuRepository.HasChildMenus menus child.MenuID = true := by
      rw [HasChildMenus_iff]; rintro ⟨c, hc, hcp⟩; exact hleaf c hc hcp
    set rest := menus.filter (fun m => decide (m.MenuID ≠ child.MenuID)) with hrest
    have hex' : ∃ m ∈ rest, m.MenuID = menuID := by
      obtain ⟨m, hm, hid⟩ := hex
      exact ⟨m, List.mem_filter.2 ⟨hm, by simp [hid, hne]⟩, hid⟩
    have hU' : UniqueIDs rest := by
      have : (menus.map (fun m => m.MenuID)).Nodup := hU
      exact (List.Nodup.sublist ((List.filter_sublist menus).map _) this)
    have h3 : ¬ menuRepository.HasChildMenus rest menuID = true := by
      rw [HasChildMenus_iff]
      rintro ⟨c, hc, hcp⟩
      have hc' := List.mem_filter.1 hc
      have : c = child := honly c hc'.1 hcp
      subst this
      simp at hc'
    refine ⟨by rw [heq, if_pos h1], ?_, ?_⟩
    · rw [DeleteMenu_eq menus child.MenuID ⟨child, hchild, rfl⟩, if_neg h2,
        eraseP_id_eq_filter hU]
    · rw [DeleteMenu_eq rest menuID hex', if_neg h3, eraseP_id_eq_filter hU']

/-- A parent with exactly one leaf child. -/
theorem DeleteMenu_has_children_witness :
    (∃ m ∈ sampleMenus, m.MenuID = "roles") ∧
    menuService.DeleteMenu sampleMenus "roles" =
      (sampleMenus, .error "该菜单下还有子菜单，请先删除子菜单") ∧
    menuService.DeleteMenu sampleMenus "roles:add" =
      (sampleMenus.filter (fun m => decide (m.MenuID ≠ "roles:add")), .ok ()) ∧
    menuService.DeleteMenu (sampleMenus.filter (fun m => decide (m.MenuID ≠ "roles:add")))
        "roles" =
      ((sampleMenus.filter (fun m => decide (m.MenuID ≠ "roles:add"))).filter
        (fun m => decide (m.MenuID ≠ "roles")), .ok ()) :=
  ⟨by decide,
    (DeleteMenu_has_children sampleMenus "roles" (by decide)).2.2
      (sampleMenu "roles:add" "roles" 1 "enable" true "button" 4) (by decide) (by decide) rfl
      (by decide) (by decide)⟩


/-! ## Whole-set replacement in the assignment index -/

theorem insertManyUnique_true {α κ : Type} [DecidableEq κ] (key : α → κ) :
    ∀ (docs coll coll' : List α), insertManyUnique key coll docs = (coll', true) →
      coll' = coll ++ docs := by
  intro docs
  induction docs with
  | nil =>
    intro coll coll' h
    simp only [insertManyUnique, Prod.mk.injEq, and_true] at h
    simp [h]
  | cons d ds ih =>
    intro coll coll' h
    unfold insertManyUnique at h
    split at h
    · simp at h
    · have := ih _ _ h
      simpa using this

theorem insertManyUnique_snd {α κ : Type} [DecidableEq κ] (key : α → κ) :
    ∀ (docs coll : List α), (insertManyUnique key coll docs).2 = true ↔
      (docs.map key).Nodup ∧ ∀ d ∈ docs, key d ∉ coll.map key := by
  intro docs
  induction docs with
  | nil => intro coll; simp [insertManyUnique]
  | cons d ds ih =>
    intro coll
    unfold insertManyUnique
    by_cases hany : coll.any (fun x => decide (key x = key d)) = true
    · rw [if_pos hany]
      have hmem : key d ∈ coll.map key := by
        obtain ⟨x, hx, hk⟩ := List.any_eq_true.1 hany
        exact List.mem_map.2 ⟨x, hx, by simpa using hk⟩
      constructor
      · intro h; exact Bool.noConfusion h
      · rintro ⟨_, h2⟩
        exact absurd hmem (h2 d (List.mem_cons_self _ _))
    · rw [if_neg hany, ih]
      have hnot : key d ∉ coll.map key := by
        intro hmem
        obtain ⟨x, hx, hk⟩ := List.mem_map.1 hmem
        exact hany (List.any_eq_true.2 ⟨x, hx, by simpa using hk⟩)
      simp only [List.map_cons, List.nodup_cons, List.map_append, List.mem_append,
        List.mem_cons, List.mem_singleton, List.map_nil, List.not_mem_nil, or_false]
      constructor
      · rintro ⟨hnd, hdis⟩
        refine ⟨⟨?_, hnd⟩, ?_⟩
        · intro hmem
          obtain ⟨e, he, hk⟩ := List.mem_map.1 hmem
          exact hdis e he (Or.inr hk)
        · intro e he
          rcases he with rfl | he
          · exact hnot
          · exact fun hmem => hdis e he (Or.inl hmem)
      · rintro ⟨⟨hd, hnd⟩, hdis⟩
        refine ⟨hnd, ?_⟩
        intro e he hor
        rcases hor with hmem | hk
        · exact hdis e (Or.inr he) hmem
        · exact hd (List.mem_map.2 ⟨e, he, hk⟩)

theorem AssignRolesToUser_ok {userRoles st : List UserRole} {userID : String}
    {roleIDs : List String} {now : Nat}
    (h : rbacRepository.AssignRolesToUser userRoles userID roleIDs now = (st, .ok ())) :
    st = userRoles.filter (fun ur => decide (ur.UserID ≠ userID)) ++
      roleIDs.map (fun roleID =>
        ({ UserID := userID, RoleID := roleID, CreatedAt := now, UpdatedAt := now } :
          UserRole)) := by
  unfold rbacRepository.AssignRolesToUser at h
  simp only at h
  split at h
  · split at h
    · have := congrArg Prod.snd h
      exact Except.noConfusion this
    · rename_i coll hins
      have hst : coll = st := congrArg Prod.fst h
      rw [← hst]
      exact insertManyUnique_true _ _ _ _ hins
  · rename_i hlen
    have hnil : roleIDs = [] := List.length_eq_zero.1 (by omega)
    have hst := congrArg Prod.fst h
    simp only at hst
    rw [← hst, hnil]
    simp

/-- C10: after a successful `AssignRolesToUser(u, ids)`, `GetUserRoles(u)` is exactly `ids`
(the same list, hence the same set: roles held before and not in `ids` are gone), and
`GetUserRoles(v)` is unchanged for every other user `v`. -/
theorem AssignRolesToUser_replaces (userRoles st : List UserRole) (userID : String)
    (roleIDs : List String) (now : Nat)
    (h : rbacRepository.AssignRolesToUser userRoles userID roleIDs now = (st, .ok ())) :
    rbacRepository.GetUserRoles st userID = roleIDs ∧
    (∀ r, r ∈ rbacRepository.GetUserRoles st userID ↔ r ∈ roleIDs) ∧
    (∀ v, v ≠ userID →
      rbacRepository.GetUserRoles st v = rbacRepository.GetUserRoles userRoles v) := by
  have hst := AssignRolesToUser_ok h
  have h1 : rbacRepository.GetUserRoles st userID = roleIDs := by
    rw [hst]
    simp only [rbacRepository.GetUserRoles, List.filter_append, List.filter_filter,
      List.map_append]
    have ha : userRoles.filter (fun ur => decide (ur.UserID = userID) &&
        decide (ur.UserID ≠ userID)) = [] := by
      apply List.filter_eq_nil_iff.2
      intro ur _
      by_cases hu : ur.UserID = userID <;> simp [hu]
    rw [ha]
    simp [List.filter_map, Function.comp_def]
  refine ⟨h1, fun r => by rw [h1], ?_⟩
  intro v hv
  rw [hst]
  simp only [rbacRepository.GetUserRoles, List.filter_append, List.filter_filter,
    List.map_append]
  have ha : userRoles.filter (fun ur => decide (ur.UserID = v) &&
      decide (ur.UserID ≠ userID)) = userRoles.filter (fun ur => decide (ur.UserID = v)) := by
    apply List.filter_congr
    intro ur _
    by_cases hu : ur.UserID = v
    · simp [hu, hv]
    · simp [hu]
  rw [ha]
  have hb : (roleIDs.map (fun roleID =>
      ({ UserID := userID, RoleID := roleID, CreatedAt := now, UpdatedAt := now } :
        UserRole))).filter (fun ur => decide (ur.UserID = v)) = [] := by
    apply List.filter_eq_nil_iff.2
    intro ur hur
    obtain ⟨r, _, rfl⟩ := List.mem_map.1 hur
    simp [Ne.symm hv]
  rw [hb]
  simp


/-- Witness of `AssignRolesToUser_replaces`: user `U1` held `R1` and `R2` and is assigned
`R3` and `R2`. -/
theorem AssignRolesToUser_replaces_witness :
    rbacRepository.AssignRolesToUser sampleUserRoles "U1" ["R3", "R2"] 7 =
        ([⟨"U2", "R1", 0, 0⟩, ⟨"U1", "R3", 7, 7⟩, ⟨"U1", "R2", 7, 7⟩], .ok ()) ∧
      rbacRepository.GetUserRoles
          [⟨"U2", "R1", 0, 0⟩, ⟨"U1", "R3", 7, 7⟩, ⟨"U1", "R2", 7, 7⟩] "U1" = ["R3", "R2"] ∧
      (∀ r, r ∈ rbacRepository.GetUserRoles
          [⟨"U2", "R1", 0, 0⟩, ⟨"U1", "R3", 7, 7⟩, ⟨"U1", "R2", 7, 7⟩] "U1" ↔
        r ∈ ["R3", "R2"]) ∧
      (∀ v, v ≠ "U1" →
        rbacRepository.GetUserRoles
            [⟨"U2", "R1", 0, 0⟩, ⟨"U1", "R3", 7, 7⟩, ⟨"U1", "R2", 7, 7⟩] v =
          rbacRepository.GetUserRoles sampleUserRoles v) :=
  ⟨rfl, AssignRolesToUser_replaces sampleUserRoles _ "U1" ["R3", "R2"] 7 rfl⟩

theorem AssignPermissionsToRole_ok_iff (rolePermissions : List RolePermission)
    (roleID : String) (menuIDs : List String) (now : Nat) :
    (rbacRepository.AssignPermissionsToRole rolePermissions roleID menuIDs now).2 = .ok () ↔
      menuIDs.Nodup := by
  unfold rbacRepository.AssignPermissionsToRole
  simp only
  split
  · have hsnd := insertManyUnique_snd (fun rp : RolePermission => (rp.RoleID, rp.MenuID))
      (menuIDs.map (fun menuID =>
        ({ RoleID := roleID, MenuID := menuID, PermissionType := "menu", CreatedAt := now,
           UpdatedAt := now } : RolePermission)))
      (rolePermissions.filter (fun rp => decide (rp.RoleID ≠ roleID)))
    have hkeys : (menuIDs.map (fun menuID =>
        ({ RoleID := roleID, MenuID := menuID, PermissionType := "menu", CreatedAt := now,
           UpdatedAt := now } : RolePermission))).map
          (fun rp : RolePermission => (rp.RoleID, rp.MenuID)) =
        menuIDs.map (fun menuID => (roleID, menuID)) := by
      simp [Function.comp_def]
    have hnd : (menuIDs.map (fun menuID => (roleID, menuID))).Nodup ↔ menuIDs.Nodup :=
      List.nodup_map_iff (fun a b hab => (Prod.mk.inj hab).2)
    have hdis : ∀ d ∈ menuIDs.map (fun menuID =>
        ({ RoleID := roleID, MenuID := menuID, PermissionType := "menu", CreatedAt := now,
           UpdatedAt := now } : RolePermission)),
        ((fun rp : RolePermission => (rp.RoleID, rp.MenuID)) d) ∉
          (rolePermissions.filter (fun rp => decide (rp.RoleID ≠ roleID))).map
            (fun rp : RolePermission => (rp.RoleID, rp.MenuID)) := by
      intro d hd hmem
      obtain ⟨id, _, rfl⟩ := List.mem_map.1 hd
      obtain ⟨rp, hrp, hk⟩ := List.mem_map.1 hmem
      have hrp' := (List.mem_filter.1 hrp).2
      simp only [ne_eq, decide_not, Bool.not_eq_eq_eq_not, Bool.not_true,
        decide_eq_false_iff_not] at hrp'
      exact hrp' (Prod.mk.inj hk).1
    rw [hkeys, hnd] at hsnd
    split
    · rename_i coll hins
      have hfalse : (insertManyUnique (fun rp : RolePermission => (rp.RoleID, rp.MenuID))
          (rolePermissions.filter (fun rp => decide (rp.RoleID ≠ roleID)))
          (menuIDs.map (fun menuID =>
            ({ RoleID := roleID, MenuID := menuID, PermissionType := "menu", CreatedAt := now,
               UpdatedAt := now } : RolePermission)))).2 = false := by rw [hins]
      constructor
      · intro h; exact Except.noConfusion h
      · intro h
        have := hsnd.2 ⟨h, hdis⟩
        rw [hfalse] at this
        exact Bool.noConfusion this
    · rename_i coll hins
      have htrue : (insertManyUnique (fun rp : RolePermission => (rp.RoleID, rp.MenuID))
          (rolePermissions.filter (fun rp => decide (rp.RoleID ≠ roleID)))
          (menuIDs.map (fun menuID =>
            ({ RoleID := roleID, MenuID := menuID, PermissionType := "menu", CreatedAt := now,
               UpdatedAt := now } : RolePermission)))).2 = true := by rw [hins]
      exact ⟨fun _ => (hsnd.1 htrue).1, fun _ => rfl⟩
  · rename_i hlen
    have hnil : menuIDs = [] := List.length_eq_zero.1 (by omega)
    simp [hnil]

theorem AssignPermissionsToRole_ok {rolePermissions : List RolePermission}
    {roleID : String} {menuIDs : List String} {now : Nat}
    (h : (rbacRepository.AssignPermissionsToRole rolePermissions roleID menuIDs now).2 =
      .ok ()) :
    (rbacRepository.AssignPermissionsToRole rolePermissions roleID menuIDs now).1 =
      rolePermissions.filter (fun rp => decide (rp.RoleID ≠ roleID)) ++
        menuIDs.map (fun menuID =>
          ({ RoleID := roleID, MenuID := menuID, PermissionType := "menu", CreatedAt := now,
             UpdatedAt := now } : RolePermission)) := by
  unfold rbacRepository.AssignPermissionsToRole at h ⊢
  simp only at h ⊢
  split at h
  · rename_i hlen
    rw [if_pos hlen]
    split at h
    · exact Except.noConfusion h
    · rename_i coll hins
      exact insertManyUnique_true _ _ _ _ hins
  · rename_i hlen
    rw [if_neg hlen]
    have hnil : menuIDs = [] := List.length_eq_zero.1 (by omega)
    simp [hnil]

/-- C9, counterexample: on the empty relation, `AssignPermissionsToRole("R1", [M1, M1, M2])`
inserts `M1`, is stopped by the unique index at the second `M1` and returns an error;
`GetRolePermissions("R1")` is then `[M1]`, which misses `M2`. -/
theorem AssignPermissionsToRole_repeated_id :
    rbacRepository.AssignPermissionsToRole [] "R1" ["M1", "M1", "M2"] 7 =
        ([⟨"R1", "M1", "menu", 7, 7⟩], .error ("分配角色权限失败: " ++ duplicateKeyError)) ∧
      rbacRepository.GetRolePermissions
        (rbacRepository.AssignPermissionsToRole [] "R1" ["M1", "M1", "M2"] 7).1 "R1" =
          ["M1"] ∧
      ¬ (∀ m, m ∈ rbacRepository.GetRolePermissions
          (rbacRepository.AssignPermissionsToRole [] "R1" ["M1", "M1", "M2"] 7).1 "R1" ↔
        m ∈ ["M1", "M1", "M2"]) := by
  refine ⟨rfl, rfl, ?_⟩
  intro h
  have h2 : "M2" ∈ rbacRepository.GetRolePermissions
      (rbacRepository.AssignPermissionsToRole [] "R1" ["M1", "M1", "M2"] 7).1 "R1" :=
    (h "M2").2 (by decide)
  have h3 : rbacRepository.GetRolePermissions
      (rbacRepository.AssignPermissionsToRole [] "R1" ["M1", "M1", "M2"] 7).1 "R1" =
        ["M1"] := rfl
  rw [h3] at h2
  exact absurd h2 (by decide)

/-- C9 (amended): for every prior state of the `role_permission` relation, every role id and
every list `ids`: `AssignPermissionsToRole(role, ids)` returns no error exactly when `ids`
holds no menu id twice, and then `GetRolePermissions(role)` called immediately afterwards
returns `ids`, so a list whose set of elements is exactly the set of `ids`. -/
theorem AssignPermissionsToRole_roundTrip (rolePermissions : List RolePermission)
    (roleID : String) (menuIDs : List String) (now : Nat) :
    ((rbacRepository.AssignPermissionsToRole rolePermissions roleID menuIDs now).2 = .ok () ↔
      menuIDs.Nodup) ∧
    ((rbacRepository.AssignPermissionsToRole rolePermissions roleID menuIDs now).2 = .ok () →
      rbacRepository.GetRolePermissions
        (rbacRepository.AssignPermissionsToRole rolePermissions roleID menuIDs now).1 roleID =
          menuIDs ∧
      ∀ m, m ∈ rbacRepository.GetRolePermissions
          (rbacRepository.AssignPermissionsToRole rolePermissions roleID menuIDs now).1 roleID ↔
        m ∈ menuIDs) := by
  refine ⟨AssignPermissionsToRole_ok_iff _ _ _ _, ?_⟩
  intro h
  have h1 : rbacRepository.GetRolePermissions
      (rbacRepository.AssignPermissionsToRole rolePermissions roleID menuIDs now).1 roleID =
        menuIDs := by
    rw [AssignPermissionsToRole_ok h]
    simp only [rbacRepository.GetRolePermissions, List.filter_append, List.filter_filter,
      List.map_append]
    have ha : rolePermissions.filter (fun rp => decide (rp.RoleID = roleID) &&
        decide (rp.RoleID ≠ roleID)) = [] := by
      apply List.filter_eq_nil_iff.2
      intro rp _
      by_cases hu : rp.RoleID = roleID <;> simp [hu]
    rw [ha]
    simp [List.filter_map, Function.comp_def]
  exact ⟨h1, fun m => by rw [h1]⟩

/-- Witness of `AssignPermissionsToRole_roundTrip`: role `R1` granted `M1` and `M3` and is
assigned `M2` and `M1`. -/
theorem AssignPermissionsToRole_roundTrip_witness :
    rbacRepository.AssignPermissionsToRole sampleRolePermissions "R1" ["M2", "M1"] 7 =
        ([⟨"R2", "M1", "menu", 0, 0⟩, ⟨"R1", "M2", "menu", 7, 7⟩, ⟨"R1", "M1", "menu", 7, 7⟩],
          .ok ()) ∧
      rbacRepository.GetRolePermissions
        (rbacRepository.AssignPermissionsToRole sampleRolePermissions "R1" ["M2", "M1"] 7).1
          "R1" = ["M2", "M1"] :=
  ⟨rfl, ((AssignPermissionsToRole_roundTrip sampleRolePermissions "R1" ["M2", "M1"] 7).2
    rfl).1⟩


/-! ## Reparenting: the descendant walk -/

theorem GetChildMenus_mem (dbs : Sorter) (menus : List Menu) (parentID : String) (c : Menu) :
    c ∈ menuRepository.GetChildMenus dbs menus parentID ↔ c ∈ menus ∧ c.ParentID = parentID := by
  unfold menuRepository.GetChildMenus
  rw [(dbs.perm _ _).mem_iff]
  simp [List.mem_filter]

theorem isChildMenuLoop_spec (recCheck : String → Option Bool) (checkMenuID : String) :
    ∀ (l : List Menu), (∀ c ∈ l, c.MenuID ≠ checkMenuID → (recCheck c.MenuID).isSome = true) →
      ∃ b, isChildMenuLoop recCheck checkMenuID l = some b ∧
        (b = true ↔ ∃ c ∈ l, c.MenuID = checkMenuID ∨ recCheck c.MenuID = some true) := by
  intro l
  induction l with
  | nil => intro _; exact ⟨false, rfl, by simp⟩
  | cons x xs ih =>
    intro h
    obtain ⟨b, hb, hiff⟩ := ih (fun c hc => h c (List.mem_cons_of_mem _ hc))
    unfold isChildMenuLoop
    by_cases hx : x.MenuID = checkMenuID
    · exact ⟨true, by simp [hx], by simp [hx]⟩
    · obtain ⟨r, hr⟩ := Option.isSome_iff_exists.1 (h x (List.mem_cons_self _ _) hx)
      cases r with
      | true => exact ⟨true, by simp [hx, hr], by simp [hr]⟩
      | false =>
        refine ⟨b, by simp [hx, hr, hb], ?_⟩
        rw [hiff]
        simp [hx, hr]

theorem isChildMenuLoop_false (recCheck : String → Option Bool) (checkMenuID : String) :
    ∀ (l : List Menu), isChildMenuLoop recCheck checkMenuID l = some false →
      ∀ c ∈ l, c.MenuID ≠ checkMenuID ∧ recCheck c.MenuID = some false := by
  intro l
  induction l with
  | nil => intro _ c hc; simp at hc
  | cons x xs ih =>
    intro h c hc
    unfold isChildMenuLoop at h
    by_cases hx : x.MenuID = checkMenuID
    · simp [hx] at h
    · simp only [hx, if_false] at h
      cases hr : recCheck x.MenuID with
      | none => simp [hr] at h
      | some r =>
        cases r with
        | true => simp [hr] at h
        | false =>
          simp only [hr] at h
          rcases List.mem_cons.1 hc with rfl | hc
          · exact ⟨hx, hr⟩
          · exact ih h c hc

/-- A `false` of `isChildMenu` means that the id is not below the menu. -/
theorem isChildMenu_false (dbs : Sorter) (menus : List Menu) (checkMenuID : String) :
    ∀ (fuel : Nat) (a : String), isChildMenu dbs fuel menus a checkMenuID = some false →
      ¬ DescId menus a checkMenuID := by
  intro fuel
  induction fuel with
  | zero => intro a h; simp [isChildMenu] at h
  | succ k ih =>
    intro a h hd
    simp only [isChildMenu] at h
    have hall := isChildMenuLoop_false _ _ _ h
    cases hd with
    | child hch hp hid =>
      exact (hall _ ((GetChildMenus_mem dbs menus a _).2 ⟨hch, hp⟩)).1 hid
    | step hch hp hrest =>
      exact ih _ (hall _ ((GetChildMenus_mem dbs menus a _).2 ⟨hch, hp⟩)).2 hrest

/-- On acyclic links `isChildMenu` returns once the fuel exceeds the height of the menu, and
it returns `true` exactly for the ids below the menu. -/
theorem isChildMenu_spec (dbs : Sorter) (menus : List Menu) (checkMenuID : String)
    {height : String → Nat} (hA : ∀ m ∈ menus, height m.MenuID < height m.ParentID) :
    ∀ (fuel : Nat) (a : String), height a < fuel →
      ∃ b, isChildMenu dbs fuel menus a checkMenuID = some b ∧
        (b = true ↔ DescId menus a checkMenuID) := by
  intro fuel
  induction fuel with
  | zero => intro a h; omega
  | succ k ih =>
    intro a ha
    have hrec : ∀ c ∈ menuRepository.GetChildMenus dbs menus a,
        ∃ b, isChildMenu dbs k menus c.MenuID checkMenuID = some b ∧
          (b = true ↔ DescId menus c.MenuID checkMenuID) := by
      intro c hc
      have hc' := (GetChildMenus_mem dbs menus a c).1 hc
      have := hA c hc'.1
      rw [hc'.2] at this
      exact ih c.MenuID (by omega)
    obtain ⟨b, hb, hiff⟩ := isChildMenuLoop_spec
      (fun id => isChildMenu dbs k menus id checkMenuID) checkMenuID
      (menuRepository.GetChildMenus dbs menus a)
      (fun c hc _ => by obtain ⟨r, hr, _⟩ := hrec c hc; simp [hr])
    refine ⟨b, by simp only [isChildMenu]; exact hb, ?_⟩
    rw [hiff]
    constructor
    · rintro ⟨c, hc, hor⟩
      have hc' := (GetChildMenus_mem dbs menus a c).1 hc
      rcases hor with hid | hr
      · exact DescId.child hc'.1 hc'.2 hid
      · obtain ⟨r, hr', hriff⟩ := hrec c hc
        rw [hr] at hr'
        have : r = true := by simpa using hr'.symm
        exact DescId.step hc'.1 hc'.2 (hriff.1 this)
    · intro hd
      cases hd with
      | child hch hp hid =>
        exact ⟨_, (GetChildMenus_mem dbs menus a _).2 ⟨hch, hp⟩, Or.inl hid⟩
      | step hch hp hrest =>
        refine ⟨_, (GetChildMenus_mem dbs menus a _).2 ⟨hch, hp⟩, Or.inr ?_⟩
        obtain ⟨r, hr', hriff⟩ := hrec _ ((GetChildMenus_mem dbs menus a _).2 ⟨hch, hp⟩)
        rw [hr', hriff.2 hrest]

theorem DescId.snoc {menus : List Menu} {a q : String} {d : Menu} (h : DescId menus a q)
    (hd : d ∈ menus) (hp : d.ParentID = q) : DescId menus a d.MenuID := by
  induction h with
  | child hch hpa hid =>
    exact DescId.step hch hpa (DescId.child hd (hp.trans hid.symm) rfl)
  | step hch hpa _ ih => exact DescId.step hch hpa (ih hp)

theorem Descendant.descId {menus : List Menu} {a d : Menu} (h : Descendant menus a d) :
    DescId menus a.MenuID d.MenuID := by
  induction h with
  | child hd _ hp => exact DescId.child hd hp rfl
  | step _ hd _ hp ih => exact DescId.snoc ih hd hp

theorem Descendant.mem {menus : List Menu} {a d : Menu} (h : Descendant menus a d) :
    d ∈ menus := by
  cases h with
  | child hd _ _ => exact hd
  | step _ hd _ _ => exact hd

theorem Descendant.height_lt_ancestor {menus : List Menu} {height : String → Nat}
    (hA : ∀ m ∈ menus, height m.MenuID < height m.ParentID) {a d : Menu}
    (h : Descendant menus a d) : height d.MenuID < height a.MenuID := by
  induction h with
  | child hd _ hp => rw [← hp]; exact hA _ hd
  | step _ hd _ hp ih =>
    have := hA _ hd
    rw [hp] at this
    omega

theorem GetMenuByID_unique {menus : List Menu} (hU : UniqueIDs menus) {a : Menu}
    (ha : a ∈ menus) : menuRepository.GetMenuByID menus a.MenuID = .ok a := by
  obtain ⟨m, hget, hm, hid⟩ := GetMenuByID_of_mem menus a.MenuID ⟨a, ha, rfl⟩
  rw [hget, hU.eq_of_id hm ha hid]


/-- C4: in a menu store with unique, non-empty menu ids and acyclic parent links, for every
stored menu `A`, `UpdateMenu(A, req)` with `req.parent_id` equal to the id of `A` or to the id
of a descendant of `A` at any depth returns (for every large enough recursion depth) the
self-parent or the child-parent validation error and the unchanged store. -/
theorem UpdateMenu_rejects_cycle (dbs : Sorter) (menus : List Menu) (A : Menu)
    (req : MenuUpdateRequest) (now : Nat) (hU : UniqueIDs menus) (hN : NonEmptyIDs menus)
    (hA : AcyclicLinks menus) (hmem : A ∈ menus)
    (hreq : req.ParentID = A.MenuID ∨ ∃ d, Descendant menus A d ∧ req.ParentID = d.MenuID) :
    ∃ fuel, ∀ k, fuel ≤ k →
      menuService.UpdateMenu dbs k menus A.MenuID req now =
          some (menus, .error "不能将菜单设置为自己的父菜单") ∨
        menuService.UpdateMenu dbs k menus A.MenuID req now =
          some (menus, .error "不能将菜单设置为其子菜单的父菜单") := by
  obtain ⟨height, hA⟩ := hA
  refine ⟨height A.MenuID + 1, ?_⟩
  intro k hk
  have hget := GetMenuByID_unique hU hmem
  have hAlt := hA A hmem
  by_cases hself : req.ParentID = A.MenuID
  · left
    have hne : req.ParentID ≠ A.ParentID := by
      rw [hself]; intro h; rw [h] at hAlt; omega
    have hparent : menuService.UpdateMenu.parent dbs k menus A.MenuID req A =
        some (.error "不能将菜单设置为自己的父菜单") := by
      unfold menuService.UpdateMenu.parent
      rw [if_pos hne, if_pos hself]
    simp only [menuService.UpdateMenu, hget, hparent]
  · right
    rcases hreq with h | ⟨d, hd, hdid⟩
    · exact absurd h hself
    · have hdlt := Descendant.height_lt_ancestor hA hd
      have hne : req.ParentID ≠ A.ParentID := by
        rw [hdid]; intro h; rw [h] at hdlt; omega
      have hnonempty : req.ParentID ≠ "" := by
        rw [hdid]; exact hN d hd.mem
      obtain ⟨b, hb, hiff⟩ := isChildMenu_spec dbs menus req.ParentID hA k A.MenuID (by omega)
      have hbt : b = true := hiff.2 (by rw [hdid]; exact hd.descId)
      subst hbt
      have hparent : menuService.UpdateMenu.parent dbs k menus A.MenuID req A =
          some (.error "不能将菜单设置为其子菜单的父菜单") := by
        unfold menuService.UpdateMenu.parent
        rw [if_pos hne, if_neg hself, if_pos hnonempty, hb]
      simp only [menuService.UpdateMenu, hget, hparent]

theorem sampleMenus_nonEmpty : NonEmptyIDs sampleMenus := by decide

/-- Witness of `UpdateMenu_rejects_cycle`: in `sampleMenus` the directory `sys` cannot be
moved under its grandchild `roles:add`. -/
theorem UpdateMenu_rejects_cycle_witness :
    menuService.UpdateMenu insertionSorter 3 sampleMenus "sys" (reparentRequest "roles:add") 9 =
        some (sampleMenus, .error "不能将菜单设置为其子菜单的父菜单") ∧
      ∃ fuel, ∀ k, fuel ≤ k →
        menuService.UpdateMenu insertionSorter k sampleMenus
            (sampleMenu "sys" "" 1 "enable" true "directory" 1).MenuID
            (reparentRequest "roles:add") 9 =
          some (sampleMenus, .error "不能将菜单设置为自己的父菜单") ∨
        menuService.UpdateMenu insertionSorter k sampleMenus
            (sampleMenu "sys" "" 1 "enable" true "directory" 1).MenuID
            (reparentRequest "roles:add") 9 =
          some (sampleMenus, .error "不能将菜单设置为其子菜单的父菜单") :=
  ⟨rfl,
    UpdateMenu_rejects_cycle insertionSorter sampleMenus
      (sampleMenu "sys" "" 1 "enable" true "directory" 1) (reparentRequest "roles:add") 9
      sampleMenus_unique sampleMenus_nonEmpty sampleMenus_acyclic (by decide)
      (Or.inr ⟨sampleMenu "roles:add" "roles" 1 "enable" true "button" 4,
        Descendant.step (p := sampleMenu "roles" "sys" 1 "enable" true "menu" 3)
          (Descendant.child (by decide) (by decide) rfl) (by decide) (by decide) rfl, rfl⟩)⟩


/-! ## The forest invariant -/

theorem Rooted.functional {menus : List Menu} {n : Nat} {pid : String}
    (h : Rooted menus n pid) : ∀ {k : Nat}, Rooted menus k pid → n = k := by
  induction h with
  | root =>
    intro k hk
    cases hk with
    | root => rfl
    | step hne _ _ => exact absurd rfl hne
  | step hne hf _ ih =>
    intro k hk
    cases hk with
    | root => exact absurd rfl hne
    | step _ hf' hr' =>
      rw [hf] at hf'
      cases hf'
      rw [ih hr']

theorem Rooted.mono {menus : List Menu} :
    ∀ (k : Nat) (pid : String), reachesRoot menus k pid = true →
      reachesRoot menus (k + 1) pid = true := by
  intro k
  induction k with
  | zero =>
    intro pid h
    simp only [reachesRoot, decide_eq_true_eq] at h
    simp [reachesRoot, h]
  | succ k ih =>
    intro pid h
    unfold reachesRoot at h ⊢
    by_cases hp : pid = ""
    · simp [hp]
    · simp only [hp, if_false] at h ⊢
      cases hf : menus.find? (fun m => decide (m.MenuID = pid)) with
      | none => simp [hf] at h
      | some p =>
        simp only [hf] at h ⊢
        exact ih _ h

theorem reachesRoot_mono_le {menus : List Menu} {k j : Nat} (hkj : k ≤ j) (pid : String)
    (h : reachesRoot menus k pid = true) : reachesRoot menus j pid = true := by
  induction hkj with
  | refl => exact h
  | step _ ih => exact Rooted.mono _ pid ih

theorem reachesRoot_of_rooted {menus : List Menu} {n : Nat} {pid : String}
    (h : Rooted menus n pid) : reachesRoot menus n pid = true := by
  induction h with
  | root => simp [reachesRoot]
  | step hne hf _ ih =>
    unfold reachesRoot
    simp only [hne, if_false, hf]
    exact ih

theorem rooted_of_reachesRoot {menus : List Menu} :
    ∀ (k : Nat) (pid : String), reachesRoot menus k pid = true →
      ∃ n, n ≤ k ∧ Rooted menus n pid := by
  intro k
  induction k with
  | zero =>
    intro pid h
    simp only [reachesRoot, decide_eq_true_eq] at h
    subst h
    exact ⟨0, le_refl _, Rooted.root⟩
  | succ k ih =>
    intro pid h
    unfold reachesRoot at h
    by_cases hp : pid = ""
    · subst hp
      exact ⟨0, Nat.zero_le _, Rooted.root⟩
    · simp only [hp, if_false] at h
      cases hf : menus.find? (fun m => decide (m.MenuID = pid)) with
      | none => simp [hf] at h
      | some p =>
        simp only [hf] at h
        obtain ⟨n, hn, hr⟩ := ih _ h
        exact ⟨n + 1, by omega, Rooted.step hp hf hr⟩

/-- The ids met on the way to the root are pairwise distinct ids of the store. -/
theorem Rooted.chain {menus : List Menu} {n : Nat} {pid : String} (h : Rooted menus n pid) :
    ∃ l : List String, l.length = n ∧ l.Nodup ∧ (∀ q ∈ l, q ∈ menus.map (fun m => m.MenuID)) ∧
      ∀ q ∈ l, ∃ j, j ≤ n ∧ 0 < j ∧ Rooted menus j q := by
  induction h with
  | root => exact ⟨[], rfl, List.nodup_nil, by simp, by simp⟩
  | @step n pid p hne hf hr ih =>
    obtain ⟨l, hlen, hnd, hsub, hall⟩ := ih
    refine ⟨pid :: l, by simp [hlen], ?_, ?_, ?_⟩
    · refine List.nodup_cons.2 ⟨?_, hnd⟩
      intro hmem
      obtain ⟨j, hj, _, hrj⟩ := hall pid hmem
      have := (Rooted.step hne hf hr).functional hrj
      omega
    · intro q hq
      rcases List.mem_cons.1 hq with rfl | hq
      · refine List.mem_map.2 ⟨p, List.mem_of_find?_eq_some hf, ?_⟩
        simpa using List.find?_some hf
      · exact hsub q hq
    · intro q hq
      rcases List.mem_cons.1 hq with rfl | hq
      · exact ⟨n + 1, le_refl _, by omega, Rooted.step hne hf hr⟩
      · obtain ⟨j, hj, hj0, hrj⟩ := hall q hq
        exact ⟨j, by omega, hj0, hrj⟩

theorem Rooted.le_length {menus : List Menu} {n : Nat} {pid : String}
    (h : Rooted menus n pid) : n ≤ menus.length := by
  obtain ⟨l, hlen, hnd, hsub, _⟩ := h.chain
  have := (List.subperm_of_subset hnd hsub).length_le
  simpa [hlen] using this

theorem forest_iff (menus : List Menu) :
    Forest menus ↔ ∀ m ∈ menus, ∃ n, Rooted menus n m.ParentID := by
  constructor
  · intro h m hm
    obtain ⟨n, _, hr⟩ := rooted_of_reachesRoot _ _ (h m hm)
    exact ⟨n, hr⟩
  · intro h m hm
    obtain ⟨n, hr⟩ := h m hm
    exact reachesRoot_mono_le hr.le_length _ (reachesRoot_of_rooted hr)

theorem Rooted.parent_present {menus : List Menu} {n : Nat} {pid : String}
    (h : Rooted menus n pid) : pid = "" ∨ ∃ p ∈ menus, p.MenuID = pid := by
  cases h with
  | root => exact Or.inl rfl
  | step _ hf _ =>
    exact Or.inr ⟨_, List.mem_of_find?_eq_some hf, by simpa using List.find?_some hf⟩

/-! ### Lookups in a changed store -/

theorem find_eraseP_ne (menus : List Menu) {pid k : String} (h : pid ≠ k) :
    (menus.eraseP (fun m => decide (m.MenuID = k))).find? (fun m => decide (m.MenuID = pid)) =
      menus.find? (fun m => decide (m.MenuID = pid)) := by
  induction menus with
  | nil => rfl
  | cons x xs ih =>
    by_cases hx : x.MenuID = k
    · have hxp : ¬ (decide (x.MenuID = pid) = true) := by
        simp only [decide_eq_true_eq]; exact fun hxp => h (hxp.symm.trans hx)
      rw [List.eraseP_cons_of_pos (by simpa using hx), List.find?_cons_of_neg (p := fun m : Menu => decide (m.MenuID = pid)) _ hxp]
    · rw [List.eraseP_cons_of_neg (by simpa using hx)]
      by_cases hxp : x.MenuID = pid
      · rw [List.find?_cons_of_pos (p := fun m : Menu => decide (m.MenuID = pid)) _ (by simpa using hxp),
          List.find?_cons_of_pos (p := fun m : Menu => decide (m.MenuID = pid)) _ (by simpa using hxp)]
      · rw [List.find?_cons_of_neg (p := fun m : Menu => decide (m.MenuID = pid)) _ (by simpa using hxp),
          List.find?_cons_of_neg (p := fun m : Menu => decide (m.MenuID = pid)) _ (by simpa using hxp), ih]

theorem find_updateFirst_ne (menus : List Menu) (g : Menu → Menu)
    (hg : ∀ m, (g m).MenuID = m.MenuID) {pid a : String} (h : pid ≠ a) :
    (updateFirst (fun m => decide (m.MenuID = a)) g menus).find?
        (fun m => decide (m.MenuID = pid)) =
      menus.find? (fun m => decide (m.MenuID = pid)) := by
  induction menus with
  | nil => rfl
  | cons x xs ih =>
    unfold updateFirst
    by_cases hx : x.MenuID = a
    · have hxp : ¬ (decide (x.MenuID = pid) = true) := by
        simp only [decide_eq_true_eq]; exact fun hxp => h (hxp.symm.trans hx)
      have hgp : ¬ (decide ((g x).MenuID = pid) = true) := by rw [hg]; exact hxp
      rw [if_pos (by simpa using hx), List.find?_cons_of_neg (p := fun m : Menu => decide (m.MenuID = pid)) _ hxp,
        List.find?_cons_of_neg (p := fun m : Menu => decide (m.MenuID = pid)) _ hgp]
    · rw [if_neg (by simpa using hx)]
      by_cases hxp : x.MenuID = pid
      · rw [List.find?_cons_of_pos (p := fun m : Menu => decide (m.MenuID = pid)) _ (by simpa using hxp),
          List.find?_cons_of_pos (p := fun m : Menu => decide (m.MenuID = pid)) _ (by simpa using hxp)]
      · rw [List.find?_cons_of_neg (p := fun m : Menu => decide (m.MenuID = pid)) _ (by simpa using hxp),
          List.find?_cons_of_neg (p := fun m : Menu => decide (m.MenuID = pid)) _ (by simpa using hxp), ih]

theorem find_updateFirst_eq (menus : List Menu) (g : Menu → Menu)
    (hg : ∀ m, (g m).MenuID = m.MenuID) (a : String) :
    (updateFirst (fun m => decide (m.MenuID = a)) g menus).find?
        (fun m => decide (m.MenuID = a)) =
      (menus.find? (fun m => decide (m.MenuID = a))).map g := by
  induction menus with
  | nil => rfl
  | cons x xs ih =>
    unfold updateFirst
    by_cases hx : x.MenuID = a
    · have hgx : decide ((g x).MenuID = a) = true := by rw [hg]; simpa using hx
      rw [if_pos (by simpa using hx), List.find?_cons_of_pos (p := fun m : Menu => decide (m.MenuID = a)) _ hgx,
        List.find?_cons_of_pos (p := fun m : Menu => decide (m.MenuID = a)) _ (by simpa using hx)]
      rfl
    · rw [if_neg (by simpa using hx), List.find?_cons_of_neg (p := fun m : Menu => decide (m.MenuID = a)) _ (by simpa using hx),
        List.find?_cons_of_neg (p := fun m : Menu => decide (m.MenuID = a)) _ (by simpa using hx), ih]

theorem find_map_id (menus : List Menu) (f : Menu → Menu)
    (hf : ∀ m, (f m).MenuID = m.MenuID) (pid : String) :
    (menus.map f).find? (fun m => decide (m.MenuID = pid)) =
      (menus.find? (fun m => decide (m.MenuID = pid))).map f := by
  induction menus with
  | nil => rfl
  | cons x xs ih =>
    rw [List.map_cons]
    by_cases hx : x.MenuID = pid
    · have hfx : decide ((f x).MenuID = pid) = true := by rw [hf]; simpa using hx
      rw [List.find?_cons_of_pos (p := fun m : Menu => decide (m.MenuID = pid)) _ hfx, List.find?_cons_of_pos (p := fun m : Menu => decide (m.MenuID = pid)) _ (by simpa using hx)]
      rfl
    · have hfx : ¬ (decide ((f x).MenuID = pid) = true) := by rw [hf]; simpa using hx
      rw [List.find?_cons_of_neg (p := fun m : Menu => decide (m.MenuID = pid)) _ hfx, List.find?_cons_of_neg (p := fun m : Menu => decide (m.MenuID = pid)) _ (by simpa using hx), ih]

theorem mem_updateFirst {p : Menu → Bool} {g : Menu → Menu} {menus : List Menu} {m : Menu}
    (h : m ∈ updateFirst p g menus) :
    m ∈ menus ∨ ∃ x, menus.find? p = some x ∧ m = g x := by
  induction menus with
  | nil => simp [updateFirst] at h
  | cons x xs ih =>
    unfold updateFirst at h
    by_cases hx : p x = true
    · simp only [hx, if_true] at h
      rcases List.mem_cons.1 h with rfl | h
      · exact Or.inr ⟨x, by simp [List.find?_cons, hx], rfl⟩
      · exact Or.inl (List.mem_cons_of_mem _ h)
    · simp only [hx] at h
      rcases List.mem_cons.1 h with rfl | h
      · exact Or.inl (List.mem_cons_self _ _)
      · rcases ih h with h1 | ⟨y, hy, rfl⟩
        · exact Or.inl (List.mem_cons_of_mem _ h1)
        · refine Or.inr ⟨y, ?_, rfl⟩
          have : p x = false := by simpa using hx
          simp [List.find?_cons, this, hy]

theorem map_id_updateFirst (p : Menu → Bool) (g : Menu → Menu)
    (hg : ∀ m, (g m).MenuID = m.MenuID) (menus : List Menu) :
    (updateFirst p g menus).map (fun m => m.MenuID) = menus.map (fun m => m.MenuID) := by
  induction menus with
  | nil => rfl
  | cons x xs ih =>
    unfold updateFirst
    split
    · simp [hg]
    · simp [ih]


/-! ### Each call keeps the forest -/

/-- A path to the root carries over to a changed store when, along the ids that satisfy
`good`, a lookup still finds a menu with the same parent. -/
theorem Rooted.transfer {menus menus' : List Menu} (good : String → Prop)
    (hstep : ∀ pid p, good pid → pid ≠ "" →
      menus.find? (fun m => decide (m.MenuID = pid)) = some p →
      (∃ p', menus'.find? (fun m => decide (m.MenuID = pid)) = some p' ∧
        p'.ParentID = p.ParentID) ∧ good p.ParentID)
    {n : Nat} {pid : String} (h : Rooted menus n pid) (hgood : good pid) :
    Rooted menus' n pid := by
  induction h with
  | root => exact Rooted.root
  | step hne hf _ ih =>
    obtain ⟨⟨p', hf', hpp⟩, hg⟩ := hstep _ _ hgood hne hf
    exact Rooted.step hne hf' (by rw [hpp]; exact ih hg)

theorem forest_append {menus : List Menu} (hF : Forest menus) (x : Menu)
    (hx : x.ParentID = "" ∨
      ∃ p, menus.find? (fun m => decide (m.MenuID = x.ParentID)) = some p) :
    Forest (menus ++ [x]) := by
  rw [forest_iff] at hF ⊢
  have htrans : ∀ {n pid}, Rooted menus n pid → Rooted (menus ++ [x]) n pid := by
    intro n pid h
    refine Rooted.transfer (fun _ => True) ?_ h trivial
    intro pid p _ _ hf
    exact ⟨⟨p, by simp [List.find?_append, hf], rfl⟩, trivial⟩
  intro m hm
  rcases List.mem_append.1 hm with hm | hm
  · obtain ⟨n, hn⟩ := hF m hm
    exact ⟨n, htrans hn⟩
  · have hmx : m = x := by simpa using hm
    subst hmx
    rcases hx with h0 | ⟨p, hp⟩
    · rw [h0]; exact ⟨0, Rooted.root⟩
    · by_cases h0 : m.ParentID = ""
      · rw [h0]; exact ⟨0, Rooted.root⟩
      · obtain ⟨n, hn⟩ := hF p (List.mem_of_find?_eq_some hp)
        exact ⟨n + 1, htrans (Rooted.step h0 hp hn)⟩

theorem forest_eraseP {menus : List Menu} (hF : Forest menus) (k : String)
    (hleaf : ∀ c ∈ menus, c.ParentID ≠ k) :
    Forest (menus.eraseP (fun m => decide (m.MenuID = k))) := by
  rw [forest_iff] at hF ⊢
  intro m hm
  have hm' : m ∈ menus := List.mem_of_mem_eraseP hm
  obtain ⟨n, hn⟩ := hF m hm'
  refine ⟨n, Rooted.transfer (fun pid => pid ≠ k) ?_ hn (hleaf m hm')⟩
  intro pid p hpk _ hf
  exact ⟨⟨p, by rw [find_eraseP_ne menus hpk]; exact hf, rfl⟩,
    hleaf p (List.mem_of_find?_eq_some hf)⟩

theorem forest_map {menus : List Menu} (hF : Forest menus) (f : Menu → Menu)
    (hid : ∀ m, (f m).MenuID = m.MenuID) (hpar : ∀ m, (f m).ParentID = m.ParentID) :
    Forest (menus.map f) := by
  rw [forest_iff] at hF ⊢
  intro m hm
  obtain ⟨x, hx, rfl⟩ := List.mem_map.1 hm
  obtain ⟨n, hn⟩ := hF x hx
  rw [hpar]
  refine ⟨n, Rooted.transfer (fun _ => True) ?_ hn trivial⟩
  intro pid p _ _ hf
  exact ⟨⟨f p, by rw [find_map_id menus f hid, hf]; rfl, hpar p⟩, trivial⟩

theorem forest_updateFirst_same {menus : List Menu} (hF : Forest menus) (a : String)
    (g : Menu → Menu) (hid : ∀ m, (g m).MenuID = m.MenuID)
    (hpar : ∀ m, (g m).ParentID = m.ParentID) :
    Forest (updateFirst (fun m => decide (m.MenuID = a)) g menus) := by
  rw [forest_iff] at hF ⊢
  have htrans : ∀ {n pid}, Rooted menus n pid →
      Rooted (updateFirst (fun m => decide (m.MenuID = a)) g menus) n pid := by
    intro n pid h
    refine Rooted.transfer (fun _ => True) ?_ h trivial
    intro pid p _ _ hf
    by_cases hpa : pid = a
    · subst hpa
      exact ⟨⟨g p, by rw [find_updateFirst_eq menus g hid, hf]; rfl, hpar p⟩, trivial⟩
    · exact ⟨⟨p, by rw [find_updateFirst_ne menus g hid hpa]; exact hf, rfl⟩, trivial⟩
  intro m hm
  rcases mem_updateFirst hm with hm | ⟨x, hx, rfl⟩
  · obtain ⟨n, hn⟩ := hF m hm
    exact ⟨n, htrans hn⟩
  · obtain ⟨n, hn⟩ := hF x (List.mem_of_find?_eq_some hx)
    rw [hpar]
    exact ⟨n, htrans hn⟩

/-- Moving the menu `a` under `newParent` keeps the forest when `newParent` is the root, or
is a stored menu other than `a` that is not below `a`. -/
theorem forest_updateFirst_reparent {menus : List Menu} (hF : Forest menus) (a newParent : String)
    (g : Menu → Menu) (hid : ∀ m, (g m).MenuID = m.MenuID)
    (hpar : ∀ m, (g m).ParentID = newParent) (hne : newParent ≠ a)
    (hnew : newParent = "" ∨ (¬ DescId menus a newParent ∧
      ∃ p, menus.find? (fun m => decide (m.MenuID = newParent)) = some p)) :
    Forest (updateFirst (fun m => decide (m.MenuID = a)) g menus) := by
  rw [forest_iff] at hF ⊢
  have hnewRooted : ∃ n, Rooted (updateFirst (fun m => decide (m.MenuID = a)) g menus) n
      newParent := by
    rcases hnew with h0 | ⟨hnd, p, hp⟩
    · rw [h0]; exact ⟨0, Rooted.root⟩
    · by_cases h0 : newParent = ""
      · rw [h0]; exact ⟨0, Rooted.root⟩
      · obtain ⟨n, hn⟩ := hF p (List.mem_of_find?_eq_some hp)
        refine ⟨n + 1, Rooted.transfer (fun pid => pid ≠ a ∧ ¬ DescId menus a pid) ?_
          (Rooted.step h0 hp hn) ⟨hne, hnd⟩⟩
        intro pid q hgood _ hf
        have hq : q ∈ menus := List.mem_of_find?_eq_some hf
        have hqid : q.MenuID = pid := by simpa using List.find?_some hf
        refine ⟨⟨q, by rw [find_updateFirst_ne menus g hid hgood.1]; exact hf, rfl⟩, ?_, ?_⟩
        · intro hqa
          exact hgood.2 (DescId.child hq hqa hqid)
        · intro hd
          have := DescId.snoc hd hq rfl
          rw [hqid] at this
          exact hgood.2 this
  have htrans : ∀ {n pid}, Rooted menus n pid →
      ∃ j, Rooted (updateFirst (fun m => decide (m.MenuID = a)) g menus) j pid := by
    intro n pid h
    induction h with
    | root => exact ⟨0, Rooted.root⟩
    | @step n pid p hne' hf _ ih =>
      by_cases hpa : pid = a
      · subst hpa
        obtain ⟨j, hj⟩ := hnewRooted
        refine ⟨j + 1, Rooted.step hne' (p := g p) ?_ (by rw [hpar]; exact hj)⟩
        rw [find_updateFirst_eq menus g hid, hf]; rfl
      · obtain ⟨j, hj⟩ := ih
        exact ⟨j + 1, Rooted.step hne' (by rw [find_updateFirst_ne menus g hid hpa]; exact hf) hj⟩
  intro m hm
  rcases mem_updateFirst hm with hm | ⟨x, _, rfl⟩
  · obtain ⟨n, hn⟩ := hF m hm
    exact htrans hn
  · rw [hpar]; exact hnewRooted


theorem GetMenuByID_toBool {menus : List Menu} {menuID : String}
    (h : ¬ (menuRepository.GetMenuByID menus menuID).toBool = false) :
    ∃ p, menus.find? (fun m => decide (m.MenuID = menuID)) = some p := by
  unfold menuRepository.GetMenuByID at h
  cases hf : menus.find? (fun m => decide (m.MenuID = menuID)) with
  | none => rw [hf] at h; exact absurd rfl h
  | some p => exact ⟨p, rfl⟩

theorem repository_CreateMenu_store (menus : List Menu) (menu : Menu) (env : Env) :
    (menuRepository.CreateMenu menus menu env).1 = menus ∨
      ∃ x, (menuRepository.CreateMenu menus menu env).1 = menus ++ [x] ∧
        x.ParentID = menu.ParentID ∧ x.MenuID ∉ menus.map (fun m => m.MenuID) := by
  have key : ∀ stamped : Menu, stamped.ParentID = menu.ParentID →
      ((if menus.any (fun m => decide (m.MenuID = stamped.MenuID)) = true then
          (menus, (Except.error ("创建菜单失败: " ++ duplicateKeyError) : Except String Menu))
        else (menus ++ [{ stamped with ID := env.objectID }], Except.ok stamped)).1 = menus) ∨
      ∃ x, (if menus.any (fun m => decide (m.MenuID = stamped.MenuID)) = true then
          (menus, (Except.error ("创建菜单失败: " ++ duplicateKeyError) : Except String Menu))
        else (menus ++ [{ stamped with ID := env.objectID }], Except.ok stamped)).1 =
          menus ++ [x] ∧
        x.ParentID = menu.ParentID ∧ x.MenuID ∉ menus.map (fun m => m.MenuID) := by
    intro stamped hpar
    by_cases hany : menus.any (fun m => decide (m.MenuID = stamped.MenuID)) = true
    · left; rw [if_pos hany]
    · right
      rw [if_neg hany]
      refine ⟨_, rfl, hpar, ?_⟩
      intro hmem
      obtain ⟨m, hm, hmid⟩ := List.mem_map.1 hmem
      apply hany
      exact List.any_eq_true.2 ⟨m, hm, by simpa using hmid⟩
  exact key _ (by split <;> rfl)

theorem CreateMenu_store (menus : List Menu) (req : MenuCreateRequest) (env : Env) :
    (menuService.CreateMenu menus req env).1 = menus ∨
      ∃ x, (menuService.CreateMenu menus req env).1 = menus ++ [x] ∧
        (x.ParentID = "" ∨
          ∃ p, menus.find? (fun m => decide (m.MenuID = x.ParentID)) = some p) ∧
        x.MenuID ∉ menus.map (fun m => m.MenuID) := by
  have hrepo : ∀ (menu : Menu) (r : List Menu × Except String Menu),
      menuRepository.CreateMenu menus menu env = r → menu.ParentID = req.ParentID →
      (req.ParentID = "" ∨
        ∃ p, menus.find? (fun m => decide (m.MenuID = req.ParentID)) = some p) →
      r.1 = menus ∨ ∃ x, r.1 = menus ++ [x] ∧
        (x.ParentID = "" ∨
          ∃ p, menus.find? (fun m => decide (m.MenuID = x.ParentID)) = some p) ∧
        x.MenuID ∉ menus.map (fun m => m.MenuID) := by
    intro menu r hr hpar hparent
    rcases repository_CreateMenu_store menus menu env with h | ⟨x, hx, hxp, hxid⟩
    · left; rw [← hr]; exact h
    · right
      refine ⟨x, by rw [← hr]; exact hx, ?_, hxid⟩
      rw [hxp, hpar]; exact hparent
  unfold menuService.CreateMenu
  split
  · exact Or.inl rfl
  · rename_i hparent
    have hparent' : req.ParentID = "" ∨
        ∃ p, menus.find? (fun m => decide (m.MenuID = req.ParentID)) = some p := by
      by_cases h0 : req.ParentID = ""
      · exact Or.inl h0
      · right
        exact GetMenuByID_toBool (fun hb => hparent ⟨h0, hb⟩)
    split
    · exact Or.inl rfl
    · split
      · exact Or.inl rfl
      · simp only
        split
        · rename_i heq
          exact hrepo _ _ heq (by split <;> rfl) hparent'
        · rename_i heq
          exact hrepo _ _ heq (by split <;> rfl) hparent'

theorem DeleteMenu_store (menus : List Menu) (menuID : String) :
    (menuService.DeleteMenu menus menuID).1 = menus ∨
      ((menuService.DeleteMenu menus menuID).1 =
          menus.eraseP (fun m => decide (m.MenuID = menuID)) ∧
        ∀ c ∈ menus, c.ParentID ≠ menuID) := by
  unfold menuService.DeleteMenu
  split
  · exact Or.inl rfl
  · split
    · exact Or.inl rfl
    · rename_i hno
      unfold menuRepository.DeleteMenu
      split
      · rename_i heq
        split at heq
        · exact absurd (congrArg Prod.snd heq) (by intro h; exact Except.noConfusion h)
        · exact Or.inl (congrArg Prod.fst heq).symm
      · rename_i heq
        split at heq
        · right
          refine ⟨(congrArg Prod.fst heq).symm, ?_⟩
          intro c hc hcp
          exact hno ((HasChildMenus_iff menus menuID).2 ⟨c, hc, hcp⟩)
        · exact Or.inl (congrArg Prod.fst heq).symm

theorem BatchUpdateMenuStatus_store (menus : List Menu) (req : BatchUpdateMenuStatusRequest)
    (now : Nat) :
    (menuService.BatchUpdateMenuStatus menus req now).1 = menus ∨
      (menuService.BatchUpdateMenuStatus menus req now).1 = menus.map (fun m =>
        if m.MenuID ∈ req.MenuIDs then { m with Status := req.Status, UpdatedAt := now }
        else m) := by
  unfold menuService.BatchUpdateMenuStatus
  split
  · exact Or.inl rfl
  · exact Or.inr rfl


theorem UpdateMenu_parent_ok {dbs : Sorter} {fuel : Nat} {menus : List Menu} {a : String}
    {req : MenuUpdateRequest} {existingMenu : Menu} {updates : MenuUpdates}
    (h : menuService.UpdateMenu.parent dbs fuel menus a req existingMenu =
      some (.ok updates)) :
    updates.parent_id = none ∨
      (updates.parent_id = some req.ParentID ∧ req.ParentID ≠ a ∧
        (req.ParentID = "" ∨ (isChildMenu dbs fuel menus a req.ParentID = some false ∧
          ∃ p, menus.find? (fun m => decide (m.MenuID = req.ParentID)) = some p))) := by
  unfold menuService.UpdateMenu.parent at h
  split at h
  · split at h
    · simp at h
    · rename_i hself
      split at h
      · simp at h
      · simp at h
      · rename_i hchild
        split at h
        · simp at h
        · rename_i hexists
          simp only [Option.some.injEq, Except.ok.injEq] at h
          right
          refine ⟨by rw [← h], hself, ?_⟩
          by_cases h0 : req.ParentID = ""
          · exact Or.inl h0
          · right
            rw [if_pos h0] at hchild
            exact ⟨hchild, GetMenuByID_toBool (fun hb => hexists ⟨h0, hb⟩)⟩
  · simp only [Option.some.injEq, Except.ok.injEq] at h
    left
    rw [← h]

theorem UpdateMenu_fields_parent_id {menus : List Menu} {a : String}
    {req : MenuUpdateRequest} {existingMenu : Menu} {updates result : MenuUpdates}
    (h : menuService.UpdateMenu.fields menus a req existingMenu updates = .ok result) :
    result.parent_id = updates.parent_id := by
  unfold menuService.UpdateMenu.fields at h
  simp only at h
  generalize (if req.ParentID = "" then existingMenu.ParentID else req.ParentID) = parentID at h
  split at h
  · exact Except.noConfusion h
  · split at h
    · exact Except.noConfusion h
    · simp only [Except.ok.injEq] at h
      rw [← h]

theorem UpdateMenu_store {dbs : Sorter} {fuel : Nat} {menus : List Menu} {a : String}
    {req : MenuUpdateRequest} {now : Nat} {r : List Menu × Except String MenuInfo}
    (h : menuService.UpdateMenu dbs fuel menus a req now = some r) :
    r.1 = menus ∨ ∃ updates : MenuUpdates,
      r.1 = updateFirst (fun m => decide (m.MenuID = a)) (updates.set now) menus ∧
      (updates.parent_id = none ∨
        (updates.parent_id = some req.ParentID ∧ req.ParentID ≠ a ∧
          (req.ParentID = "" ∨ (isChildMenu dbs fuel menus a req.ParentID = some false ∧
            ∃ p, menus.find? (fun m => decide (m.MenuID = req.ParentID)) = some p)))) := by
  unfold menuService.UpdateMenu at h
  split at h
  · simp only [Option.some.injEq] at h
    left; rw [← h]
  · split at h
    · simp at h
    · simp only [Option.some.injEq] at h
      left; rw [← h]
    · rename_i updates₀ hparent
      split at h
      · simp only [Option.some.injEq] at h
        left; rw [← h]
      · rename_i updates hfields
        have hpid := UpdateMenu_fields_parent_id hfields
        have hcond := UpdateMenu_parent_ok hparent
        rw [← hpid] at hcond
        split at h
        · simp only [Option.some.injEq] at h
          left; rw [← h]
        · unfold menuRepository.UpdateMenu at h
          split at h
          · rename_i heq
            simp only [Option.some.injEq] at h
            split at heq
            · exact absurd (congrArg Prod.snd heq) (by intro h; exact Except.noConfusion h)
            · left; rw [← h]; exact (congrArg Prod.fst heq).symm
          · rename_i heq
            simp only [Option.some.injEq] at h
            split at heq
            · right
              exact ⟨updates, by rw [← h]; exact (congrArg Prod.fst heq).symm, hcond⟩
            · left; rw [← h]; exact (congrArg Prod.fst heq).symm

theorem forest_apply {dbs : Sorter} {fuel : Nat} {menus menus' : List Menu} {op : MenuOp}
    (hF : Forest menus) (h : op.apply dbs fuel menus = some menus') : Forest menus' := by
  cases op with
  | create req env =>
    simp only [MenuOp.apply, Option.some.injEq] at h
    rcases CreateMenu_store menus req env with h1 | ⟨x, hx, hpar, _⟩
    · rw [← h, h1]; exact hF
    · rw [← h, hx]; exact forest_append hF x hpar
  | update menuID req now =>
    simp only [MenuOp.apply, Option.map_eq_some'] at h
    obtain ⟨r, hr, hfst⟩ := h
    rcases UpdateMenu_store hr with h1 | ⟨updates, hup, hcond⟩
    · rw [← hfst, h1]; exact hF
    · rw [← hfst, hup]
      rcases hcond with hnone | ⟨hsome, hne, hnew⟩
      · exact forest_updateFirst_same hF menuID _ (fun _ => rfl)
          (fun m => by simp [MenuUpdates.set, hnone])
      · refine forest_updateFirst_reparent hF menuID req.ParentID _ (fun _ => rfl)
          (fun m => by simp [MenuUpdates.set, hsome]) hne ?_
        rcases hnew with h0 | ⟨hfalse, hp⟩
        · exact Or.inl h0
        · exact Or.inr ⟨isChildMenu_false dbs menus _ fuel menuID hfalse, hp⟩
  | delete menuID =>
    simp only [MenuOp.apply, Option.some.injEq] at h
    rcases DeleteMenu_store menus menuID with h1 | ⟨h1, hleaf⟩
    · rw [← h, h1]; exact hF
    · rw [← h, h1]; exact forest_eraseP hF menuID hleaf
  | batchStatus req now =>
    simp only [MenuOp.apply, Option.some.injEq] at h
    rcases BatchUpdateMenuStatus_store menus req now with h1 | h1
    · rw [← h, h1]; exact hF
    · rw [← h, h1]
      exact forest_map hF _ (fun m => by split <;> rfl) (fun m => by split <;> rfl)

theorem unique_apply {dbs : Sorter} {fuel : Nat} {menus menus' : List Menu} {op : MenuOp}
    (hU : UniqueIDs menus) (h : op.apply dbs fuel menus = some menus') : UniqueIDs menus' := by
  cases op with
  | create req env =>
    simp only [MenuOp.apply, Option.some.injEq] at h
    rcases CreateMenu_store menus req env with h1 | ⟨x, hx, _, hfresh⟩
    · rw [← h, h1]; exact hU
    · rw [← h, hx]
      unfold UniqueIDs at hU ⊢
      rw [List.map_append, List.nodup_append]
      refine ⟨hU, by simp, ?_⟩
      intro id h1 h2
      have : id = x.MenuID := by simpa using h2
      subst this
      exact hfresh h1
  | update menuID req now =>
    simp only [MenuOp.apply, Option.map_eq_some'] at h
    obtain ⟨r, hr, hfst⟩ := h
    rcases UpdateMenu_store hr with h1 | ⟨updates, hup, _⟩
    · rw [← hfst, h1]; exact hU
    · rw [← hfst, hup]
      unfold UniqueIDs
      rw [map_id_updateFirst _ (updates.set now) (fun _ => rfl)]
      exact hU
  | delete menuID =>
    simp only [MenuOp.apply, Option.some.injEq] at h
    rcases DeleteMenu_store menus menuID with h1 | ⟨h1, _⟩
    · rw [← h, h1]; exact hU
    · rw [← h, h1]
      exact List.Nodup.sublist ((List.eraseP_sublist menus).map _) hU
  | batchStatus req now =>
    simp only [MenuOp.apply, Option.some.injEq] at h
    rcases BatchUpdateMenuStatus_store menus req now with h1 | h1
    · rw [← h, h1]; exact hU
    · rw [← h, h1]
      unfold UniqueIDs at hU ⊢
      rw [List.map_map]
      have : ((fun m : Menu => m.MenuID) ∘ fun m : Menu =>
          if m.MenuID ∈ req.MenuIDs then { m with Status := req.Status, UpdatedAt := now }
          else m) = fun m => m.MenuID := by
        funext m
        simp only [Function.comp]
        split <;> rfl
      rw [this]
      exact hU


theorem forest_runOps (dbs : Sorter) (fuel : Nat) :
    ∀ (ops : List MenuOp) (menus menus' : List Menu), Forest menus →
      runOps dbs fuel menus ops = some menus' → Forest menus' := by
  intro ops
  induction ops with
  | nil =>
    intro menus menus' hF h
    simp only [runOps, Option.some.injEq] at h
    rw [← h]; exact hF
  | cons op ops ih =>
    intro menus menus' hF h
    unfold runOps at h
    split at h
    · exact Option.noConfusion h
    · rename_i mid hop
      exact ih mid menus' (forest_apply hF hop) h

theorem unique_runOps (dbs : Sorter) (fuel : Nat) :
    ∀ (ops : List MenuOp) (menus menus' : List Menu), UniqueIDs menus →
      runOps dbs fuel menus ops = some menus' → UniqueIDs menus' := by
  intro ops
  induction ops with
  | nil =>
    intro menus menus' hU h
    simp only [runOps, Option.some.injEq] at h
    rw [← h]; exact hU
  | cons op ops ih =>
    intro menus menus' hU h
    unfold runOps at h
    split at h
    · exact Option.noConfusion h
    · rename_i mid hop
      exact ih mid menus' (unique_apply hU hop) h

theorem Forest.parentsPresent {menus : List Menu} (hF : Forest menus) :
    ParentsPresent menus := by
  intro m hm
  obtain ⟨n, hn⟩ := (forest_iff menus).1 hF m hm
  exact hn.parent_present

theorem find_of_unique {menus : List Menu} (hU : UniqueIDs menus) {p : Menu} (hp : p ∈ menus) :
    menus.find? (fun m => decide (m.MenuID = p.MenuID)) = some p := by
  have := GetMenuByID_unique hU hp
  exact GetMenuByID_ok this

theorem Rooted.inv {menus : List Menu} {n : Nat} {pid : String} (h : Rooted menus n pid)
    (hne : pid ≠ "") :
    ∃ k p, n = k + 1 ∧ menus.find? (fun m => decide (m.MenuID = pid)) = some p ∧
      Rooted menus k p.ParentID := by
  cases h with
  | root => exact absurd rfl hne
  | step _ hf hr => exact ⟨_, _, rfl, hf, hr⟩

/-- In a forest with unique ids the path from a descendant to the root passes through the
ancestor, so it is longer than the path from the ancestor. -/
theorem Descendant.rooted_lt {menus : List Menu} (hU : UniqueIDs menus) {a d : Menu}
    (ha : a ∈ menus) (h : Descendant menus a d) :
    ∀ n, Rooted menus n d.ParentID → ∃ k, k < n ∧ Rooted menus k a.ParentID := by
  induction h with
  | child hd hne hpar =>
    intro n hn
    obtain ⟨k, p, hk, hf, hr⟩ := hn.inv hne
    rw [hpar, find_of_unique hU ha] at hf
    cases hf
    exact ⟨k, by omega, hr⟩
  | step hprev hd hne hpar ih =>
    intro n hn
    obtain ⟨k, p, hk, hf, hr⟩ := hn.inv hne
    rw [hpar, find_of_unique hU hprev.mem] at hf
    cases hf
    obtain ⟨j, hj, hrj⟩ := ih _ hr
    exact ⟨j, by omega, hrj⟩

theorem Forest.not_own_ancestor {menus : List Menu} (hF : Forest menus) (hU : UniqueIDs menus) :
    ∀ m ∈ menus, ¬ Descendant menus m m := by
  intro m hm hd
  obtain ⟨n, hn⟩ := (forest_iff menus).1 hF m hm
  obtain ⟨k, hk, hrk⟩ := hd.rooted_lt hU hm n hn
  have := hn.functional hrk
  omega

/-- C5: starting from a menu store in which following `parent_id` links from any menu
reaches an empty `parent_id` within as many steps as there are menus, the same holds after
every sequence of `CreateMenu`, `UpdateMenu`, `DeleteMenu` and `BatchUpdateMenuStatus` calls
executed one after the other (a generated id that is already stored is refused by the unique
index); in particular no menu is left pointing at a parent that does not exist, and, the menu
ids being unique, no menu is its own ancestor. -/
theorem forest_invariant (dbs : Sorter) (fuel : Nat) (menus menus' : List Menu)
    (ops : List MenuOp) (hF : Forest menus) (hrun : runOps dbs fuel menus ops = some menus') :
    Forest menus' ∧ ParentsPresent menus' ∧
      (UniqueIDs menus → UniqueIDs menus' ∧ ∀ m ∈ menus', ¬ Descendant menus' m m) := by
  have hF' := forest_runOps dbs fuel ops menus menus' hF hrun
  refine ⟨hF', hF'.parentsPresent, ?_⟩
  intro hU
  have hU' := unique_runOps dbs fuel ops menus menus' hU hrun
  exact ⟨hU', hF'.not_own_ancestor hU'⟩

/-- Witness of `forest_invariant`: the calls of `sampleOps` on `sampleMenus`. -/
theorem forest_invariant_witness :
    Forest sampleMenus ∧
      ∃ menus', runOps insertionSorter 4 sampleMenus sampleOps = some menus' ∧
        menus'.map (fun m => (m.MenuID, m.ParentID, m.Status)) =
          [("sys", "", "disable"), ("users", "sys", "disable"), ("roles", "users", "enable"),
            ("MENU17000000000A1B2C3D", "users", "enable")] ∧
        Forest menus' ∧ ParentsPresent menus' ∧
        (UniqueIDs sampleMenus → UniqueIDs menus' ∧ ∀ m ∈ menus', ¬ Descendant menus' m m) :=
  ⟨by decide, _, rfl, rfl,
    forest_invariant insertionSorter 4 sampleMenus _ sampleOps (by decide) rfl⟩


/-! ## Ties between siblings -/

/-- C8, failing input: in `tieMenus` the pages `early` (created at 10) and `late` (created
at 20) are siblings with the same sort order, and the store returns `late` first.
`GetMenusByIDs` asks for no sort and `buildUserMenuTree` compares sort orders only, so
`GetUserMenusByRoles` lists `late` before `early`. -/
theorem GetUserMenusByRoles_tie_order :
    menuService.GetUserMenusByRoles insertionSorter 2 tieMenus tieRoles ["R1"] =
        some (.ok [UserMenuResponse.mk "late" "late" "" "" "" 1 [],
          UserMenuResponse.mk "early" "early" "" "" "" 1 []]) ∧
      tieMenus.map (fun m => (m.MenuID, m.SortOrder, m.CreatedAt)) =
        [("late", 1, 20), ("early", 1, 10)] :=
  ⟨rfl, rfl⟩


/-! ## Effective permissions of a user -/

theorem GetUserPermissions_mem (userRoles : List UserRole)
    (rolePermissions : List RolePermission) (userID menuID : String) :
    menuID ∈ rbacRepository.GetUserPermissions userRoles rolePermissions userID ↔
      ∃ ur ∈ userRoles, ur.UserID = userID ∧
        ∃ rp ∈ rolePermissions, rp.RoleID = ur.RoleID ∧ rp.MenuID = menuID := by
  simp only [rbacRepository.GetUserPermissions, List.mem_dedup, List.mem_map, List.mem_flatMap,
    List.mem_filter, decide_eq_true_eq]
  constructor
  · rintro ⟨row, ⟨ur, ⟨hur, hu⟩, rp, ⟨hrp, hr⟩, rfl⟩, rfl⟩
    exact ⟨ur, hur, hu, rp, hrp, hr, rfl⟩
  · rintro ⟨ur, hur, hu, rp, hrp, hr, rfl⟩
    exact ⟨(ur, rp), ⟨ur, ⟨hur, hu⟩, rp, ⟨hrp, hr⟩, rfl⟩, rfl⟩

/-- C11: for every state of the `user_role` and `role_permission` relations and every user
`u`, `GetUserPermissions(u)` holds each menu id at most once, and a menu id is in it exactly
when some role `r` with a `user_role` row `(u, r)` has a `role_permission` row `(r, m)`;
adding a further grant of a menu the user already has through one of the user's roles, or a
repeated `user_role` row, leaves the set of returned menu ids unchanged. -/
theorem GetUserPermissions_union (userRoles : List UserRole)
    (rolePermissions : List RolePermission) (userID : String) :
    (rbacRepository.GetUserPermissions userRoles rolePermissions userID).Nodup ∧
    (∀ m, m ∈ rbacRepository.GetUserPermissions userRoles rolePermissions userID ↔
      ∃ ur ∈ userRoles, ur.UserID = userID ∧
        ∃ rp ∈ rolePermissions, rp.RoleID = ur.RoleID ∧ rp.MenuID = m) ∧
    (∀ extra : RolePermission,
      extra.MenuID ∈ rbacRepository.GetUserPermissions userRoles rolePermissions userID →
      ∀ m, m ∈ rbacRepository.GetUserPermissions userRoles (rolePermissions ++ [extra]) userID ↔
        m ∈ rbacRepository.GetUserPermissions userRoles rolePermissions userID) ∧
    (∀ again ∈ userRoles,
      ∀ m, m ∈ rbacRepository.GetUserPermissions (userRoles ++ [again]) rolePermissions userID ↔
        m ∈ rbacRepository.GetUserPermissions userRoles rolePermissions userID) := by
  refine ⟨?_, GetUserPermissions_mem _ _ _, ?_, ?_⟩
  · exact List.nodup_dedup _
  · intro extra hextra m
    constructor
    · intro hm
      obtain ⟨ur, hur, hu, rp, hrp, hr, hmid⟩ := (GetUserPermissions_mem _ _ _ _).1 hm
      rcases List.mem_append.1 hrp with hrp | hrp
      · exact (GetUserPermissions_mem _ _ _ _).2 ⟨ur, hur, hu, rp, hrp, hr, hmid⟩
      · have : rp = extra := by simpa using hrp
        subst this
        rw [← hmid]; exact hextra
    · intro hm
      obtain ⟨ur, hur, hu, rp, hrp, hr, hmid⟩ := (GetUserPermissions_mem _ _ _ _).1 hm
      exact (GetUserPermissions_mem _ _ _ _).2
        ⟨ur, hur, hu, rp, List.mem_append_left _ hrp, hr, hmid⟩
  · intro again hagain m
    constructor
    · intro hm
      obtain ⟨ur, hur, hu, rest⟩ := (GetUserPermissions_mem _ _ _ _).1 hm
      rcases List.mem_append.1 hur with hur | hur
      · exact (GetUserPermissions_mem _ _ _ _).2 ⟨ur, hur, hu, rest⟩
      · have : ur = again := by simpa using hur
        subst this
        exact (GetUserPermissions_mem _ _ _ _).2 ⟨ur, hagain, hu, rest⟩
    · intro hm
      obtain ⟨ur, hur, hu, rest⟩ := (GetUserPermissions_mem _ _ _ _).1 hm
      exact (GetUserPermissions_mem _ _ _ _).2 ⟨ur, List.mem_append_left _ hur, hu, rest⟩

/-- Witness of `GetUserPermissions_union`: user `U1` holds `R1` (granting `M1`, `M3`) and `R2`
(granting `M1`); the menu `M1`, granted twice, is returned once. -/
theorem GetUserPermissions_union_witness :
    rbacRepository.GetUserPermissions sampleUserRoles sampleRolePermissions "U1" =
        ["M3", "M1"] ∧
      (rbacRepository.GetUserPermissions sampleUserRoles sampleRolePermissions "U1").Nodup :=
  ⟨by decide, (GetUserPermissions_union sampleUserRoles sampleRolePermissions "U1").1⟩

/-- C14: for any two states that differ only in the status field of their roles (the same
`user_roles` and `role_permissions` rows, the roles pairwise equal up to `Status`),
`GetUserPermissions` returns the same list for every user, as it reads no role document; and
the menu ids granted by a role held by the user whose status is `disable` are in it. -/
theorem GetUserPermissions_ignores_role_status (st₁ st₂ : RoleState)
    (hur : st₁.userRoles = st₂.userRoles) (hrp : st₁.rolePermissions = st₂.rolePermissions)
    (_hroles : List.Forall₂ (fun a b : Role => { a with Status := b.Status } = b)
      st₁.roles st₂.roles) (userID : String) :
    rbacRepository.GetUserPermissions st₁.userRoles st₁.rolePermissions userID =
        rbacRepository.GetUserPermissions st₂.userRoles st₂.rolePermissions userID ∧
      ∀ r ∈ st₂.roles, r.Status = "disable" →
        (∃ ur ∈ st₂.userRoles, ur.UserID = userID ∧ ur.RoleID = r.RoleID) →
        ∀ rp ∈ st₂.rolePermissions, rp.RoleID = r.RoleID →
          rp.MenuID ∈ rbacRepository.GetUserPermissions st₂.userRoles st₂.rolePermissions
            userID := by
  refine ⟨by rw [hur, hrp], ?_⟩
  intro r _ _ hheld rp hrpm hrid
  obtain ⟨ur, hurm, hu, hurid⟩ := hheld
  exact (GetUserPermissions_mem _ _ _ _).2 ⟨ur, hurm, hu, rp, hrpm, hrid.trans hurid.symm, rfl⟩

/-- Witness of `GetUserPermissions_ignores_role_status`: disabling the role `R1` of user `U1`
changes nothing, and the menus `M1`, `M3` granted by the disabled role are returned. -/
theorem GetUserPermissions_ignores_role_status_witness :
    rbacRepository.GetUserPermissions sampleState.userRoles sampleState.rolePermissions "U1" =
        rbacRepository.GetUserPermissions sampleStateDisabled.userRoles
          sampleStateDisabled.rolePermissions "U1" ∧
      "M3" ∈ rbacRepository.GetUserPermissions sampleStateDisabled.userRoles
        sampleStateDisabled.rolePermissions "U1" :=
  ⟨(GetUserPermissions_ignores_role_status sampleState sampleStateDisabled rfl rfl
      (List.Forall₂.cons rfl (List.Forall₂.cons rfl List.Forall₂.nil)) "U1").1,
    (GetUserPermissions_ignores_role_status sampleState sampleStateDisabled rfl rfl
      (List.Forall₂.cons rfl (List.Forall₂.cons rfl List.Forall₂.nil)) "U1").2
      (sampleRole "R1" "disable" ["M1", "M3"]) (by decide) rfl
      ⟨⟨"U1", "R1", 0, 0⟩, by decide, rfl, rfl⟩ ⟨"R1", "M3", "menu", 0, 0⟩ (by decide) rfl⟩

/-! ## Menu ids of a list of roles -/

theorem GetMenuIDsByRoleIDs_mem (roles : List Role) (roleIDs : List String) (m : String) :
    m ∈ menuRepository.GetMenuIDsByRoleIDs roles roleIDs ↔
      m ≠ "" ∧ ∃ r ∈ roles, r.RoleID ∈ roleIDs ∧ r.Status = "enable" ∧ m ∈ r.MenuIDs := by
  unfold menuRepository.GetMenuIDsByRoleIDs
  split
  · rename_i hlen
    have hnil : roleIDs = [] := List.length_eq_zero.1 hlen
    subst hnil
    simp
  · simp only [List.mem_dedup, List.mem_flatMap, List.mem_filter, Bool.and_eq_true,
      decide_eq_true_eq]
    constructor
    · rintro ⟨r, ⟨hr, hid, hst⟩, hm, hne⟩
      exact ⟨hne, r, hr, hid, hst, hm⟩
    · rintro ⟨hne, r, hr, hid, hst, hm⟩
      exact ⟨r, ⟨hr, hid, hst⟩, hm, hne⟩

/-- C13, counterexample: the enabled role `R1` carries the `menu_ids` `["", "M1"]`;
`GetMenuIDsByRoleIDs(["R1"])` skips the empty string and returns `["M1"]`, which is not the
union of the `menu_ids` of the listed enabled roles. -/
theorem GetMenuIDsByRoleIDs_skips_blank :
    menuRepository.GetMenuIDsByRoleIDs blankGrantRoles ["R1"] = ["M1"] ∧
      ¬ (∀ m, m ∈ menuRepository.GetMenuIDsByRoleIDs blankGrantRoles ["R1"] ↔
        ∃ r ∈ blankGrantRoles, r.RoleID ∈ ["R1"] ∧ r.Status = "enable" ∧ m ∈ r.MenuIDs) := by
  refine ⟨by decide, ?_⟩
  intro h
  have h1 : "" ∈ menuRepository.GetMenuIDsByRoleIDs blankGrantRoles ["R1"] :=
    (h "").2 ⟨sampleRole "R1" "enable" ["", "M1"], by decide, by decide, rfl, by decide⟩
  exact absurd h1 (by decide)

/-- C13 (amended): for every list of role ids, `GetMenuIDsByRoleIDs` returns each id once,
and exactly the non-empty menu ids held in the `menu_ids` of the listed roles whose status is
`enable`; so a menu that, among the listed roles, is granted only by roles whose status is
not `enable` has no node in the tree returned by `GetUserMenusByRoles`. -/
theorem GetMenuIDsByRoleIDs_enabled_only (roles : List Role) (roleIDs : List String) :
    (menuRepository.GetMenuIDsByRoleIDs roles roleIDs).Nodup ∧
    (∀ m, m ∈ menuRepository.GetMenuIDsByRoleIDs roles roleIDs ↔
      m ≠ "" ∧ ∃ r ∈ roles, r.RoleID ∈ roleIDs ∧ r.Status = "enable" ∧ m ∈ r.MenuIDs) ∧
    (∀ (srt : Sorter) (fuel : Nat) (menus : List Menu) (tree : List UserMenuResponse)
      (m : String),
      menuService.GetUserMenusByRoles srt fuel menus roles roleIDs = some (.ok tree) →
      (∀ r ∈ roles, r.RoleID ∈ roleIDs → m ∈ r.MenuIDs → r.Status ≠ "enable") →
      m ∉ (UserMenuResponse.nodesList tree).map UserMenuResponse.MenuID) := by
  refine ⟨?_, GetMenuIDsByRoleIDs_mem roles roleIDs, ?_⟩
  · unfold menuRepository.GetMenuIDsByRoleIDs
    split
    · exact List.nodup_nil
    · exact List.nodup_dedup _
  · intro srt fuel menus tree m htree honly hmem
    obtain ⟨n, hn, rfl⟩ := List.mem_map.1 hmem
    obtain ⟨⟨x, _, hgranted, ⟨ch, hproj⟩, _⟩, _⟩ :=
      userTree_nodes_visible srt fuel menus _ tree (GetUserMenusByRoles_ok htree) n hn
    have hid : n.MenuID = x.MenuID := by rw [hproj]; rfl
    rw [← hid] at hgranted
    obtain ⟨_, r, hr, hrid, hst, hm⟩ := (GetMenuIDsByRoleIDs_mem roles roleIDs _).1 hgranted
    exact honly r hr hrid hm hst

/-- Witness of `GetMenuIDsByRoleIDs_enabled_only`: on `sampleMenus` with the enabled role `R1`
granting `sys` and `users` and the disabled role `R2` granting `roles` and `users`, the ids
resolved are `sys` and `users`, the call returns the tree of `sys` with the child `users`,
and `roles`, granted by the disabled role only, has no node in it. -/
theorem GetMenuIDsByRoleIDs_enabled_only_witness :
    menuRepository.GetMenuIDsByRoleIDs mixedRoles ["R1", "R2"] = ["sys", "users"] ∧
      (menuRepository.GetMenuIDsByRoleIDs mixedRoles ["R1", "R2"]).Nodup ∧
      menuService.GetUserMenusByRoles insertionSorter 3 sampleMenus mixedRoles ["R1", "R2"] =
        some (.ok [UserMenuResponse.mk "sys" "sys" "" "" "" 1
          [UserMenuResponse.mk "users" "users" "" "" "" 2 []]]) ∧
      "roles" ∉ (UserMenuResponse.nodesList [UserMenuResponse.mk "sys" "sys" "" "" "" 1
          [UserMenuResponse.mk "users" "users" "" "" "" 2 []]]).map UserMenuResponse.MenuID :=
  ⟨by decide, (GetMenuIDsByRoleIDs_enabled_only mixedRoles ["R1", "R2"]).1, rfl,
    (GetMenuIDsByRoleIDs_enabled_only mixedRoles ["R1", "R2"]).2.2 insertionSorter 3
      sampleMenus _ "roles" rfl (by decide)⟩

/-- When every listed role is disabled no menu id is resolved, and `GetUserMenusByRoles`
returns the error of the store for the nil slice, not a tree. -/
theorem GetUserMenusByRoles_disabled_roles :
    menuRepository.GetMenuIDsByRoleIDs [sampleRole "R1" "disable" ["home", "audit"]] ["R1"] =
        [] ∧
      menuService.GetUserMenusByRoles insertionSorter 2 navMenus
          [sampleRole "R1" "disable" ["home", "audit"]] ["R1"] =
        some (.error "获取菜单详细信息失败: 查询菜单列表失败: (BadValue) $in needs an array") :=
  ⟨by decide, rfl⟩

/-! ## Permission checks -/

theorem CheckUserPermission_iff (userRoles : List UserRole)
    (rolePermissions : List RolePermission) (menus : List Menu)
    (userID permissionCode : String) :
    rbacRepository.CheckUserPermission userRoles rolePermissions menus userID permissionCode =
        true ↔
      ∃ ur ∈ userRoles, ur.UserID = userID ∧
        ∃ rp ∈ rolePermissions, rp.RoleID = ur.RoleID ∧
          ∃ m ∈ menus, m.MenuID = rp.MenuID ∧ m.PermissionCode = permissionCode := by
  unfold rbacRepository.CheckUserPermission
  simp only [decide_eq_true_eq, List.length_take, Nat.lt_min, Nat.lt_one_iff, pos_of_gt,
    Nat.zero_lt_one, true_and, List.length_pos_iff_exists_mem, List.mem_filter,
    List.mem_flatMap, List.mem_map]
  constructor
  · rintro ⟨row, ⟨pair, ⟨ur, ⟨hur, hu⟩, rp, ⟨hrp, hr⟩, rfl⟩, m, ⟨hm, hmid⟩, rfl⟩, hcode⟩
    exact ⟨ur, hur, hu, rp, hrp, hr, m, hm, hmid, hcode⟩
  · rintro ⟨ur, hur, hu, rp, hrp, hr, m, hm, hmid, hcode⟩
    exact ⟨((ur, rp), m), ⟨(ur, rp), ⟨ur, ⟨hur, hu⟩, rp, ⟨hrp, hr⟩, rfl⟩, m, ⟨hm, hmid⟩, rfl⟩,
      hcode⟩

/-- C15, counterexample: user `U1` holds role `R1`, which grants the menu `M1`; `M1` is
disabled and carries the permission code `user:add`. No enabled menu carries that code, yet
`CheckUserPermission("U1", "user:add")` returns true. -/
theorem CheckUserPermission_disabled_menu :
    rbacRepository.CheckUserPermission sampleUserRoles sampleRolePermissions disabledCodeMenus
        "U1" "user:add" = true ∧
      ¬ ∃ m ∈ disabledCodeMenus, m.Status = "enable" ∧ m.PermissionCode = "user:add" := by
  refine ⟨by decide, by decide⟩

/-- C15 (amended): for every state, user `u` and permission code `c`,
`CheckUserPermission(u, c)` returns true exactly when some menu granted to `u` (through a
`user_role` row and a `role_permission` row) carries `permission_code = c`, whatever the
status of that menu; a granted menu that is disabled and carries `c` makes it return true. -/
theorem CheckUserPermission_granted_code (userRoles : List UserRole)
    (rolePermissions : List RolePermission) (menus : List Menu)
    (userID permissionCode : String) :
    (rbacRepository.CheckUserPermission userRoles rolePermissions menus userID permissionCode =
        true ↔
      ∃ ur ∈ userRoles, ur.UserID = userID ∧
        ∃ rp ∈ rolePermissions, rp.RoleID = ur.RoleID ∧
          ∃ m ∈ menus, m.MenuID = rp.MenuID ∧ m.PermissionCode = permissionCode) ∧
    (∀ ur ∈ userRoles, ur.UserID = userID → ∀ rp ∈ rolePermissions, rp.RoleID = ur.RoleID →
      ∀ m ∈ menus, m.MenuID = rp.MenuID → m.PermissionCode = permissionCode →
      m.Status = "disable" →
      rbacRepository.CheckUserPermission userRoles rolePermissions menus userID
        permissionCode = true) := by
  refine ⟨CheckUserPermission_iff _ _ _ _ _, ?_⟩
  intro ur hur hu rp hrp hr m hm hmid hcode _
  exact (CheckUserPermission_iff _ _ _ _ _).2 ⟨ur, hur, hu, rp, hrp, hr, m, hm, hmid, hcode⟩

/-- Witness of `CheckUserPermission_granted_code` on the disabled menu of
`disabledCodeMenus`. -/
theorem CheckUserPermission_granted_code_witness :
    rbacRepository.CheckUserPermission sampleUserRoles sampleRolePermissions disabledCodeMenus
        "U1" "user:add" = true ∧
      rbacRepository.CheckUserPermission sampleUserRoles sampleRolePermissions
        disabledCodeMenus "U1" "user:edit" = false :=
  ⟨(CheckUserPermission_granted_code sampleUserRoles sampleRolePermissions disabledCodeMenus
      "U1" "user:add").2 ⟨"U1", "R1", 0, 0⟩ (by decide) rfl ⟨"R1", "M1", "menu", 0, 0⟩
      (by decide) rfl _ (List.mem_singleton.2 rfl) rfl rfl rfl,
    by decide⟩


/-! ## The role store -/

theorem CheckRoleKeyExists_iff (roles : List Role) (roleKey excludeRoleID : String) :
    roleRepository.CheckRoleKeyExists roles roleKey excludeRoleID = true ↔
      ∃ r ∈ roles, r.RoleKey = roleKey ∧ (excludeRoleID = "" ∨ r.RoleID ≠ excludeRoleID) := by
  simp [roleRepository.CheckRoleKeyExists, List.countP_pos_iff]

theorem CheckRoleNameExists_iff (roles : List Role) (roleName companyID excludeRoleID : String) :
    roleRepository.CheckRoleNameExists roles roleName companyID excludeRoleID = true ↔
      ∃ r ∈ roles, (r.RoleName = roleName ∧ r.CompanyID = companyID) ∧
        (excludeRoleID = "" ∨ r.RoleID ≠ excludeRoleID) := by
  simp [roleRepository.CheckRoleNameExists, List.countP_pos_iff]

theorem GetRolePermissions_mem (rolePermissions : List RolePermission) (roleID m : String) :
    m ∈ rbacRepository.GetRolePermissions rolePermissions roleID ↔
      ∃ rp ∈ rolePermissions, rp.RoleID = roleID ∧ rp.MenuID = m := by
  simp [rbacRepository.GetRolePermissions, and_assoc]

theorem DeleteRole_rows (rolePermissions : List RolePermission) (roleID : String) :
    (if 0 < (rbacRepository.GetRolePermissions rolePermissions roleID).length then
        rbacRepository.RemovePermissionsFromRole rolePermissions roleID
          (rbacRepository.GetRolePermissions rolePermissions roleID)
      else rolePermissions) =
      rolePermissions.filter (fun rp => decide (rp.RoleID ≠ roleID)) := by
  split
  · unfold rbacRepository.RemovePermissionsFromRole
    apply List.filter_congr
    intro rp hrp
    by_cases h : rp.RoleID = roleID
    · have hm : rp.MenuID ∈ rbacRepository.GetRolePermissions rolePermissions roleID :=
        (GetRolePermissions_mem _ _ _).2 ⟨rp, hrp, h, rfl⟩
      simp [h, hm]
    · simp [h]
  · rename_i hlen
    symm
    apply List.filter_eq_self.2
    intro rp hrp
    have hnil : rbacRepository.GetRolePermissions rolePermissions roleID = [] :=
      List.length_eq_zero.1 (by omega)
    have hnot : rp.MenuID ∉ rbacRepository.GetRolePermissions rolePermissions roleID := by
      rw [hnil]; exact List.not_mem_nil _
    have hne : rp.RoleID ≠ roleID := fun h =>
      hnot ((GetRolePermissions_mem _ _ _).2 ⟨rp, hrp, h, rfl⟩)
    simpa using hne

theorem GetRoleByID_of_mem (roles : List Role) (roleID : String)
    (hex : ∃ r ∈ roles, r.RoleID = roleID) :
    ∃ role, roles.find? (fun r => decide (r.RoleID = roleID)) = some role ∧ role ∈ roles ∧
      role.RoleID = roleID := by
  obtain ⟨r, hr, hid⟩ := hex
  cases hf : roles.find? (fun r => decide (r.RoleID = roleID)) with
  | none =>
    have := List.find?_eq_none.1 hf r hr
    simp [hid] at this
  | some role =>
    exact ⟨role, rfl, List.mem_of_find?_eq_some hf, by simpa using List.find?_some hf⟩

theorem DeleteRole_eq (st : RoleState) (roleID : String)
    (hex : ∃ r ∈ st.roles, r.RoleID = roleID) :
    roleService.DeleteRole st roleID =
      ({ roles := st.roles.eraseP (fun r => decide (r.RoleID = roleID)),
         rolePermissions := st.rolePermissions.filter (fun rp => decide (rp.RoleID ≠ roleID)),
         userRoles := st.userRoles }, .ok ()) := by
  obtain ⟨role, hfind, _, _⟩ := GetRoleByID_of_mem st.roles roleID hex
  have hany : st.roles.any (fun r => decide (r.RoleID = roleID)) = true := by
    obtain ⟨r, hr, hid⟩ := hex
    exact List.any_eq_true.2 ⟨r, hr, by simpa using hid⟩
  simp only [roleService.DeleteRole, roleRepository.GetRoleByID, hfind,
    roleRepository.DeleteRole, hany, if_true, DeleteRole_rows]

theorem DeleteRole_missing (st : RoleState) (roleID : String)
    (hno : ∀ r ∈ st.roles, r.RoleID ≠ roleID) :
    roleService.DeleteRole st roleID = (st, .error ("角色不存在: " ++ "角色不存在")) := by
  have hfind : st.roles.find? (fun r => decide (r.RoleID = roleID)) = none :=
    List.find?_eq_none.2 (fun r hr => by simpa using hno r hr)
  simp only [roleService.DeleteRole, roleRepository.GetRoleByID, hfind]

theorem role_eraseP_eq_filter {roles : List Role} (hU : UniqueRoleIDs roles) (roleID : String) :
    roles.eraseP (fun r => decide (r.RoleID = roleID)) =
      roles.filter (fun r => decide (r.RoleID ≠ roleID)) := by
  induction roles with
  | nil => rfl
  | cons x xs ih =>
    have hU' : UniqueRoleIDs xs := (List.nodup_cons.1 hU).2
    have hx : x.RoleID ∉ xs.map (fun r => r.RoleID) := (List.nodup_cons.1 hU).1
    by_cases h : x.RoleID = roleID
    · rw [List.eraseP_cons_of_pos (by simpa using h), List.filter_cons_of_neg (by simpa using h)]
      symm
      apply List.filter_eq_self.2
      intro r hr
      have : r.RoleID ≠ roleID := fun hrid =>
        hx (List.mem_map.2 ⟨r, hr, by rw [hrid, h]⟩)
      simpa using this
    · rw [List.eraseP_cons_of_neg (by simpa using h), List.filter_cons_of_pos (by simpa using h),
        ih hU']

/-- C20: for every state and every id `r` of a stored role, `DeleteRole(r)` succeeds whatever
`user_role` rows reference `r`; it removes the role record (with unique role ids no role
with id `r` is left) and every `role_permission` row of `r`, so `GetRolePermissions(r)` is
empty afterwards; the `user_role` rows, the other roles and the `role_permission` rows of
the other roles are left as they were. -/
theorem DeleteRole_frame (st : RoleState) (roleID : String)
    (hex : ∃ r ∈ st.roles, r.RoleID = roleID) :
    (roleService.DeleteRole st roleID).2 = .ok () ∧
    (roleService.DeleteRole st roleID).1.roles =
      st.roles.eraseP (fun r => decide (r.RoleID = roleID)) ∧
    (UniqueRoleIDs st.roles →
      (roleService.DeleteRole st roleID).1.roles =
          st.roles.filter (fun r => decide (r.RoleID ≠ roleID)) ∧
        ∀ r ∈ (roleService.DeleteRole st roleID).1.roles, r.RoleID ≠ roleID) ∧
    rbacRepository.GetRolePermissions (roleService.DeleteRole st roleID).1.rolePermissions
      roleID = [] ∧
    (roleService.DeleteRole st roleID).1.userRoles = st.userRoles ∧
    (∀ r ∈ st.roles, r.RoleID ≠ roleID → r ∈ (roleService.DeleteRole st roleID).1.roles) ∧
    (roleService.DeleteRole st roleID).1.rolePermissions =
      st.rolePermissions.filter (fun rp => decide (rp.RoleID ≠ roleID)) ∧
    (∀ other, other ≠ roleID →
      rbacRepository.GetRolePermissions (roleService.DeleteRole st roleID).1.rolePermissions
        other = rbacRepository.GetRolePermissions st.rolePermissions other) := by
  rw [DeleteRole_eq st roleID hex]
  refine ⟨rfl, rfl, ?_, ?_, rfl, ?_, rfl, ?_⟩
  · intro hU
    refine ⟨role_eraseP_eq_filter hU roleID, ?_⟩
    intro r hr
    have hr' : r ∈ st.roles.filter (fun r => decide (r.RoleID ≠ roleID)) := by
      rw [← role_eraseP_eq_filter hU roleID]; exact hr
    simpa using (List.mem_filter.1 hr').2
  · simp only [rbacRepository.GetRolePermissions, List.filter_filter]
    rw [List.map_eq_nil_iff]
    apply List.filter_eq_nil_iff.2
    intro rp _
    by_cases h : rp.RoleID = roleID <;> simp [h]
  · intro r hr hne
    exact (List.mem_eraseP_of_neg (by simpa using hne)).2 hr
  · intro other hother
    simp only [rbacRepository.GetRolePermissions, List.filter_filter]
    congr 1
    apply List.filter_congr
    intro rp _
    by_cases h : rp.RoleID = other
    · simp [h, hother]
    · simp [h]

/-- Witness of `DeleteRole_frame`: role `R1` of `sampleState` is deleted while the users `U1`
and `U2` still hold it. -/
theorem DeleteRole_frame_witness :
    roleService.DeleteRole sampleState "R1" =
        ({ roles := [sampleRole "R2" "enable" ["M1"]],
           rolePermissions := [⟨"R2", "M1", "menu", 0, 0⟩],
           userRoles := sampleUserRoles }, .ok ()) ∧
      (roleService.DeleteRole sampleState "R1").1.userRoles = sampleState.userRoles :=
  ⟨rfl,
    (DeleteRole_frame sampleState "R1"
      ⟨sampleRole "R1" "enable" ["M1", "M3"], by decide, rfl⟩).2.2.2.2.1⟩


/-! ## Creating a menu -/

theorem CheckMenuNameExists_iff (menus : List Menu) (menuName parentID excludeMenuID : String) :
    menuRepository.CheckMenuNameExists menus menuName parentID excludeMenuID = true ↔
      ∃ m ∈ menus, (m.MenuName = menuName ∧ m.ParentID = parentID) ∧
        (excludeMenuID = "" ∨ m.MenuID ≠ excludeMenuID) := by
  simp [menuRepository.CheckMenuNameExists, List.countP_pos_iff]

theorem CheckPermissionCodeExists_iff (menus : List Menu)
    (permissionCode excludeMenuID : String) :
    menuRepository.CheckPermissionCodeExists menus permissionCode excludeMenuID = true ↔
      ∃ m ∈ menus, m.PermissionCode = permissionCode ∧
        (excludeMenuID = "" ∨ m.MenuID ≠ excludeMenuID) := by
  simp [menuRepository.CheckPermissionCodeExists, List.countP_pos_iff]

theorem GetMenuByID_toBool_false (menus : List Menu) (menuID : String) :
    (menuRepository.GetMenuByID menus menuID).toBool = false ↔
      ∀ m ∈ menus, m.MenuID ≠ menuID := by
  unfold menuRepository.GetMenuByID
  cases hf : menus.find? (fun m => decide (m.MenuID = menuID)) with
  | none =>
    simp only [Except.toBool, true_iff]
    intro m hm
    simpa using List.find?_eq_none.1 hf m hm
  | some p =>
    simp only [Except.toBool, Bool.true_eq_false, false_iff]
    intro h
    exact h p (List.mem_of_find?_eq_some hf) (by simpa using List.find?_some hf)

theorem CreateMenu_inserts (menus : List Menu) (req : MenuCreateRequest) (env : Env)
    (hfresh : ∀ m ∈ menus, m.MenuID ≠ GenerateID "MENU" env.timestamp env.randomHex)
    (h1 : ¬ (req.ParentID ≠ "" ∧ (menuRepository.GetMenuByID menus req.ParentID).toBool = false))
    (h2 : ¬ menuRepository.CheckMenuNameExists menus req.MenuName req.ParentID "" = true)
    (h3 : ¬ (req.PermissionCode ≠ "" ∧
      menuRepository.CheckPermissionCodeExists menus req.PermissionCode "" = true)) :
    menuService.CreateMenu menus req env =
      (menus ++ [{ ID := env.objectID,
                   MenuID := GenerateID "MENU" env.timestamp env.randomHex,
                   ParentID := req.ParentID, MenuName := req.MenuName,
                   MenuType := req.MenuType, RoutePath := req.RoutePath,
                   Component := req.Component, PermissionCode := req.PermissionCode,
                   Icon := req.Icon, SortOrder := req.SortOrder, Visible := req.Visible,
                   Status := if req.Status = "" then "enable" else req.Status,
                   CreatedAt := env.now, UpdatedAt := env.now }],
        .ok (convertToMenuInfo
          { ID := "", MenuID := GenerateID "MENU" env.timestamp env.randomHex,
            ParentID := req.ParentID, MenuName := req.MenuName, MenuType := req.MenuType,
            RoutePath := req.RoutePath, Component := req.Component,
            PermissionCode := req.PermissionCode, Icon := req.Icon,
            SortOrder := req.SortOrder, Visible := req.Visible,
            Status := if req.Status = "" then "enable" else req.Status,
            CreatedAt := env.now, UpdatedAt := env.now })) := by
  have hany : menus.any (fun m =>
      decide (m.MenuID = GenerateID "MENU" env.timestamp env.randomHex)) = false := by
    rw [List.any_eq_false]
    intro m hm
    simpa using hfresh m hm
  unfold menuService.CreateMenu
  rw [if_neg h1, if_neg h2, if_neg h3]
  by_cases hs : req.Status = ""
  · simp [hs, menuRepository.CreateMenu, hany]
  · simp [hs, menuRepository.CreateMenu, hany]

/-- C18: assuming storage does not fail (the generated menu id is not stored yet, so the
insert is not rejected by the unique index), `CreateMenu(req)` returns an error exactly when
`req.parent_id` is non-empty and no menu has that id, or some menu with the same `parent_id`
has `req.menu_name`, or `req.permission_code` is non-empty and some menu carries it, and then
the store is unchanged; otherwise it appends exactly one menu, with the generated id, the
requested fields and the requested status, `enable` when `req.status` is empty. -/
theorem CreateMenu_error_iff (menus : List Menu) (req : MenuCreateRequest) (env : Env)
    (hfresh : ∀ m ∈ menus, m.MenuID ≠ GenerateID "MENU" env.timestamp env.randomHex) :
    ((∃ err, (menuService.CreateMenu menus req env).2 = .error err) ↔
      (req.ParentID ≠ "" ∧ ∀ m ∈ menus, m.MenuID ≠ req.ParentID) ∨
      (∃ m ∈ menus, m.ParentID = req.ParentID ∧ m.MenuName = req.MenuName) ∨
      (req.PermissionCode ≠ "" ∧ ∃ m ∈ menus, m.PermissionCode = req.PermissionCode)) ∧
    ((∃ err, (menuService.CreateMenu menus req env).2 = .error err) →
      (menuService.CreateMenu menus req env).1 = menus) ∧
    ((¬ ∃ err, (menuService.CreateMenu menus req env).2 = .error err) →
      menuService.CreateMenu menus req env =
        (menus ++ [{ ID := env.objectID,
                     MenuID := GenerateID "MENU" env.timestamp env.randomHex,
                     ParentID := req.ParentID, MenuName := req.MenuName,
                     MenuType := req.MenuType, RoutePath := req.RoutePath,
                     Component := req.Component, PermissionCode := req.PermissionCode,
                     Icon := req.Icon, SortOrder := req.SortOrder, Visible := req.Visible,
                     Status := if req.Status = "" then "enable" else req.Status,
                     CreatedAt := env.now, UpdatedAt := env.now }],
          .ok (convertToMenuInfo
            { ID := "", MenuID := GenerateID "MENU" env.timestamp env.randomHex,
              ParentID := req.ParentID, MenuName := req.MenuName, MenuType := req.MenuType,
              RoutePath := req.RoutePath, Component := req.Component,
              PermissionCode := req.PermissionCode, Icon := req.Icon,
              SortOrder := req.SortOrder, Visible := req.Visible,
              Status := if req.Status = "" then "enable" else req.Status,
              CreatedAt := env.now, UpdatedAt := env.now }))) := by
  by_cases h1 : req.ParentID ≠ "" ∧
      (menuRepository.GetMenuByID menus req.ParentID).toBool = false
  · have hres : menuService.CreateMenu menus req env = (menus, .error "父菜单不存在") := by
      unfold menuService.CreateMenu; rw [if_pos h1]
    have herr : ∃ err, (menuService.CreateMenu menus req env).2 = .error err :=
      ⟨_, by rw [hres]⟩
    refine ⟨⟨fun _ => Or.inl ⟨h1.1, (GetMenuByID_toBool_false _ _).1 h1.2⟩, fun _ => herr⟩,
      fun _ => by rw [hres], fun hno => absurd herr hno⟩
  by_cases h2 : menuRepository.CheckMenuNameExists menus req.MenuName req.ParentID "" = true
  · have hres : menuService.CreateMenu menus req env =
        (menus, .error "同一层级下菜单名称已存在") := by
      unfold menuService.CreateMenu; rw [if_neg h1, if_pos h2]
    have herr : ∃ err, (menuService.CreateMenu menus req env).2 = .error err :=
      ⟨_, by rw [hres]⟩
    obtain ⟨m, hm, ⟨hn, hp⟩, _⟩ := (CheckMenuNameExists_iff _ _ _ _).1 h2
    refine ⟨⟨fun _ => Or.inr (Or.inl ⟨m, hm, hp, hn⟩), fun _ => herr⟩,
      fun _ => by rw [hres], fun hno => absurd herr hno⟩
  by_cases h3 : req.PermissionCode ≠ "" ∧
      menuRepository.CheckPermissionCodeExists menus req.PermissionCode "" = true
  · have hres : menuService.CreateMenu menus req env = (menus, .error "权限标识符已存在") := by
      unfold menuService.CreateMenu; rw [if_neg h1, if_neg h2, if_pos h3]
    have herr : ∃ err, (menuService.CreateMenu menus req env).2 = .error err :=
      ⟨_, by rw [hres]⟩
    obtain ⟨m, hm, hc, _⟩ := (CheckPermissionCodeExists_iff _ _ _).1 h3.2
    refine ⟨⟨fun _ => Or.inr (Or.inr ⟨h3.1, m, hm, hc⟩), fun _ => herr⟩,
      fun _ => by rw [hres], fun hno => absurd herr hno⟩
  have hres := CreateMenu_inserts menus req env hfresh h1 h2 h3
  have hnoerr : ¬ ∃ err, (menuService.CreateMenu menus req env).2 = .error err := by
    rw [hres]
    rintro ⟨err, herr⟩
    exact Except.noConfusion herr
  refine ⟨⟨fun herr => absurd herr hnoerr, ?_⟩, fun herr => absurd herr hnoerr,
    fun _ => hres⟩
  rintro (⟨hp, hnone⟩ | ⟨m, hm, hp, hn⟩ | ⟨hc, m, hm, hcode⟩)
  · exact absurd ⟨hp, (GetMenuByID_toBool_false _ _).2 hnone⟩ h1
  · exact absurd ((CheckMenuNameExists_iff _ _ _ _).2 ⟨m, hm, ⟨hn, hp⟩, Or.inl rfl⟩) h2
  · exact absurd ⟨hc, (CheckPermissionCodeExists_iff _ _ _).2 ⟨m, hm, hcode, Or.inl rfl⟩⟩ h3

/-- Witness of `CreateMenu_error_iff` on `sampleMenus`: a page `profile` under `users` is
appended with status `enable`; a second page named `roles` under `sys` is refused. -/
theorem CreateMenu_error_iff_witness :
    (menuService.CreateMenu sampleMenus (createRequest "users" "profile")
        ⟨10, 1700000000, "0A1B2C3D", "oid1"⟩).1 =
      sampleMenus ++ [{ ID := "oid1", MenuID := "MENU17000000000A1B2C3D", ParentID := "users",
                        MenuName := "profile", MenuType := "menu", RoutePath := "",
                        Component := "", PermissionCode := "", Icon := "", SortOrder := 5,
                        Visible := true, Status := "enable", CreatedAt := 10,
                        UpdatedAt := 10 }] ∧
    menuService.CreateMenu sampleMenus (createRequest "sys" "roles")
        ⟨10, 1700000000, "0A1B2C3D", "oid1"⟩ =
      (sampleMenus, .error "同一层级下菜单名称已存在") ∧
    (menuService.CreateMenu sampleMenus (createRequest "sys" "roles")
        ⟨10, 1700000000, "0A1B2C3D", "oid1"⟩).1 = sampleMenus :=
  ⟨rfl, rfl,
    (CreateMenu_error_iff sampleMenus (createRequest "sys" "roles")
      ⟨10, 1700000000, "0A1B2C3D", "oid1"⟩ (by decide)).2.1 ⟨_, rfl⟩⟩


/-! ## Creating and updating a role -/

theorem GenerateID_ROLE_ne (timestamp : Nat) (randomHex : String) :
    GenerateID "ROLE" timestamp randomHex ≠ "" := by
  have h : GenerateID "ROLE" timestamp randomHex = "ROLE" ++ toString timestamp ++ randomHex := by
    simp [GenerateID]
  intro h0
  have hlen := congrArg String.length (h.symm.trans h0)
  simp only [String.length_append] at hlen
  have h4 : "ROLE".length = 4 := by decide
  have h00 : "".length = 0 := by decide
  omega

theorem updateOne_split {α : Type} (p : α → Bool) (f : α → α) :
    ∀ (l : List α) (x : α), l.find? p = some x →
      ∃ l1 l2, l = l1 ++ x :: l2 ∧ updateOne p f l = l1 ++ f x :: l2 := by
  intro l
  induction l with
  | nil => intro x h; simp at h
  | cons y ys ih =>
    intro x h
    by_cases hy : p y = true
    · rw [List.find?_cons_of_pos _ hy] at h
      cases h
      exact ⟨[], ys, rfl, by simp [updateOne, hy]⟩
    · rw [List.find?_cons_of_neg _ hy] at h
      obtain ⟨l1, l2, hl, hu⟩ := ih x h
      refine ⟨y :: l1, l2, by rw [hl]; rfl, ?_⟩
      simp only [updateOne, hy, Bool.false_eq_true, if_false, hu, List.cons_append]

theorem pairwise_replace {α : Type} {R : α → α → Prop} {l1 l2 : List α} {x y : α}
    (h : (l1 ++ x :: l2).Pairwise R) (h1 : ∀ a ∈ l1, R a y) (h2 : ∀ b ∈ l2, R y b) :
    (l1 ++ y :: l2).Pairwise R := by
  rw [List.pairwise_append] at h ⊢
  obtain ⟨ha, hb, hc⟩ := h
  rw [List.pairwise_cons] at hb ⊢
  refine ⟨ha, ⟨h2, hb.2⟩, ?_⟩
  intro a ha' b hb'
  rcases List.mem_cons.1 hb' with rfl | hb''
  · exact h1 a ha'
  · exact hc a ha' b (List.mem_cons_of_mem _ hb'')

theorem CreateRole_key_used (st : RoleState) (req : RoleCreateRequest) (env : Env)
    (h : ∃ r ∈ st.roles, r.RoleKey = req.RoleKey) :
    roleService.CreateRole st req env =
      (st, .error ("角色标识符 " ++ req.RoleKey ++ " 已存在")) := by
  obtain ⟨r, hr, hk⟩ := h
  have hc : roleRepository.CheckRoleKeyExists st.roles req.RoleKey "" = true :=
    (CheckRoleKeyExists_iff _ _ _).2 ⟨r, hr, hk, Or.inl rfl⟩
  unfold roleService.CreateRole
  rw [if_pos hc]

theorem CreateRole_name_used (st : RoleState) (req : RoleCreateRequest) (env : Env)
    (hk : ¬ ∃ r ∈ st.roles, r.RoleKey = req.RoleKey)
    (h : ∃ r ∈ st.roles, r.CompanyID = req.CompanyID ∧ r.RoleName = req.RoleName) :
    roleService.CreateRole st req env =
      (st, .error ("角色名称 " ++ req.RoleName ++ " 已存在")) := by
  obtain ⟨r, hr, hc, hn⟩ := h
  have hkey : ¬ roleRepository.CheckRoleKeyExists st.roles req.RoleKey "" = true := by
    intro hc
    obtain ⟨r, hr, hkr, _⟩ := (CheckRoleKeyExists_iff _ _ _).1 hc
    exact hk ⟨r, hr, hkr⟩
  have hname : roleRepository.CheckRoleNameExists st.roles req.RoleName req.CompanyID "" =
      true := (CheckRoleNameExists_iff _ _ _ _).2 ⟨r, hr, ⟨hn, hc⟩, Or.inl rfl⟩
  unfold roleService.CreateRole
  rw [if_neg hkey, if_pos hname]

theorem CreateRole_id_used (st : RoleState) (req : RoleCreateRequest) (env : Env)
    (hk : ¬ ∃ r ∈ st.roles, r.RoleKey = req.RoleKey)
    (hn : ¬ ∃ r ∈ st.roles, r.CompanyID = req.CompanyID ∧ r.RoleName = req.RoleName)
    (h : ∃ r ∈ st.roles, r.RoleID = GenerateID "ROLE" env.timestamp env.randomHex) :
    roleService.CreateRole st req env =
      (st, .error ("创建角色失败: " ++ ("创建角色失败: " ++ duplicateKeyError))) := by
  have hkey : ¬ roleRepository.CheckRoleKeyExists st.roles req.RoleKey "" = true := by
    intro hc
    obtain ⟨r, hr, hkr, _⟩ := (CheckRoleKeyExists_iff _ _ _).1 hc
    exact hk ⟨r, hr, hkr⟩
  have hname : ¬ roleRepository.CheckRoleNameExists st.roles req.RoleName req.CompanyID "" =
      true := by
    intro hc
    obtain ⟨r, hr, ⟨hnr, hcr⟩, _⟩ := (CheckRoleNameExists_iff _ _ _ _).1 hc
    exact hn ⟨r, hr, hcr, hnr⟩
  obtain ⟨r, hr, hid⟩ := h
  have hany : st.roles.any (fun r =>
      decide (r.RoleID = GenerateID "ROLE" env.timestamp env.randomHex) ||
        decide (r.RoleKey = req.RoleKey)) = true :=
    List.any_eq_true.2 ⟨r, hr, by simp [hid]⟩
  unfold roleService.CreateRole
  rw [if_neg hkey, if_neg hname]
  simp [roleRepository.CreateRole, GenerateID_ROLE_ne, hany]

theorem CreateRole_inserts (st : RoleState) (req : RoleCreateRequest) (env : Env)
    (hk : ¬ ∃ r ∈ st.roles, r.RoleKey = req.RoleKey)
    (hn : ¬ ∃ r ∈ st.roles, r.CompanyID = req.CompanyID ∧ r.RoleName = req.RoleName)
    (hid : ¬ ∃ r ∈ st.roles, r.RoleID = GenerateID "ROLE" env.timestamp env.randomHex) :
    roleService.CreateRole st req env =
      if 0 < req.MenuIDs.length then
        ({ roles := st.roles ++ [createdRole req env],
           rolePermissions := (rbacRepository.AssignPermissionsToRole st.rolePermissions
             (GenerateID "ROLE" env.timestamp env.randomHex) req.MenuIDs env.now).1,
           userRoles := st.userRoles },
          match (rbacRepository.AssignPermissionsToRole st.rolePermissions
             (GenerateID "ROLE" env.timestamp env.randomHex) req.MenuIDs env.now).2 with
          | .error err => .error ("分配角色权限失败: " ++ err)
          | .ok _ => .ok (roleService.roleModelToInfo { createdRole req env with ID := "" }))
      else
        ({ roles := st.roles ++ [createdRole req env],
           rolePermissions := st.rolePermissions, userRoles := st.userRoles },
          .ok (roleService.roleModelToInfo { createdRole req env with ID := "" })) := by
  have hkey : ¬ roleRepository.CheckRoleKeyExists st.roles req.RoleKey "" = true := by
    intro hc
    obtain ⟨r, hr, hkr, _⟩ := (CheckRoleKeyExists_iff _ _ _).1 hc
    exact hk ⟨r, hr, hkr⟩
  have hname : ¬ roleRepository.CheckRoleNameExists st.roles req.RoleName req.CompanyID "" =
      true := by
    intro hc
    obtain ⟨r, hr, ⟨hnr, hcr⟩, _⟩ := (CheckRoleNameExists_iff _ _ _ _).1 hc
    exact hn ⟨r, hr, hcr, hnr⟩
  have hany : st.roles.any (fun r =>
      decide (r.RoleID = GenerateID "ROLE" env.timestamp env.randomHex) ||
        decide (r.RoleKey = req.RoleKey)) = false := by
    rw [List.any_eq_false]
    intro r hr
    have h1 : r.RoleID ≠ GenerateID "ROLE" env.timestamp env.randomHex :=
      fun h => hid ⟨r, hr, h⟩
    have h2 : r.RoleKey ≠ req.RoleKey := fun h => hk ⟨r, hr, h⟩
    simp [h1, h2]
  unfold roleService.CreateRole
  rw [if_neg hkey, if_neg hname]
  simp only [roleRepository.CreateRole, GenerateID_ROLE_ne, if_false, hany, Bool.false_eq_true]
  split
  · split <;> rename_i heq <;> simp [heq, createdRole]
  · rfl


theorem repository_UpdateRole_cases (roles : List Role) (roleID : String)
    (updates : RoleUpdates) (now : Nat) :
    (roleRepository.UpdateRole roles roleID updates now).1 = roles ∧
        (∃ err, (roleRepository.UpdateRole roles roleID updates now).2 = .error err) ∨
      roleRepository.UpdateRole roles roleID updates now =
        (updateOne (fun r => decide (r.RoleID = roleID)) (updates.set now) roles, .ok ()) := by
  unfold roleRepository.UpdateRole
  cases hf : roles.find? (fun r => decide (r.RoleID = roleID)) with
  | none => exact Or.inl ⟨rfl, _, rfl⟩
  | some x =>
    simp only
    split
    · exact Or.inl ⟨rfl, _, rfl⟩
    · exact Or.inr rfl

theorem UpdateRole_cases (st : RoleState) (roleID : String) (req : RoleUpdateRequest)
    (now : Nat) :
    (roleService.UpdateRole st roleID req now).1 = st ∨
      ∃ (x : Role) (g : Role → Role),
        st.roles.find? (fun r => decide (r.RoleID = roleID)) = some x ∧
        (∀ r, (g r).RoleID = r.RoleID ∧ (g r).CompanyID = r.CompanyID ∧
          (g r).MenuIDs = req.MenuIDs) ∧
        ((g x).RoleKey = x.RoleKey ∨
          ∀ r ∈ st.roles, r.RoleID ≠ roleID → r.RoleKey ≠ (g x).RoleKey) ∧
        ((g x).RoleName = x.RoleName ∨
          ∀ r ∈ st.roles, r.RoleID ≠ roleID → r.CompanyID = x.CompanyID →
            r.RoleName ≠ (g x).RoleName) ∧
        (roleService.UpdateRole st roleID req now).1 =
          { roles := updateOne (fun r => decide (r.RoleID = roleID)) g st.roles,
            rolePermissions := (rbacRepository.AssignPermissionsToRole st.rolePermissions
              roleID req.MenuIDs now).1,
            userRoles := st.userRoles } := by
  unfold roleService.UpdateRole roleRepository.GetRoleByID
  cases hf : st.roles.find? (fun r => decide (r.RoleID = roleID)) with
  | none => exact Or.inl rfl
  | some x =>
    simp only
    by_cases hkey : req.RoleKey ≠ "" ∧ req.RoleKey ≠ x.RoleKey ∧
        roleRepository.CheckRoleKeyExists st.roles req.RoleKey roleID = true
    · rw [if_pos hkey]; exact Or.inl rfl
    rw [if_neg hkey]
    by_cases hname : req.RoleName ≠ "" ∧ req.RoleName ≠ x.RoleName ∧
        roleRepository.CheckRoleNameExists st.roles req.RoleName x.CompanyID roleID = true
    · rw [if_pos hname]; exact Or.inl rfl
    rw [if_neg hname]
    rcases repository_UpdateRole_cases st.roles roleID
      { role_name := if req.RoleName ≠ "" then some req.RoleName else none
        role_key := if req.RoleKey ≠ "" then some req.RoleKey else none
        sort_order := if req.SortOrder ≠ 0 then some req.SortOrder else none
        data_scope := if req.DataScope ≠ "" then some req.DataScope else none
        status := if req.Status ≠ "" then some req.Status else none
        remark := if req.Remark ≠ "" then some req.Remark else none
        menu_ids := req.MenuIDs } now with ⟨_, err, herr⟩ | hok
    · left
      split
      · rfl
      · rename_i heq
        rw [heq] at herr
        exact Except.noConfusion herr
    · right
      rw [hok]
      simp only
      refine ⟨x, RoleUpdates.set
        { role_name := if req.RoleName ≠ "" then some req.RoleName else none
          role_key := if req.RoleKey ≠ "" then some req.RoleKey else none
          sort_order := if req.SortOrder ≠ 0 then some req.SortOrder else none
          data_scope := if req.DataScope ≠ "" then some req.DataScope else none
          status := if req.Status ≠ "" then some req.Status else none
          remark := if req.Remark ≠ "" then some req.Remark else none
          menu_ids := req.MenuIDs } now, rfl, fun r => ⟨rfl, rfl, rfl⟩, ?_, ?_, ?_⟩
      · by_cases h1 : req.RoleKey = ""
        · left; simp [RoleUpdates.set, h1]
        · by_cases h2 : req.RoleKey = x.RoleKey
          · left; simpa [RoleUpdates.set, h1] using h2
          · right
            intro r hr hrid hrk
            apply hkey
            refine ⟨h1, h2, (CheckRoleKeyExists_iff _ _ _).2 ⟨r, hr, ?_, Or.inr hrid⟩⟩
            simpa [RoleUpdates.set, h1] using hrk
      · by_cases h1 : req.RoleName = ""
        · left; simp [RoleUpdates.set, h1]
        · by_cases h2 : req.RoleName = x.RoleName
          · left; simpa [RoleUpdates.set, h1] using h2
          · right
            intro r hr hrid hrc hrn
            apply hname
            refine ⟨h1, h2, (CheckRoleNameExists_iff _ _ _ _).2
              ⟨r, hr, ⟨?_, hrc⟩, Or.inr hrid⟩⟩
            simpa [RoleUpdates.set, h1] using hrn
      · split <;> rename_i heq <;> rw [heq]


/-! ## Uniqueness of role keys and role names -/

theorem UniqueRoleIDs.others {l1 l2 : List Role} {x : Role}
    (hU : UniqueRoleIDs (l1 ++ x :: l2)) : ∀ r ∈ l1 ++ l2, r.RoleID ≠ x.RoleID := by
  unfold UniqueRoleIDs at hU
  rw [List.map_append, List.map_cons, List.nodup_middle, List.nodup_cons] at hU
  intro r hr hid
  apply hU.1
  rw [← List.map_append]
  exact List.mem_map.2 ⟨r, hr, hid⟩

theorem CreateRole_state (st : RoleState) (req : RoleCreateRequest) (env : Env)
    (hk : ¬ ∃ r ∈ st.roles, r.RoleKey = req.RoleKey)
    (hn : ¬ ∃ r ∈ st.roles, r.CompanyID = req.CompanyID ∧ r.RoleName = req.RoleName)
    (hid : ¬ ∃ r ∈ st.roles, r.RoleID = GenerateID "ROLE" env.timestamp env.randomHex) :
    (roleService.CreateRole st req env).1.roles = st.roles ++ [createdRole req env] ∧
    (roleService.CreateRole st req env).1.userRoles = st.userRoles ∧
    (roleService.CreateRole st req env).1.rolePermissions =
      (if 0 < req.MenuIDs.length then
        (rbacRepository.AssignPermissionsToRole st.rolePermissions
          (GenerateID "ROLE" env.timestamp env.randomHex) req.MenuIDs env.now).1
      else st.rolePermissions) := by
  rw [CreateRole_inserts st req env hk hn hid]
  by_cases hlen : 0 < req.MenuIDs.length
  · rw [if_pos hlen, if_pos hlen]; exact ⟨rfl, rfl, rfl⟩
  · rw [if_neg hlen, if_neg hlen]; exact ⟨rfl, rfl, rfl⟩

theorem CreateRole_roles (st : RoleState) (req : RoleCreateRequest) (env : Env) :
    (roleService.CreateRole st req env).1 = st ∨
      ((∀ r ∈ st.roles, r.RoleKey ≠ req.RoleKey) ∧
        (∀ r ∈ st.roles, r.CompanyID = req.CompanyID → r.RoleName ≠ req.RoleName) ∧
        (∀ r ∈ st.roles, r.RoleID ≠ GenerateID "ROLE" env.timestamp env.randomHex) ∧
        (roleService.CreateRole st req env).1.roles = st.roles ++ [createdRole req env]) := by
  by_cases hk : ∃ r ∈ st.roles, r.RoleKey = req.RoleKey
  · left; rw [CreateRole_key_used st req env hk]
  by_cases hn : ∃ r ∈ st.roles, r.CompanyID = req.CompanyID ∧ r.RoleName = req.RoleName
  · left; rw [CreateRole_name_used st req env hk hn]
  by_cases hid : ∃ r ∈ st.roles, r.RoleID = GenerateID "ROLE" env.timestamp env.randomHex
  · left; rw [CreateRole_id_used st req env hk hn hid]
  right
  exact ⟨fun r hr h => hk ⟨r, hr, h⟩, fun r hr hc h => hn ⟨r, hr, hc, h⟩,
    fun r hr h => hid ⟨r, hr, h⟩, (CreateRole_state st req env hk hn hid).1⟩

theorem DeleteRole_roles (st : RoleState) (roleID : String) :
    ((roleService.DeleteRole st roleID).1.roles).Sublist st.roles := by
  by_cases hex : ∃ r ∈ st.roles, r.RoleID = roleID
  · rw [DeleteRole_eq st roleID hex]
    exact List.eraseP_sublist _
  · rw [DeleteRole_missing st roleID (fun r hr h => hex ⟨r, hr, h⟩)]

theorem uniqueIDs_apply (st : RoleState) (op : RoleOp) (hids : UniqueRoleIDs st.roles) :
    UniqueRoleIDs (op.apply st).roles := by
  cases op with
  | create req env =>
    rcases CreateRole_roles st req env with h | ⟨_, _, hid, h⟩
    · simp only [RoleOp.apply, h]; exact hids
    · simp only [RoleOp.apply, h]
      unfold UniqueRoleIDs at hids ⊢
      rw [List.map_append, List.map_singleton]
      refine List.Nodup.append hids (List.nodup_singleton _) ?_
      intro a ha hb
      obtain ⟨r, hr, hra⟩ := List.mem_map.1 ha
      rw [List.mem_singleton] at hb
      exact hid r hr (hra.trans hb)
  | update roleID req now =>
    rcases UpdateRole_cases st roleID req now with h | ⟨x, g, hf, hg, _, _, h⟩
    · simp only [RoleOp.apply, h]; exact hids
    · simp only [RoleOp.apply, h]
      obtain ⟨l1, l2, hl, hu⟩ := updateOne_split (fun r => decide (r.RoleID = roleID)) g _ x hf
      rw [hu]
      rw [hl] at hids
      unfold UniqueRoleIDs at hids ⊢
      rw [List.map_append, List.map_cons] at hids ⊢
      rw [(hg x).1]
      exact hids
  | delete roleID =>
    simp only [RoleOp.apply]
    exact List.Nodup.sublist ((DeleteRole_roles st roleID).map _) hids

theorem uniqueKeys_apply (st : RoleState) (op : RoleOp) (hids : UniqueRoleIDs st.roles)
    (hkeys : UniqueRoleKeys st.roles) : UniqueRoleKeys (op.apply st).roles := by
  cases op with
  | create req env =>
    rcases CreateRole_roles st req env with h | ⟨hk, _, _, h⟩
    · simp only [RoleOp.apply, h]; exact hkeys
    · simp only [RoleOp.apply, h]
      unfold UniqueRoleKeys at hkeys ⊢
      rw [List.pairwise_append]
      refine ⟨hkeys, List.pairwise_singleton _ _, ?_⟩
      intro a ha b hb
      rw [List.mem_singleton] at hb
      subst hb
      exact hk a ha
  | update roleID req now =>
    rcases UpdateRole_cases st roleID req now with h | ⟨x, g, hf, hg, hkey, _, h⟩
    · simp only [RoleOp.apply, h]; exact hkeys
    · simp only [RoleOp.apply, h]
      obtain ⟨l1, l2, hl, hu⟩ := updateOne_split (fun r => decide (r.RoleID = roleID)) g _ x hf
      have hxid : x.RoleID = roleID := by simpa using List.find?_some hf
      rw [hu]
      rw [hl] at hids hkeys
      have hothers := hids.others
      unfold UniqueRoleKeys at hkeys ⊢
      have hold := List.pairwise_append.1 hkeys
      have hx2 := List.pairwise_cons.1 hold.2.1
      apply pairwise_replace hkeys
      · intro a ha
        rcases hkey with he | hne
        · rw [he]; exact hold.2.2 a ha x (List.mem_cons_self _ _)
        · refine hne a ?_ ?_
          · rw [hl]; exact List.mem_append_left _ ha
          · rw [← hxid]; exact hothers a (List.mem_append_left _ ha)
      · intro b hb
        rcases hkey with he | hne
        · rw [he]; exact hx2.1 b hb
        · refine Ne.symm (hne b ?_ ?_)
          · rw [hl]; exact List.mem_append_right _ (List.mem_cons_of_mem _ hb)
          · rw [← hxid]; exact hothers b (List.mem_append_right _ hb)
  | delete roleID =>
    simp only [RoleOp.apply]
    exact List.Pairwise.sublist (DeleteRole_roles st roleID) hkeys

theorem uniqueNames_apply (st : RoleState) (op : RoleOp) (hids : UniqueRoleIDs st.roles)
    (hnames : UniqueRoleNames st.roles) : UniqueRoleNames (op.apply st).roles := by
  cases op with
  | create req env =>
    rcases CreateRole_roles st req env with h | ⟨_, hn, _, h⟩
    · simp only [RoleOp.apply, h]; exact hnames
    · simp only [RoleOp.apply, h]
      unfold UniqueRoleNames at hnames ⊢
      rw [List.pairwise_append]
      refine ⟨hnames, List.pairwise_singleton _ _, ?_⟩
      intro a ha b hb
      rw [List.mem_singleton] at hb
      subst hb
      exact hn a ha
  | update roleID req now =>
    rcases UpdateRole_cases st roleID req now with h | ⟨x, g, hf, hg, _, hname, h⟩
    · simp only [RoleOp.apply, h]; exact hnames
    · simp only [RoleOp.apply, h]
      obtain ⟨l1, l2, hl, hu⟩ := updateOne_split (fun r => decide (r.RoleID = roleID)) g _ x hf
      have hxid : x.RoleID = roleID := by simpa using List.find?_some hf
      rw [hu]
      rw [hl] at hids hnames
      have hothers := hids.others
      unfold UniqueRoleNames at hnames ⊢
      have hold := List.pairwise_append.1 hnames
      have hx2 := List.pairwise_cons.1 hold.2.1
      apply pairwise_replace hnames
      · intro a ha hc
        rw [(hg x).2.1] at hc
        rcases hname with he | hne
        · rw [he]; exact hold.2.2 a ha x (List.mem_cons_self _ _) hc
        · refine hne a ?_ ?_ hc
          · rw [hl]; exact List.mem_append_left _ ha
          · rw [← hxid]; exact hothers a (List.mem_append_left _ ha)
      · intro b hb hc
        rw [(hg x).2.1] at hc
        rcases hname with he | hne
        · rw [he]; exact hx2.1 b hb hc
        · refine Ne.symm (hne b ?_ ?_ hc.symm)
          · rw [hl]; exact List.mem_append_right _ (List.mem_cons_of_mem _ hb)
          · rw [← hxid]; exact hothers b (List.mem_append_right _ hb)
  | delete roleID =>
    simp only [RoleOp.apply]
    exact List.Pairwise.sublist (DeleteRole_roles st roleID) hnames

theorem uniqueness_runRoleOps (ops : List RoleOp) :
    ∀ st : RoleState, UniqueRoleIDs st.roles → UniqueRoleKeys st.roles →
      UniqueRoleNames st.roles →
      UniqueRoleIDs (runRoleOps st ops).roles ∧ UniqueRoleKeys (runRoleOps st ops).roles ∧
        UniqueRoleNames (runRoleOps st ops).roles := by
  induction ops with
  | nil => intro st h1 h2 h3; exact ⟨h1, h2, h3⟩
  | cons op ops ih =>
    intro st h1 h2 h3
    exact ih (op.apply st) (uniqueIDs_apply st op h1) (uniqueKeys_apply st op h1 h2)
      (uniqueNames_apply st op h1 h3)

/-- C16: starting from a role store in which no two roles share a `role_key` and no two roles
with the same `company_id` share a `role_name` (and role ids are unique, as the index
`idx_role_id_unique` enforces), both properties hold after every sequence of `CreateRole`,
`UpdateRole` and `DeleteRole` calls, whether the calls succeed or not; and in the state
reached `CreateRole` returns an error, leaving the state as it is, whenever the requested
`role_key` is used by any role or the requested `role_name` by a role with the same
`company_id`. -/
theorem role_uniqueness_preserved (st : RoleState) (hids : UniqueRoleIDs st.roles)
    (hkeys : UniqueRoleKeys st.roles) (hnames : UniqueRoleNames st.roles)
    (ops : List RoleOp) :
    UniqueRoleKeys (runRoleOps st ops).roles ∧
    UniqueRoleNames (runRoleOps st ops).roles ∧
    (∀ (req : RoleCreateRequest) (env : Env),
      ((∃ r ∈ (runRoleOps st ops).roles, r.RoleKey = req.RoleKey) ∨
        (∃ r ∈ (runRoleOps st ops).roles,
          r.CompanyID = req.CompanyID ∧ r.RoleName = req.RoleName)) →
      ∃ err, roleService.CreateRole (runRoleOps st ops) req env =
        (runRoleOps st ops, .error err)) := by
  obtain ⟨_, h2, h3⟩ := uniqueness_runRoleOps ops st hids hkeys hnames
  refine ⟨h2, h3, ?_⟩
  intro req env hused
  by_cases hk : ∃ r ∈ (runRoleOps st ops).roles, r.RoleKey = req.RoleKey
  · exact ⟨_, CreateRole_key_used _ req env hk⟩
  · rcases hused with h | h
    · exact absurd h hk
    · exact ⟨_, CreateRole_name_used _ req env hk h⟩

/-- Witness of `role_uniqueness_preserved`: the calls of `sampleRoleOps` on `sampleState`. -/
theorem role_uniqueness_preserved_witness :
    (runRoleOps sampleState sampleRoleOps).roles.map (fun r => (r.RoleID, r.RoleKey, r.RoleName))
        = [("R2", "r2", "R2"), ("ROLE17000000000A1B2C3D", "auditor", "Auditor")] ∧
      UniqueRoleKeys (runRoleOps sampleState sampleRoleOps).roles ∧
      UniqueRoleNames (runRoleOps sampleState sampleRoleOps).roles :=
  ⟨rfl,
    (role_uniqueness_preserved sampleState (by decide) (by decide) (by decide)
      sampleRoleOps).1,
    (role_uniqueness_preserved sampleState (by decide) (by decide) (by decide)
      sampleRoleOps).2.1⟩


/-! ## Synchronisation of `menu_ids` and the `role_permission` rows -/

theorem AssignPermissionsToRole_fst {rolePermissions : List RolePermission} {roleID : String}
    {menuIDs : List String} {now : Nat} (h : menuIDs.Nodup) :
    (rbacRepository.AssignPermissionsToRole rolePermissions roleID menuIDs now).1 =
      rolePermissions.filter (fun rp => decide (rp.RoleID ≠ roleID)) ++
        grantRows roleID menuIDs now :=
  AssignPermissionsToRole_ok ((AssignPermissionsToRole_ok_iff _ _ _ _).2 h)

theorem mem_grantRows {roleID : String} {menuIDs : List String} {now : Nat}
    {rp : RolePermission} (h : rp ∈ grantRows roleID menuIDs now) :
    rp.RoleID = roleID ∧ rp.MenuID ∈ menuIDs := by
  obtain ⟨m, hm, rfl⟩ := List.mem_map.1 h
  exact ⟨rfl, hm⟩

theorem GetRolePermissions_assigned_self (rolePermissions : List RolePermission)
    (roleID : String) (menuIDs : List String) (now : Nat) (m : String) :
    m ∈ rbacRepository.GetRolePermissions
        (rolePermissions.filter (fun rp => decide (rp.RoleID ≠ roleID)) ++
          grantRows roleID menuIDs now) roleID ↔ m ∈ menuIDs := by
  rw [GetRolePermissions_mem]
  constructor
  · rintro ⟨rp, hrp, hid, rfl⟩
    rcases List.mem_append.1 hrp with h | h
    · have := (List.mem_filter.1 h).2
      simp [hid] at this
    · exact (mem_grantRows h).2
  · intro hm
    exact ⟨⟨roleID, m, "menu", now, now⟩,
      List.mem_append_right _ (List.mem_map.2 ⟨m, hm, rfl⟩), rfl, rfl⟩

theorem GetRolePermissions_assigned_other (rolePermissions : List RolePermission)
    (roleID : String) (menuIDs : List String) (now : Nat) (other : String)
    (hne : other ≠ roleID) (m : String) :
    m ∈ rbacRepository.GetRolePermissions
        (rolePermissions.filter (fun rp => decide (rp.RoleID ≠ roleID)) ++
          grantRows roleID menuIDs now) other ↔
      m ∈ rbacRepository.GetRolePermissions rolePermissions other := by
  rw [GetRolePermissions_mem, GetRolePermissions_mem]
  constructor
  · rintro ⟨rp, hrp, hid, rfl⟩
    rcases List.mem_append.1 hrp with h | h
    · exact ⟨rp, (List.mem_filter.1 h).1, hid, rfl⟩
    · exact absurd ((mem_grantRows h).1.symm.trans hid).symm hne
  · rintro ⟨rp, hrp, hid, rfl⟩
    refine ⟨rp, List.mem_append_left _ (List.mem_filter.2 ⟨hrp, ?_⟩), hid, rfl⟩
    have : rp.RoleID ≠ roleID := by rw [hid]; exact hne
    simpa using this

theorem filter_rows_unowned {rolePermissions : List RolePermission} {roleID : String}
    (h : ∀ rp ∈ rolePermissions, rp.RoleID ≠ roleID) :
    rolePermissions.filter (fun rp => decide (rp.RoleID ≠ roleID)) = rolePermissions :=
  List.filter_eq_self.2 (fun rp hrp => by simpa using h rp hrp)

theorem synced_create (st : RoleState) (req : RoleCreateRequest) (env : Env)
    (hnd : req.MenuIDs.Nodup) (hsync : GrantsSynced st) (hown : RowsOwned st) :
    GrantsSynced (roleService.CreateRole st req env).1 ∧
      RowsOwned (roleService.CreateRole st req env).1 := by
  by_cases hk : ∃ r ∈ st.roles, r.RoleKey = req.RoleKey
  · rw [CreateRole_key_used st req env hk]; exact ⟨hsync, hown⟩
  by_cases hn : ∃ r ∈ st.roles, r.CompanyID = req.CompanyID ∧ r.RoleName = req.RoleName
  · rw [CreateRole_name_used st req env hk hn]; exact ⟨hsync, hown⟩
  by_cases hid : ∃ r ∈ st.roles, r.RoleID = GenerateID "ROLE" env.timestamp env.randomHex
  · rw [CreateRole_id_used st req env hk hn hid]; exact ⟨hsync, hown⟩
  obtain ⟨hroles, _, hrows⟩ := CreateRole_state st req env hk hn hid
  have hunowned : ∀ rp ∈ st.rolePermissions,
      rp.RoleID ≠ GenerateID "ROLE" env.timestamp env.randomHex := by
    intro rp hrp h
    obtain ⟨r, hr, hrid⟩ := hown rp hrp
    exact hid ⟨r, hr, hrid.trans h⟩
  have hrows' : (roleService.CreateRole st req env).1.rolePermissions =
      st.rolePermissions.filter (fun rp =>
        decide (rp.RoleID ≠ GenerateID "ROLE" env.timestamp env.randomHex)) ++
        grantRows (GenerateID "ROLE" env.timestamp env.randomHex) req.MenuIDs env.now := by
    rw [hrows]
    split
    · exact AssignPermissionsToRole_fst hnd
    · rename_i hlen
      have hnil : req.MenuIDs = [] := List.length_eq_zero.1 (by omega)
      rw [hnil, filter_rows_unowned hunowned]
      simp [grantRows]
  constructor
  · intro r hr
    rw [hroles] at hr
    rw [hrows']
    rcases List.mem_append.1 hr with h | h
    · have hne : r.RoleID ≠ GenerateID "ROLE" env.timestamp env.randomHex :=
        fun e => hid ⟨r, h, e⟩
      exact ⟨fun m hm => (GetRolePermissions_assigned_other _ _ _ _ _ hne m).2
          ((hsync r h).1 m hm),
        fun m hm => (hsync r h).2 m ((GetRolePermissions_assigned_other _ _ _ _ _ hne m).1 hm)⟩
    · rw [List.mem_singleton] at h
      subst h
      exact ⟨fun m hm => (GetRolePermissions_assigned_self _ _ _ _ m).2 hm,
        fun m hm => (GetRolePermissions_assigned_self _ _ _ _ m).1 hm⟩
  · intro rp hrp
    rw [hrows'] at hrp
    rw [hroles]
    rcases List.mem_append.1 hrp with h | h
    · obtain ⟨r, hr, hrid⟩ := hown rp (List.mem_filter.1 h).1
      exact ⟨r, List.mem_append_left _ hr, hrid⟩
    · exact ⟨createdRole req env, List.mem_append_right _ (List.mem_singleton.2 rfl),
        (mem_grantRows h).1.symm⟩

theorem synced_update (st : RoleState) (roleID : String) (req : RoleUpdateRequest) (now : Nat)
    (hnd : req.MenuIDs.Nodup) (hids : UniqueRoleIDs st.roles) (hsync : GrantsSynced st)
    (hown : RowsOwned st) :
    GrantsSynced (roleService.UpdateRole st roleID req now).1 ∧
      RowsOwned (roleService.UpdateRole st roleID req now).1 := by
  rcases UpdateRole_cases st roleID req now with h | ⟨x, g, hf, hg, _, _, h⟩
  · rw [h]; exact ⟨hsync, hown⟩
  · rw [h]
    obtain ⟨l1, l2, hl, hu⟩ := updateOne_split (fun r => decide (r.RoleID = roleID)) g _ x hf
    have hxid : x.RoleID = roleID := by simpa using List.find?_some hf
    rw [hu, AssignPermissionsToRole_fst hnd]
    rw [hl] at hids
    have hothers := hids.others
    have hmem : ∀ r ∈ l1 ++ l2, r ∈ st.roles := by
      intro r hr
      rw [hl]
      rcases List.mem_append.1 hr with h1 | h2
      · exact List.mem_append_left _ h1
      · exact List.mem_append_right _ (List.mem_cons_of_mem _ h2)
    have hold : ∀ r ∈ l1 ++ l2,
        (∀ m ∈ r.MenuIDs, m ∈ rbacRepository.GetRolePermissions
          (st.rolePermissions.filter (fun rp => decide (rp.RoleID ≠ roleID)) ++
            grantRows roleID req.MenuIDs now) r.RoleID) ∧
        (∀ m ∈ rbacRepository.GetRolePermissions
          (st.rolePermissions.filter (fun rp => decide (rp.RoleID ≠ roleID)) ++
            grantRows roleID req.MenuIDs now) r.RoleID, m ∈ r.MenuIDs) := by
      intro r hr
      have hne : r.RoleID ≠ roleID := by rw [← hxid]; exact hothers r hr
      exact ⟨fun m hm => (GetRolePermissions_assigned_other _ _ _ _ _ hne m).2
          ((hsync r (hmem r hr)).1 m hm),
        fun m hm => (hsync r (hmem r hr)).2 m
          ((GetRolePermissions_assigned_other _ _ _ _ _ hne m).1 hm)⟩
    constructor
    · intro r hr
      simp only at hr ⊢
      rcases List.mem_append.1 hr with h1 | h2
      · exact hold r (List.mem_append_left _ h1)
      · rcases List.mem_cons.1 h2 with rfl | h3
        · rw [(hg x).1, (hg x).2.2, hxid]
          exact ⟨fun m hm => (GetRolePermissions_assigned_self _ _ _ _ m).2 hm,
            fun m hm => (GetRolePermissions_assigned_self _ _ _ _ m).1 hm⟩
        · exact hold r (List.mem_append_right _ h3)
    · intro rp hrp
      simp only at hrp ⊢
      have hgx : g x ∈ l1 ++ g x :: l2 :=
        List.mem_append_right _ (List.mem_cons_self _ _)
      rcases List.mem_append.1 hrp with h1 | h2
      · obtain ⟨r, hr, hrid⟩ := hown rp (List.mem_filter.1 h1).1
        rw [hl] at hr
        rcases List.mem_append.1 hr with ha | hb
        · exact ⟨r, List.mem_append_left _ ha, hrid⟩
        · rcases List.mem_cons.1 hb with rfl | hc
          · exact ⟨g r, hgx, by rw [(hg r).1]; exact hrid⟩
          · exact ⟨r, List.mem_append_right _ (List.mem_cons_of_mem _ hc), hrid⟩
      · exact ⟨g x, hgx, by rw [(hg x).1, hxid]; exact (mem_grantRows h2).1.symm⟩

theorem synced_delete (st : RoleState) (roleID : String) (hids : UniqueRoleIDs st.roles)
    (hsync : GrantsSynced st) (hown : RowsOwned st) :
    GrantsSynced (roleService.DeleteRole st roleID).1 ∧
      RowsOwned (roleService.DeleteRole st roleID).1 := by
  by_cases hex : ∃ r ∈ st.roles, r.RoleID = roleID
  · rw [DeleteRole_eq st roleID hex, role_eraseP_eq_filter hids roleID]
    constructor
    · intro r hr
      simp only at hr ⊢
      have hr' := List.mem_filter.1 hr
      have hne : r.RoleID ≠ roleID := by simpa using hr'.2
      have key := GetRolePermissions_assigned_other st.rolePermissions roleID [] 0 r.RoleID hne
      simp only [grantRows, List.map_nil, List.append_nil] at key
      exact ⟨fun m hm => (key m).2 ((hsync r hr'.1).1 m hm),
        fun m hm => (hsync r hr'.1).2 m ((key m).1 hm)⟩
    · intro rp hrp
      simp only at hrp ⊢
      have hrp' := List.mem_filter.1 hrp
      have hne : rp.RoleID ≠ roleID := by simpa using hrp'.2
      obtain ⟨r, hr, hrid⟩ := hown rp hrp'.1
      refine ⟨r, List.mem_filter.2 ⟨hr, ?_⟩, hrid⟩
      have : r.RoleID ≠ roleID := by rw [hrid]; exact hne
      simpa using this
  · rw [DeleteRole_missing st roleID (fun r hr h => hex ⟨r, hr, h⟩)]
    exact ⟨hsync, hown⟩

theorem synced_runRoleOps (ops : List RoleOp) :
    ∀ st : RoleState, (∀ op ∈ ops, op.menuIDs.Nodup) → UniqueRoleIDs st.roles →
      GrantsSynced st → RowsOwned st →
      UniqueRoleIDs (runRoleOps st ops).roles ∧ GrantsSynced (runRoleOps st ops) ∧
        RowsOwned (runRoleOps st ops) := by
  induction ops with
  | nil => intro st _ h1 h2 h3; exact ⟨h1, h2, h3⟩
  | cons op ops ih =>
    intro st hnd h1 h2 h3
    have hop : GrantsSynced (op.apply st) ∧ RowsOwned (op.apply st) := by
      have hnd0 := hnd op (List.mem_cons_self _ _)
      cases op with
      | create req env => exact synced_create st req env hnd0 h2 h3
      | update roleID req now => exact synced_update st roleID req now hnd0 h1 h2 h3
      | delete roleID => exact synced_delete st roleID h1 h2 h3
    exact ih (op.apply st) (fun o ho => hnd o (List.mem_cons_of_mem _ ho))
      (uniqueIDs_apply st op h1) hop.1 hop.2

/-- C19, counterexample: on the empty state, where the grant-synchronisation invariant holds,
`CreateRole` with `menu_ids = [M1, M1, M2]` stores the role with these `menu_ids`, inserts
the row for `M1`, is stopped by the unique index at the second `M1` and returns an error; the
role then embeds `M2`, for which it has no `role_permission` row. -/
theorem CreateRole_repeated_menu_id :
    GrantsSynced emptyState ∧
      ¬ GrantsSynced (roleService.CreateRole emptyState
        (roleCreateRequest "Auditor" "auditor" ["M1", "M1", "M2"])
        ⟨10, 1700000000, "0A1B2C3D", "oid1"⟩).1 ∧
      ((roleService.CreateRole emptyState
        (roleCreateRequest "Auditor" "auditor" ["M1", "M1", "M2"])
        ⟨10, 1700000000, "0A1B2C3D", "oid1"⟩).1.roles.map (fun r => (r.RoleID, r.MenuIDs)) =
          [("ROLE17000000000A1B2C3D", ["M1", "M1", "M2"])]) ∧
      rbacRepository.GetRolePermissions (roleService.CreateRole emptyState
        (roleCreateRequest "Auditor" "auditor" ["M1", "M1", "M2"])
        ⟨10, 1700000000, "0A1B2C3D", "oid1"⟩).1.rolePermissions "ROLE17000000000A1B2C3D" =
          ["M1"] := by
  refine ⟨by decide, by decide, rfl, rfl⟩

/-- C19 (amended): starting from a state with unique role ids in which every
`role_permission` row belongs to a stored role and, for every stored role, the set of its
embedded `menu_ids` equals the set of menu ids of its `role_permission` rows, the same holds
after every sequence of `CreateRole`, `UpdateRole` and `DeleteRole` calls whose `menu_ids`
lists hold no id twice (empty and omitted lists included), whether the calls succeed or
not. -/
theorem grants_synced_preserved (st : RoleState) (ops : List RoleOp)
    (hnd : ∀ op ∈ ops, op.menuIDs.Nodup) (hids : UniqueRoleIDs st.roles)
    (hsync : GrantsSynced st) (hown : RowsOwned st) :
    GrantsSynced (runRoleOps st ops) ∧ RowsOwned (runRoleOps st ops) ∧
      UniqueRoleIDs (runRoleOps st ops).roles := by
  obtain ⟨h1, h2, h3⟩ := synced_runRoleOps ops st hnd hids hsync hown
  exact ⟨h2, h3, h1⟩

/-- Witness of `grants_synced_preserved`: the calls of `sampleRoleOps` on `sampleState`. -/
theorem grants_synced_preserved_witness :
    (runRoleOps sampleState sampleRoleOps).roles.map (fun r => (r.RoleID, r.MenuIDs)) =
        [("R2", ["M2", "M3"]), ("ROLE17000000000A1B2C3D", ["M1", "M2"])] ∧
      (runRoleOps sampleState sampleRoleOps).rolePermissions.map
          (fun rp => (rp.RoleID, rp.MenuID)) =
        [("ROLE17000000000A1B2C3D", "M1"), ("ROLE17000000000A1B2C3D", "M2"), ("R2", "M2"),
          ("R2", "M3")] ∧
      GrantsSynced (runRoleOps sampleState sampleRoleOps) :=
  ⟨rfl, rfl,
    (grants_synced_preserved sampleState sampleRoleOps (by decide) (by decide) (by decide)
      (by decide)).1⟩


/-! ## A role created, granted two menus and assigned to a user -/

theorem eq_singleton_of_nodup {α : Type} {l : List α} {x : α} (hnd : l.Nodup) (hx : x ∈ l)
    (hall : ∀ y ∈ l, y = x) : l = [x] := by
  cases l with
  | nil => exact absurd hx (List.not_mem_nil _)
  | cons a as =>
    have ha : a = x := hall a (List.mem_cons_self _ _)
    cases as with
    | nil => rw [ha]
    | cons b bs =>
      have hb : b = x := hall b (List.mem_cons_of_mem _ (List.mem_cons_self _ _))
      have hnot := (List.nodup_cons.1 hnd).1
      rw [ha, hb] at hnot
      exact absurd (List.mem_cons_self _ _) hnot

theorem buildUserMenuTree_single_root (srt : Sorter) (m : Menu) (hroot : m.ParentID = "")
    (hid : m.MenuID ≠ "") (fuel : Nat) (hfuel : 2 ≤ fuel) :
    buildUserMenuTree srt fuel [m] "" =
      some [UserMenuResponse.mk m.MenuID m.MenuName m.RoutePath m.Component m.Icon
        m.SortOrder []] := by
  apply buildUserMenuTree_mono_le srt [m] 2 fuel hfuel
  have hne : ¬ "" = m.MenuID := fun h => hid h.symm
  simp only [buildUserMenuTree, rangeChildren, hroot, hne, if_true, if_false, Option.map_some',
    Sorter.sort_nil]
  exact congrArg some (List.perm_singleton.1 (srt.perm _ _))

theorem CreateRole_ok {st st1 : RoleState} {req : RoleCreateRequest} {env : Env}
    {info : RoleInfo} (h : roleService.CreateRole st req env = (st1, .ok info))
    (hlen : 0 < req.MenuIDs.length) :
    req.MenuIDs.Nodup ∧ info.RoleID = GenerateID "ROLE" env.timestamp env.randomHex ∧
      (∀ r ∈ st.roles, r.RoleID ≠ GenerateID "ROLE" env.timestamp env.randomHex) ∧
      st1.roles = st.roles ++ [createdRole req env] ∧ st1.userRoles = st.userRoles ∧
      st1.rolePermissions =
        st.rolePermissions.filter (fun rp =>
          decide (rp.RoleID ≠ GenerateID "ROLE" env.timestamp env.randomHex)) ++
          grantRows (GenerateID "ROLE" env.timestamp env.randomHex) req.MenuIDs env.now := by
  have hsnd := congrArg Prod.snd h
  have hfst := congrArg Prod.fst h
  simp only at hsnd hfst
  by_cases hk : ∃ r ∈ st.roles, r.RoleKey = req.RoleKey
  · rw [CreateRole_key_used st req env hk] at hsnd; exact Except.noConfusion hsnd
  by_cases hn : ∃ r ∈ st.roles, r.CompanyID = req.CompanyID ∧ r.RoleName = req.RoleName
  · rw [CreateRole_name_used st req env hk hn] at hsnd; exact Except.noConfusion hsnd
  by_cases hid : ∃ r ∈ st.roles, r.RoleID = GenerateID "ROLE" env.timestamp env.randomHex
  · rw [CreateRole_id_used st req env hk hn hid] at hsnd; exact Except.noConfusion hsnd
  obtain ⟨hroles, husers, hrows⟩ := CreateRole_state st req env hk hn hid
  rw [hfst] at hroles husers hrows
  rw [if_pos hlen] at hrows
  rw [CreateRole_inserts st req env hk hn hid, if_pos hlen] at hsnd
  simp only at hsnd
  have hnd : req.MenuIDs.Nodup := by
    apply (AssignPermissionsToRole_ok_iff st.rolePermissions
      (GenerateID "ROLE" env.timestamp env.randomHex) req.MenuIDs env.now).1
    split at hsnd
    · exact Except.noConfusion hsnd
    · rename_i u heq
      rw [heq]
  refine ⟨hnd, ?_, fun r hr e => hid ⟨r, hr, e⟩, hroles, husers, ?_⟩
  · split at hsnd
    · exact Except.noConfusion hsnd
    · have := Except.ok.inj hsnd
      rw [← this]
      rfl
  · rw [hrows]
    exact AssignPermissionsToRole_fst hnd

/-- C12: role `R1` is created by `CreateRole` with status `enable` and `menu_ids = [M1, M2]`,
where `M1` is a stored root menu of type directory or menu, enabled and visible, and `M2` a
stored disabled menu (menu ids are unique and that of `M1` is not empty); user `U1` is then
assigned the single role `R1` by `AssignRolesToUser`. Then `GetUserPermissions(U1)` holds
each id once and exactly the ids of `M1` and `M2`, and `GetUserMenusByRoles([R1])` returns
(with fuel for two levels) the tree whose only node is `M1`, without children. -/
theorem created_role_scenario (srt : Sorter) (fuel : Nat) (menus : List Menu)
    (st st1 : RoleState) (req : RoleCreateRequest) (env : Env) (info : RoleInfo)
    (M1 M2 : Menu) (userID : String) (now : Nat) (userRoles : List UserRole)
    (hU : UniqueIDs menus) (hM1 : M1 ∈ menus) (hM2 : M2 ∈ menus)
    (hroot : M1.ParentID = "") (hid : M1.MenuID ≠ "")
    (htype : M1.MenuType = "directory" ∨ M1.MenuType = "menu")
    (hen : M1.Status = "enable") (hvis : M1.Visible = true) (hdis : M2.Status = "disable")
    (hstatus : req.Status = "enable") (hids : req.MenuIDs = [M1.MenuID, M2.MenuID])
    (hcreate : roleService.CreateRole st req env = (st1, .ok info))
    (hassign : rbacRepository.AssignRolesToUser st1.userRoles userID [info.RoleID] now =
      (userRoles, .ok ()))
    (hfuel : 2 ≤ fuel) :
    (rbacRepository.GetUserPermissions userRoles st1.rolePermissions userID).Nodup ∧
    (∀ m, m ∈ rbacRepository.GetUserPermissions userRoles st1.rolePermissions userID ↔
      m = M1.MenuID ∨ m = M2.MenuID) ∧
    menuService.GetUserMenusByRoles srt fuel menus st1.roles [info.RoleID] =
      some (.ok [UserMenuResponse.mk M1.MenuID M1.MenuName M1.RoutePath M1.Component M1.Icon
        M1.SortOrder []]) := by
  have hlen : 0 < req.MenuIDs.length := by rw [hids]; simp
  obtain ⟨_, hrid, hfresh, hroles, _, hrows⟩ := CreateRole_ok hcreate hlen
  have husers := AssignRolesToUser_ok hassign
  refine ⟨List.nodup_dedup _, ?_, ?_⟩
  · intro m
    rw [GetUserPermissions_mem, husers, hrows]
    have hself := GetRolePermissions_assigned_self st.rolePermissions
      (GenerateID "ROLE" env.timestamp env.randomHex) req.MenuIDs env.now m
    rw [GetRolePermissions_mem] at hself
    have hmem : m ∈ req.MenuIDs ↔ m = M1.MenuID ∨ m = M2.MenuID := by rw [hids]; simp
    constructor
    · rintro ⟨ur, hur, huid, rp, hrp, hrpid, hm⟩
      have hurid : ur.RoleID = GenerateID "ROLE" env.timestamp env.randomHex := by
        rcases List.mem_append.1 hur with h | h
        · have := (List.mem_filter.1 h).2
          simp [huid] at this
        · simp only [List.map_cons, List.map_nil, List.mem_singleton] at h
          rw [h]; exact hrid
      exact hmem.1 (hself.1 ⟨rp, hrp, hrpid.trans hurid, hm⟩)
    · intro hm
      obtain ⟨rp, hrp, hrpid, hmid⟩ := hself.2 (hmem.2 hm)
      refine ⟨⟨userID, info.RoleID, now, now⟩, List.mem_append_right _ (by simp), rfl, rp, hrp,
        ?_, hmid⟩
      rw [hrpid, hrid]
  · have hgranted : ∀ y : Menu, y.MenuID ∈
        menuRepository.GetMenuIDsByRoleIDs st1.roles [info.RoleID] →
        y.MenuID = M1.MenuID ∨ y.MenuID = M2.MenuID := by
      intro y hy
      obtain ⟨_, r, hr, hrin, _, hmem⟩ := (GetMenuIDsByRoleIDs_mem _ _ _).1 hy
      rw [hroles] at hr
      rw [List.mem_singleton, hrid] at hrin
      rcases List.mem_append.1 hr with h | h
      · exact absurd hrin (hfresh r h)
      · rw [List.mem_singleton] at h
        rw [h] at hmem
        have : y.MenuID ∈ [M1.MenuID, M2.MenuID] := by rw [← hids]; exact hmem
        simpa using this
    have hM1granted : M1.MenuID ∈
        menuRepository.GetMenuIDsByRoleIDs st1.roles [info.RoleID] := by
      refine (GetMenuIDsByRoleIDs_mem _ _ _).2 ⟨hid, createdRole req env, ?_, ?_, hstatus, ?_⟩
      · rw [hroles]; exact List.mem_append_right _ (List.mem_singleton.2 rfl)
      · rw [List.mem_singleton, hrid]; rfl
      · show M1.MenuID ∈ req.MenuIDs
        rw [hids]; exact List.mem_cons_self _ _
    have hbutton : M1.MenuType ≠ "button" := by
      rcases htype with h | h <;> rw [h] <;> decide
    have hvisible : menuService.visibleMenus (menuRepository.GetMenusByIDs.find menus
        (menuRepository.GetMenuIDsByRoleIDs st1.roles [info.RoleID])) = [M1] := by
      apply eq_singleton_of_nodup
      · exact List.Nodup.filter _ (List.Nodup.filter _ hU.nodup)
      · unfold menuService.visibleMenus menuRepository.GetMenusByIDs.find
        refine List.mem_filter.2 ⟨List.mem_filter.2 ⟨hM1, by simpa using hM1granted⟩, ?_⟩
        simp [hen, hvis, hbutton]
      · intro y hy
        have hv := visibleMenus_mem hy
        have hg := GetMenusByIDs_mem hv.1
        rcases hgranted y hg.2 with h | h
        · exact hU.eq_of_id hg.1 hM1 h
        · have hy2 : y = M2 := hU.eq_of_id hg.1 hM2 h
          rw [hy2, hdis] at hv
          exact absurd hv.2.1 (by decide)
    rw [GetUserMenusByRoles_slice (by simp) (List.ne_nil_of_mem hM1granted)]
    simp only [hvisible, buildUserMenuTree_single_root srt M1 hroot hid fuel hfuel,
      Option.map_some']


/-- Witness of `created_role_scenario`: on the empty state a role is created with the
`menu_ids` `[M1, M2]` of `scenarioMenus` and assigned to user `U1`. -/
theorem created_role_scenario_witness :
    rbacRepository.GetUserPermissions [⟨"U1", "ROLE17000000000A1B2C3D", 20, 20⟩]
        (roleService.CreateRole emptyState (roleCreateRequest "Auditor" "auditor" ["M1", "M2"])
          ⟨10, 1700000000, "0A1B2C3D", "oid1"⟩).1.rolePermissions "U1" = ["M1", "M2"] ∧
      menuService.GetUserMenusByRoles insertionSorter 2 scenarioMenus
        (roleService.CreateRole emptyState (roleCreateRequest "Auditor" "auditor" ["M1", "M2"])
          ⟨10, 1700000000, "0A1B2C3D", "oid1"⟩).1.roles ["ROLE17000000000A1B2C3D"] =
        some (.ok [UserMenuResponse.mk "M1" "M1" "" "" "" 1 []]) :=
  ⟨by decide,
    (created_role_scenario insertionSorter 2 scenarioMenus emptyState
      (roleService.CreateRole emptyState (roleCreateRequest "Auditor" "auditor" ["M1", "M2"])
        ⟨10, 1700000000, "0A1B2C3D", "oid1"⟩).1
      (roleCreateRequest "Auditor" "auditor" ["M1", "M2"])
      ⟨10, 1700000000, "0A1B2C3D", "oid1"⟩
      { ID := "", RoleID := "ROLE17000000000A1B2C3D", RoleName := "Auditor",
        RoleKey := "auditor", CompanyID := "C1", SortOrder := 1, DataScope := "all",
        MenuIDs := ["M1", "M2"], Status := "enable", Remark := "", CreatedAt := 10,
        UpdatedAt := 10 }
      (sampleMenu "M1" "" 1 "enable" true "menu" 1)
      (sampleMenu "M2" "" 2 "disable" true "menu" 2) "U1" 20
      [⟨"U1", "ROLE17000000000A1B2C3D", 20, 20⟩]
      (by decide) (by decide) (by decide) rfl (by decide) (Or.inr rfl) rfl rfl rfl rfl rfl
      rfl rfl (Nat.le_refl 2)).2.2⟩


/-! ## Sibling names under `UpdateMenu` -/

/-- C17, failing inputs: in `clashMenus` no two menus with the same parent share a name.
`UpdateMenu("B", parent_id = "P1")` with no new name succeeds although `A` under `P1` is
already named `X`: the name check runs only when the name changes. `UpdateMenu("A",
parent_id = "", menu_name = "P2")` succeeds although the root `P2` carries that name: the
name is checked under the old parent `P1` when the new parent is the root. Both stores then
hold two siblings with the same name. -/
theorem UpdateMenu_sibling_name_clash :
    UniqueSiblingNames clashMenus ∧
    (menuService.UpdateMenu insertionSorter 2 clashMenus "B" (reparentRequest "P1") 30).map
        (fun r => (r.1.map (fun m => (m.MenuID, m.ParentID, m.MenuName)), r.2.toBool)) =
      some ([("P1", "", "P1"), ("P2", "", "P2"), ("A", "P1", "X"), ("B", "P1", "X")], true) ∧
    (menuService.UpdateMenu insertionSorter 2 clashMenus "B" (reparentRequest "P1") 30).map
        (fun r => decide (UniqueSiblingNames r.1)) = some false ∧
    (menuService.UpdateMenu insertionSorter 2 clashMenus "A"
        { reparentRequest "" with MenuName := "P2" } 30).map
        (fun r => (r.1.map (fun m => (m.MenuID, m.ParentID, m.MenuName)), r.2.toBool)) =
      some ([("P1", "", "P1"), ("P2", "", "P2"), ("A", "", "P2"), ("B", "P2", "X")], true) ∧
    (menuService.UpdateMenu insertionSorter 2 clashMenus "A"
        { reparentRequest "" with MenuName := "P2" } 30).map
        (fun r => decide (UniqueSiblingNames r.1)) = some false := by
  refine ⟨by decide, rfl, rfl, rfl, rfl⟩


/-! ## Empty inputs of the navigation entry points -/

/-- C24: for every store state (and whatever the recursion depth allowed), the empty list of
role ids makes `GetUserMenusByRoles` return the empty tree and no error; likewise
`GetUserMenus` for the empty list of menu ids, and `GetMenuIDsByRoleIDs` returns the empty
list for the empty list of role ids. -/
theorem empty_ids_empty_tree (srt : Sorter) (fuel : Nat) (menus : List Menu)
    (roles : List Role) :
    menuService.GetUserMenusByRoles srt fuel menus roles [] = some (.ok []) ∧
    menuService.GetUserMenus srt fuel menus [] = some (.ok []) ∧
    menuRepository.GetMenuIDsByRoleIDs roles [] = [] := by
  refine ⟨?_, ?_, ?_⟩
  · unfold menuService.GetUserMenusByRoles
    exact if_pos List.length_nil
  · unfold menuService.GetUserMenus
    exact if_pos List.length_nil
  · unfold menuRepository.GetMenuIDsByRoleIDs
    exact if_pos List.length_nil

/-! ## Termination of the tree builders -/

theorem buildMenuTree_returns (srt : Sorter) {menus : List Menu} {height : String → Nat}
    (hA : ∀ m ∈ menus, height m.MenuID < height m.ParentID) :
    ∀ (fuel : Nat) (pid : String), height pid < fuel →
      (buildMenuTree srt fuel menus pid).isSome = true := by
  intro fuel
  induction fuel with
  | zero => intro pid h; omega
  | succ k ih =>
    intro pid hpid
    rw [buildMenuTree_of_isSome srt k menus pid]
    · rfl
    · intro m hm hp
      have := hA m hm
      rw [hp] at this
      exact ih m.MenuID (by omega)

theorem buildUserMenuTree_returns (srt : Sorter) {menus : List Menu} {height : String → Nat}
    (hA : ∀ m ∈ menus, height m.MenuID < height m.ParentID) :
    ∀ (fuel : Nat) (pid : String), height pid < fuel →
      (buildUserMenuTree srt fuel menus pid).isSome = true := by
  intro fuel
  induction fuel with
  | zero => intro pid h; omega
  | succ k ih =>
    intro pid hpid
    rw [buildUserMenuTree_of_isSome srt k menus pid]
    · rfl
    · intro m hm hp
      have := hA m hm
      rw [hp] at this
      exact ih m.MenuID (by omega)

/-- C25: for every finite node list with acyclic parent links (pairwise-distinct ids are not
even needed) and every parent id `p`, the recursions `buildMenuTree(nodes, p)` and
`buildUserMenuTree(nodes, p)` terminate: there is a recursion depth within which both return
a tree, and with any larger depth they return the same trees. -/
theorem buildTrees_terminate (srt : Sorter) (nodes : List Menu) (hA : AcyclicLinks nodes)
    (p : String) :
    ∃ (fuel : Nat) (tree : List MenuInfo) (userTree : List UserMenuResponse),
      ∀ k, fuel ≤ k →
        buildMenuTree srt k nodes p = some tree ∧
        buildUserMenuTree srt k nodes p = some userTree := by
  obtain ⟨height, hA⟩ := hA
  have h1 := buildMenuTree_returns srt hA (height p + 1) p (by omega)
  have h2 := buildUserMenuTree_returns srt hA (height p + 1) p (by omega)
  obtain ⟨t, ht⟩ := Option.isSome_iff_exists.1 h1
  obtain ⟨u, hu⟩ := Option.isSome_iff_exists.1 h2
  exact ⟨height p + 1, t, u, fun k hk =>
    ⟨buildMenuTree_mono_le srt nodes _ k hk p t ht,
      buildUserMenuTree_mono_le srt nodes _ k hk p u hu⟩⟩

/-- Witness of `buildTrees_terminate` on `sampleMenus` from the parent `sys`. -/
theorem buildTrees_terminate_witness :
    (buildMenuTree insertionSorter 3 sampleMenus "sys").isSome = true ∧
      (buildUserMenuTree insertionSorter 3 sampleMenus "sys").isSome = true ∧
      ∃ (fuel : Nat) (tree : List MenuInfo) (userTree : List UserMenuResponse),
        ∀ k, fuel ≤ k →
          buildMenuTree insertionSorter k sampleMenus "sys" = some tree ∧
          buildUserMenuTree insertionSorter k sampleMenus "sys" = some userTree :=
  ⟨rfl, rfl, buildTrees_terminate insertionSorter sampleMenus sampleMenus_acyclic "sys"⟩


/-! ## The nodes `buildMenuTree` reaches from the root -/

theorem rangeChildren_filter {β : Type} (rec1 rec2 : String → Option (List β))
    (node : Menu → List β → β) (pid : String) (P : Menu → Bool) :
    ∀ menus : List Menu,
      (∀ m ∈ menus, m.ParentID = pid → P m = true ∧ rec1 m.MenuID = rec2 m.MenuID) →
      rangeChildren rec1 node pid menus = rangeChildren rec2 node pid (menus.filter P) := by
  intro menus
  induction menus with
  | nil => intro _; rfl
  | cons m rest ih =>
    intro h
    have hrest := ih (fun x hx => h x (List.mem_cons_of_mem _ hx))
    by_cases hp : m.ParentID = pid
    · obtain ⟨hP, hrec⟩ := h m (List.mem_cons_self _ _) hp
      rw [List.filter_cons_of_pos hP]
      simp only [rangeChildren, hp, if_true, hrec, hrest]
    · by_cases hP : P m = true
      · rw [List.filter_cons_of_pos hP]
        simp only [rangeChildren, hp, if_false, hrest]
      · rw [List.filter_cons_of_neg hP]
        simp only [rangeChildren, hp, if_false, hrest]

theorem mem_rooted_filter {menus : List Menu} {m : Menu} :
    m ∈ menus.filter (fun m => reachesRoot menus menus.length m.ParentID) ↔
      m ∈ menus ∧ ∃ n, Rooted menus n m.ParentID := by
  rw [List.mem_filter]
  constructor
  · rintro ⟨hm, hr⟩
    obtain ⟨n, _, hn⟩ := rooted_of_reachesRoot _ _ hr
    exact ⟨hm, n, hn⟩
  · rintro ⟨hm, n, hn⟩
    exact ⟨hm, reachesRoot_mono_le hn.le_length _ (reachesRoot_of_rooted hn)⟩

theorem Rooted.child {menus : List Menu} (hU : UniqueIDs menus) (hN : NonEmptyIDs menus)
    {m : Menu} (hm : m ∈ menus) {n : Nat} (h : Rooted menus n m.ParentID) :
    Rooted menus (n + 1) m.MenuID :=
  Rooted.step (hN m hm) (find_of_unique hU hm) h

theorem buildMenuTree_rooted_filter (srt : Sorter) {menus : List Menu} (hU : UniqueIDs menus)
    (hN : NonEmptyIDs menus) :
    ∀ (fuel : Nat) (pid : String), (∃ n, Rooted menus n pid) →
      buildMenuTree srt fuel menus pid =
        buildMenuTree srt fuel
          (menus.filter (fun m => reachesRoot menus menus.length m.ParentID)) pid := by
  intro fuel
  induction fuel with
  | zero => intro pid _; rfl
  | succ k ih =>
    intro pid hpid
    obtain ⟨n, hn⟩ := hpid
    simp only [buildMenuTree]
    congr 1
    apply rangeChildren_filter
    intro m hm hp
    have hroot : Rooted menus n m.ParentID := by rw [hp]; exact hn
    refine ⟨reachesRoot_mono_le hroot.le_length _ (reachesRoot_of_rooted hroot), ?_⟩
    exact ih m.MenuID ⟨n + 1, Rooted.child hU hN hm hroot⟩

theorem rooted_filter_spec (srt : Sorter) {menus : List Menu} (hU : UniqueIDs menus)
    (hN : NonEmptyIDs menus) :
    ∃ t, buildMenuTree srt (menus.length + 2)
        (menus.filter (fun m => reachesRoot menus menus.length m.ParentID)) "" = some t ∧
      ∀ x, x ∈ MenuInfo.flatList t ↔
        x ∈ menus.filter (fun m => reachesRoot menus menus.length m.ParentID) := by
  classical
  have hUR : UniqueIDs (menus.filter (fun m => reachesRoot menus menus.length m.ParentID)) :=
    List.Nodup.sublist ((List.filter_sublist _).map _) hU
  obtain ⟨depth, hdepth⟩ : ∃ depth : String → Nat, ∀ id n, Rooted menus n id → depth id = n := by
    refine ⟨fun id => if h : ∃ n, Rooted menus n id then Classical.choose h else 0, ?_⟩
    intro id n hn
    have hex : ∃ n, Rooted menus n id := ⟨n, hn⟩
    simp only [dif_pos hex]
    exact (Classical.choose_spec hex).functional hn
  have hA : ∀ m ∈ menus.filter (fun m => reachesRoot menus menus.length m.ParentID),
      menus.length + 1 - depth m.MenuID < menus.length + 1 - depth m.ParentID := by
    intro m hm
    obtain ⟨hmem, n, hn⟩ := mem_rooted_filter.1 hm
    have hchild := Rooted.child hU hN hmem hn
    have hle := hchild.le_length
    rw [hdepth _ _ hn, hdepth _ _ hchild]
    omega
  have hC : ParentsPresent
      (menus.filter (fun m => reachesRoot menus menus.length m.ParentID)) := by
    intro m hm
    obtain ⟨_, n, hn⟩ := mem_rooted_filter.1 hm
    by_cases h0 : m.ParentID = ""
    · exact Or.inl h0
    · right
      obtain ⟨k, p, _, hf, hk⟩ := hn.inv h0
      have hp : p ∈ menus := List.mem_of_find?_eq_some hf
      exact ⟨p, mem_rooted_filter.2 ⟨hp, k, hk⟩, by simpa using List.find?_some hf⟩
  obtain ⟨t, ht, hmem, _⟩ := @buildMenuTree_spec srt _ hUR
    (fun id => menus.length + 1 - depth id) hA (menus.length + 2) "" (by
      have h0 := hdepth "" 0 Rooted.root
      show menus.length + 1 - depth "" < menus.length + 2
      omega)
  refine ⟨t, ht, ?_⟩
  intro x
  rw [hmem x]
  exact ⟨fun h => h.1, fun h => ⟨h, @under_root_of_parentsPresent _
    (fun id => menus.length + 1 - depth id) hA hC x h⟩⟩

theorem buildMenuTree_rooted (srt : Sorter) {menus : List Menu} (hU : UniqueIDs menus)
    (hN : NonEmptyIDs menus) :
    ∃ t, (∀ k, menus.length + 2 ≤ k → buildMenuTree srt k menus "" = some t) ∧
      ∀ x, x ∈ MenuInfo.flatList t ↔ x ∈ menus ∧ ∃ n, Rooted menus n x.ParentID := by
  obtain ⟨t, ht, hmem⟩ := rooted_filter_spec srt hU hN
  have ht' : buildMenuTree srt (menus.length + 2) menus "" = some t := by
    rw [buildMenuTree_rooted_filter srt hU hN _ "" ⟨0, Rooted.root⟩]
    exact ht
  refine ⟨t, fun k hk => buildMenuTree_mono_le srt menus _ k hk "" t ht', ?_⟩
  intro x
  rw [hmem x]
  exact mem_rooted_filter

theorem GetMenuList_found (dbs : Sorter) (menus : List Menu) (filter : Menu → Bool)
    (hU : UniqueIDs menus) (hN : NonEmptyIDs menus) :
    UniqueIDs (menuRepository.GetMenuList dbs menus filter) ∧
      NonEmptyIDs (menuRepository.GetMenuList dbs menus filter) ∧
      (menuRepository.GetMenuList dbs menus filter).length = (menus.filter filter).length := by
  have hperm := dbs.perm (fun a b : Menu =>
      decide (a.ParentID.data < b.ParentID.data) ||
        (decide (a.ParentID = b.ParentID) &&
          (decide (a.SortOrder < b.SortOrder) ||
            (decide (a.SortOrder = b.SortOrder) && decide (a.CreatedAt < b.CreatedAt)))))
    (menus.filter filter)
  refine ⟨?_, ?_, hperm.length_eq⟩
  · unfold UniqueIDs menuRepository.GetMenuList
    exact ((hperm.map _).nodup_iff).2 (List.Nodup.sublist ((List.filter_sublist _).map _) hU)
  · intro m hm
    exact hN m (List.mem_filter.1 (hperm.subset hm)).1

/-- C30: for every node list with pairwise-distinct, non-empty menu ids (the repository
generates the id of every stored menu), `buildMenuTree(nodes, "")` returns, and a node of the
list appears in the returned tree if and only if following its `parent_id` links through
nodes of the list reaches an empty `parent_id`; nothing else appears. Consequently, for every
store and query, a menu found by `GetMenuList` whose parent or some ancestor is not among the
menus found is absent from the returned tree, while `Total` is the number of menus found and
so counts it. -/
theorem buildMenuTree_reachable_nodes (srt : Sorter) (nodes : List Menu) (hU : UniqueIDs nodes)
    (hN : NonEmptyIDs nodes) :
    (∃ (fuel : Nat) (tree : List MenuInfo),
      (∀ k, fuel ≤ k → buildMenuTree srt k nodes "" = some tree) ∧
      (∀ x ∈ nodes, x ∈ MenuInfo.flatList tree ↔ ∃ n, Rooted nodes n x.ParentID) ∧
      (∀ x ∈ MenuInfo.flatList tree, x ∈ nodes)) ∧
    (∀ (dbs : Sorter) (regexMatch : String → String → Bool) (req : MenuQueryRequest),
      ∃ (fuel : Nat) (resp : MenuListResponse),
        (∀ k, fuel ≤ k →
          menuService.GetMenuList srt dbs regexMatch k nodes req = some (.ok resp)) ∧
        resp.Total = (nodes.filter (menuService.GetMenuList.filter regexMatch req)).length ∧
        ∀ x ∈ menuRepository.GetMenuList dbs nodes
            (menuService.GetMenuList.filter regexMatch req),
          (¬ ∃ n, Rooted (menuRepository.GetMenuList dbs nodes
            (menuService.GetMenuList.filter regexMatch req)) n x.ParentID) →
          x ∉ MenuInfo.flatList resp.Menus) := by
  constructor
  · obtain ⟨t, ht, hmem⟩ := buildMenuTree_rooted srt hU hN
    exact ⟨nodes.length + 2, t, ht, fun x hx => by rw [hmem x]; exact and_iff_right hx,
      fun x hx => ((hmem x).1 hx).1⟩
  · intro dbs regexMatch req
    obtain ⟨hU', hN', hlen⟩ := GetMenuList_found dbs nodes
      (menuService.GetMenuList.filter regexMatch req) hU hN
    obtain ⟨t, ht, hmem⟩ := buildMenuTree_rooted srt hU' hN'
    refine ⟨(menuRepository.GetMenuList dbs nodes
        (menuService.GetMenuList.filter regexMatch req)).length + 2,
      { Menus := t, Total := (menuRepository.GetMenuList dbs nodes
        (menuService.GetMenuList.filter regexMatch req)).length }, ?_, hlen, ?_⟩
    · intro k hk
      simp only [menuService.GetMenuList, ht k hk, Option.map_some']
    · intro x _ hno hx
      exact hno ((hmem x).1 hx).2

/-- Witness of `buildMenuTree_reachable_nodes`: the query for the enabled menus of `navMenus`
finds five menus; `audit` and `trail`, below the disabled `admin`, are counted in `Total` and
are not in the tree. -/
theorem buildMenuTree_reachable_nodes_witness :
    (menuService.GetMenuList insertionSorter insertionSorter (fun _ _ => true) 3 navMenus
        enabledQuery).map (fun r => r.map
          (fun resp => (resp.Total, (MenuInfo.flatList resp.Menus).map (fun m => m.MenuID)))) =
      some (.ok (5, ["home", "home:add", "secret"])) ∧
    ∃ (fuel : Nat) (tree : List MenuInfo),
      (∀ k, fuel ≤ k → buildMenuTree insertionSorter k navMenus "" = some tree) ∧
      (∀ x ∈ navMenus, x ∈ MenuInfo.flatList tree ↔ ∃ n, Rooted navMenus n x.ParentID) ∧
      (∀ x ∈ MenuInfo.flatList tree, x ∈ navMenus) :=
  ⟨rfl, (buildMenuTree_reachable_nodes insertionSorter navMenus navMenus_unique
    (by decide)).1⟩


/-! ## Password strength -/

theorem exists_tail_cons {α : Type} (l : List α) (c : α) :
    c ∈ l ↔ ∃ t, c :: t ∈ l.tails := by
  induction l with
  | nil => simp
  | cons x xs ih =>
    rw [List.tails_cons, List.mem_cons, ih]
    constructor
    · rintro (rfl | ⟨t, ht⟩)
      · exact ⟨xs, List.mem_cons_self _ _⟩
      · exact ⟨t, List.mem_cons_of_mem _ ht⟩
    · rintro ⟨t, ht⟩
      rcases List.mem_cons.1 ht with h | h
      · left; exact (List.cons.inj h).1
      · right; exact ⟨t, h⟩

theorem MatchString_class (negated : Bool) (ranges : List (Char × Char)) (s : String) :
    (Regexp.cls negated ranges).MatchString s = true ↔
      ∃ c ∈ s.data,
        ((ranges.any (fun r => decide (r.1 ≤ c) && decide (c ≤ r.2))) != negated) = true := by
  unfold Regexp.MatchString
  rw [List.any_eq_true]
  constructor
  · rintro ⟨t, ht, hm⟩
    cases t with
    | nil => simp [Regexp.matchPrefix] at hm
    | cons c rest =>
      exact ⟨c, (exists_tail_cons _ _).2 ⟨rest, ht⟩, by simpa [Regexp.matchPrefix] using hm⟩
  · rintro ⟨c, hc, hm⟩
    obtain ⟨t, ht⟩ := (exists_tail_cons _ _).1 hc
    exact ⟨c :: t, ht, by simpa [Regexp.matchPrefix] using hm⟩

theorem MatchString_alt (a b : Regexp) (s : String) :
    (Regexp.alt a b).MatchString s = true ↔
      a.MatchString s = true ∨ b.MatchString s = true := by
  unfold Regexp.MatchString
  simp only [List.any_eq_true, Regexp.matchPrefix, Bool.or_eq_true]
  constructor
  · rintro ⟨t, ht, h | h⟩
    · exact Or.inl ⟨t, ht, h⟩
    · exact Or.inr ⟨t, ht, h⟩
  · rintro (⟨t, ht, h⟩ | ⟨t, ht, h⟩)
    · exact ⟨t, ht, Or.inl h⟩
    · exact ⟨t, ht, Or.inr h⟩

/-- C29: for every string `p`, `ValidatePassword(p)` returns true if and only if `p` is at
least 8 bytes long and contains a digit `0`-`9`, a lowercase letter `a`-`z`, and a character
that is an uppercase letter `A`-`Z` or is not an ASCII letter or digit. -/
theorem ValidatePassword_iff (p : String) :
    ValidatePassword p = true ↔
      8 ≤ p.utf8ByteSize ∧
      (∃ c ∈ p.data, '0' ≤ c ∧ c ≤ '9') ∧
      (∃ c ∈ p.data, 'a' ≤ c ∧ c ≤ 'z') ∧
      (∃ c ∈ p.data, ('A' ≤ c ∧ c ≤ 'Z') ∨
        ¬ (('a' ≤ c ∧ c ≤ 'z') ∨ ('A' ≤ c ∧ c ≤ 'Z') ∨ ('0' ≤ c ∧ c ≤ '9'))) := by
  have hnum : reNumber.MatchString p = true ↔ ∃ c ∈ p.data, '0' ≤ c ∧ c ≤ '9' := by
    unfold reNumber
    rw [MatchString_class]
    simp
  have hlow : reLower.MatchString p = true ↔ ∃ c ∈ p.data, 'a' ≤ c ∧ c ≤ 'z' := by
    unfold reLower
    rw [MatchString_class]
    simp
  have hup : reUpperOrSpecial.MatchString p = true ↔
      ∃ c ∈ p.data, ('A' ≤ c ∧ c ≤ 'Z') ∨
        ¬ (('a' ≤ c ∧ c ≤ 'z') ∨ ('A' ≤ c ∧ c ≤ 'Z') ∨ ('0' ≤ c ∧ c ≤ '9')) := by
    unfold reUpperOrSpecial
    rw [MatchString_alt, MatchString_class, MatchString_class]
    constructor
    · rintro (⟨c, hc, h⟩ | ⟨c, hc, h⟩)
      · exact ⟨c, hc, Or.inl (by simpa using h)⟩
      · refine ⟨c, hc, Or.inr ?_⟩
        intro hcls
        have : ([('a', 'z'), ('A', 'Z'), ('0', '9')].any
            (fun r => decide (r.1 ≤ c) && decide (c ≤ r.2))) = true := by
          simpa using hcls
        rw [this] at h
        exact Bool.noConfusion h
    · rintro ⟨c, hc, h | h⟩
      · exact Or.inl ⟨c, hc, by simpa using h⟩
      · refine Or.inr ⟨c, hc, ?_⟩
        have : ([('a', 'z'), ('A', 'Z'), ('0', '9')].any
            (fun r => decide (r.1 ≤ c) && decide (c ≤ r.2))) = false := by
          rw [Bool.eq_false_iff]
          intro hany
          exact h (by simpa using hany)
        rw [this]
        rfl
  unfold ValidatePassword
  by_cases hlen : p.utf8ByteSize < 8
  · rw [if_pos hlen]
    constructor
    · intro h; exact Bool.noConfusion h
    · rintro ⟨h8, _⟩; omega
  · rw [if_neg hlen]
    simp only [Bool.and_eq_true, hnum, hlow, hup]
    constructor
    · rintro ⟨⟨h1, h2⟩, h3⟩
      exact ⟨by omega, h1, h2, h3⟩
    · rintro ⟨_, h1, h2, h3⟩
      exact ⟨⟨h1, h2⟩, h3⟩


/-! ## Status codes of the handlers -/

theorem GetRoleByID_missing {roles : List Role} {roleID : String}
    (h : ∀ r ∈ roles, r.RoleID ≠ roleID) :
    roleRepository.GetRoleByID roles roleID = .error "角色不存在" := by
  have hfind : roles.find? (fun r => decide (r.RoleID = roleID)) = none :=
    List.find?_eq_none.2 (fun r hr => by simpa using h r hr)
  simp only [roleRepository.GetRoleByID, hfind]

theorem GetMenuByID_missing {menus : List Menu} {menuID : String}
    (h : ∀ m ∈ menus, m.MenuID ≠ menuID) :
    menuRepository.GetMenuByID menus menuID = .error "菜单不存在" := by
  have hfind : menus.find? (fun m => decide (m.MenuID = menuID)) = none :=
    List.find?_eq_none.2 (fun m hm => by simpa using h m hm)
  simp only [menuRepository.GetMenuByID, hfind]

/-- C22, divergence: for every state and every non-empty id that no stored role carries, the
role handlers `GetRoleByID`, `UpdateRole` (with a body that binds) and `DeleteRole` respond
with status 500: the service wraps the repository error, and the handlers compare the
message with the unwrapped text. For an id that no stored menu carries the menu handlers
`GetMenuByID`, `UpdateMenu` and `DeleteMenu` respond with status 404. -/
theorem missing_id_status (st : RoleState) (menus : List Menu) (id : String) (hid : id ≠ "")
    (hrole : ∀ r ∈ st.roles, r.RoleID ≠ id) (hmenu : ∀ m ∈ menus, m.MenuID ≠ id) :
    (roleController.GetRoleByID st id).Status = 500 ∧
    (∀ (req : RoleUpdateRequest) (now : Nat),
      (roleController.UpdateRole st id (.ok req) now).2.Status = 500) ∧
    (roleController.DeleteRole st id).2.Status = 500 ∧
    (menuController.GetMenuByID menus id).Status = 404 ∧
    (∀ (dbs : Sorter) (fuel : Nat) (req : MenuUpdateRequest) (now : Nat),
      (menuController.UpdateMenu dbs fuel menus id (.ok req) now).map (fun r => r.2.Status) =
        some 404) ∧
    (menuController.DeleteMenu menus id).2.Status = 404 := by
  have h1 : ("获取角色失败: " ++ "角色不存在" : String) ≠ "角色不存在" := by decide
  have h2 : ("角色不存在: " ++ "角色不存在" : String) ≠ "角色不存在" := by decide
  refine ⟨?_, ?_, ?_, ?_, ?_, ?_⟩
  · simp only [roleController.GetRoleByID, if_neg hid, roleService.GetRoleByID,
      GetRoleByID_missing hrole, if_neg h1]
    rfl
  · intro req now
    simp only [roleController.UpdateRole, if_neg hid, roleService.UpdateRole,
      GetRoleByID_missing hrole, if_neg h2]
    rfl
  · simp only [roleController.DeleteRole, if_neg hid, DeleteRole_missing st id hrole,
      if_neg h2]
    rfl
  · simp only [menuController.GetMenuByID, if_neg hid, menuService.GetMenuByID,
      GetMenuByID_missing hmenu, if_true]
    rfl
  · intro dbs fuel req now
    simp only [menuController.UpdateMenu, if_neg hid, menuService.UpdateMenu,
      GetMenuByID_missing hmenu, if_true]
    rfl
  · simp only [menuController.DeleteMenu, if_neg hid, menuService.DeleteMenu,
      GetMenuByID_missing hmenu, if_true]
    rfl

/-- Witness of `missing_id_status`: the id `R9` is neither a role of `sampleState` nor a menu
of `sampleMenus`. -/
theorem missing_id_status_witness :
    roleController.GetRoleByID sampleState "R9" =
        .failure 500 "获取角色信息失败: 获取角色失败: 角色不存在" ∧
      (roleController.GetRoleByID sampleState "R9").Status = 500 ∧
      (menuController.GetMenuByID sampleMenus "R9").Status = 404 :=
  ⟨rfl,
    (missing_id_status sampleState sampleMenus "R9" (by decide) (by decide) (by decide)).1,
    (missing_id_status sampleState sampleMenus "R9" (by decide) (by decide)
      (by decide)).2.2.2.1⟩

/-- C23, divergence: every error of `menuService.CreateMenu` and of `roleService.CreateRole`,
and every error of `UpdateMenu`, `DeleteMenu` and `UpdateRole` other than the not-found
message, is answered with status 500, validation failures included. On the sample data a
sibling of the same name, a used permission code, a used role key, a used role name, a menu
made its own parent or the child of its descendant, and the deletion of a menu that has
children all get status 500. -/
theorem validation_failure_status :
    (∀ (menus : List Menu) (req : MenuCreateRequest) (env : Env) (err : String),
      (menuService.CreateMenu menus req env).2 = .error err →
      (menuController.CreateMenu menus (.ok req) env).2.Status = 500) ∧
    (∀ (st : RoleState) (req : RoleCreateRequest) (env : Env) (err : String),
      (roleService.CreateRole st req env).2 = .error err →
      (roleController.CreateRole st (.ok req) env).2.Status = 500) ∧
    (∀ (dbs : Sorter) (fuel : Nat) (menus : List Menu) (menuID : String)
      (req : MenuUpdateRequest) (now : Nat) (r : List Menu) (err : String),
      menuID ≠ "" → err ≠ "菜单不存在" →
      menuService.UpdateMenu dbs fuel menus menuID req now = some (r, .error err) →
      (menuController.UpdateMenu dbs fuel menus menuID (.ok req) now).map
        (fun r => r.2.Status) = some 500) ∧
    (∀ (menus : List Menu) (menuID : String) (err : String),
      menuID ≠ "" → err ≠ "菜单不存在" →
      (menuService.DeleteMenu menus menuID).2 = .error err →
      (menuController.DeleteMenu menus menuID).2.Status = 500) ∧
    (menuController.CreateMenu sampleMenus (.ok (createRequest "sys" "roles"))
        ⟨10, 1700000000, "0A1B2C3D", "oid1"⟩).2 =
      .failure 500 "创建菜单失败: 同一层级下菜单名称已存在" ∧
    (menuController.CreateMenu disabledCodeMenus
        (.ok { createRequest "" "other" with PermissionCode := "user:add" })
        ⟨10, 1700000000, "0A1B2C3D", "oid1"⟩).2 =
      .failure 500 "创建菜单失败: 权限标识符已存在" ∧
    (roleController.CreateRole sampleState (.ok (roleCreateRequest "Other" "R1" []))
        ⟨10, 1700000000, "0A1B2C3D", "oid1"⟩).2 =
      .failure 500 "创建角色失败: 角色标识符 R1 已存在" ∧
    (roleController.CreateRole sampleState
        (.ok { roleCreateRequest "R1" "other" [] with CompanyID := "" })
        ⟨10, 1700000000, "0A1B2C3D", "oid1"⟩).2 =
      .failure 500 "创建角色失败: 角色名称 R1 已存在" ∧
    (menuController.UpdateMenu insertionSorter 3 sampleMenus "sys"
        (.ok (reparentRequest "sys")) 11).map (fun r => r.2) =
      some (.failure 500 "更新菜单失败: 不能将菜单设置为自己的父菜单") ∧
    (menuController.UpdateMenu insertionSorter 3 sampleMenus "sys"
        (.ok (reparentRequest "roles:add")) 11).map (fun r => r.2) =
      some (.failure 500 "更新菜单失败: 不能将菜单设置为其子菜单的父菜单") ∧
    (menuController.DeleteMenu sampleMenus "sys").2 =
      .failure 500 "删除菜单失败: 该菜单下还有子菜单，请先删除子菜单" := by
  refine ⟨?_, ?_, ?_, ?_, rfl, rfl, rfl, rfl, rfl, rfl, rfl⟩
  · intro menus req env err h
    simp only [menuController.CreateMenu]
    split
    · rfl
    · rename_i heq
      rw [heq] at h
      exact Except.noConfusion h
  · intro st req env err h
    simp only [roleController.CreateRole]
    split
    · rfl
    · rename_i heq
      rw [heq] at h
      exact Except.noConfusion h
  · intro dbs fuel menus menuID req now r err hid herr h
    simp only [menuController.UpdateMenu, if_neg hid, h, if_neg herr, Option.map_some']
    rfl
  · intro menus menuID err hid herr h
    simp only [menuController.DeleteMenu, if_neg hid]
    split
    · rename_i heq
      rw [heq] at h
      simp only [Except.error.injEq] at h
      rw [h, if_neg herr]
      rfl
    · rename_i heq
      rw [heq] at h
      exact Except.noConfusion h

/-- C28, divergence: the body `statuslessRoleRequest` passes the binding validation and has
no `status`; `CreateRole` answers 200 and stores the role with the empty status, which is
neither `enable` nor `disable`. For every state and request, the role a successful
`CreateRole` stores carries the status of the request as it is. -/
theorem CreateRole_stores_request_status :
    statuslessRoleRequest.bindingOK = true ∧
    (roleController.CreateRole emptyState (.ok statuslessRoleRequest)
        ⟨10, 1700000000, "0A1B2C3D", "oid1"⟩).2.Status = 200 ∧
    (roleController.CreateRole emptyState (.ok statuslessRoleRequest)
        ⟨10, 1700000000, "0A1B2C3D", "oid1"⟩).1.roles.map
          (fun r => (r.RoleID, r.Status)) = [("ROLE17000000000A1B2C3D", "")] ∧
    (∀ (st st1 : RoleState) (req : RoleCreateRequest) (env : Env) (info : RoleInfo),
      roleService.CreateRole st req env = (st1, .ok info) →
      ∃ r, st1.roles = st.roles ++ [r] ∧ r.Status = req.Status) := by
  refine ⟨by decide, rfl, rfl, ?_⟩
  intro st st1 req env info h
  have hfst : (roleService.CreateRole st req env).1 = st1 := by rw [h]
  have hsnd : (roleService.CreateRole st req env).2 = .ok info := by rw [h]
  by_cases hk : ∃ r ∈ st.roles, r.RoleKey = req.RoleKey
  · rw [CreateRole_key_used st req env hk] at hsnd; exact Except.noConfusion hsnd
  by_cases hn : ∃ r ∈ st.roles, r.CompanyID = req.CompanyID ∧ r.RoleName = req.RoleName
  · rw [CreateRole_name_used st req env hk hn] at hsnd; exact Except.noConfusion hsnd
  by_cases hid : ∃ r ∈ st.roles, r.RoleID = GenerateID "ROLE" env.timestamp env.randomHex
  · rw [CreateRole_id_used st req env hk hn hid] at hsnd; exact Except.noConfusion hsnd
  exact ⟨createdRole req env, by rw [← hfst]; exact (CreateRole_state st req env hk hn hid).1,
    rfl⟩


/-! ## Role lists -/

theorem wrapInt64_id {x : Int} (h0 : -(2 ^ 63) ≤ x) (h1 : x < 2 ^ 63) : wrapInt64 x = x := by
  unfold wrapInt64
  norm_num at h0 h1 ⊢
  omega

theorem repository_GetRoleList_ok (dbs : Sorter) (roles : List Role) (filter : Role → Bool)
    (page pageSize : Int) (h0 : 0 ≤ (page - 1) * pageSize)
    (h1 : (page - 1) * pageSize < 2 ^ 63) :
    roleRepository.GetRoleList dbs roles filter page pageSize =
      .ok ((if pageSize = 0 then
          (dbs.sort (fun a b =>
            decide (a.SortOrder < b.SortOrder) ||
              (decide (a.SortOrder = b.SortOrder) && decide (b.CreatedAt < a.CreatedAt)))
            (roles.filter filter)).drop ((page - 1) * pageSize).toNat
        else
          ((dbs.sort (fun a b =>
            decide (a.SortOrder < b.SortOrder) ||
              (decide (a.SortOrder = b.SortOrder) && decide (b.CreatedAt < a.CreatedAt)))
            (roles.filter filter)).drop ((page - 1) * pageSize).toNat).take pageSize.natAbs),
        ((roles.filter filter).length : Int)) := by
  have hw : wrapInt64 ((page - 1) * pageSize) = (page - 1) * pageSize :=
    wrapInt64_id (by have : (0 : Int) ≤ 2 ^ 63 := by norm_num
                     omega) h1
  unfold roleRepository.GetRoleList
  simp only [hw]
  rw [if_neg (by omega)]

theorem GetRoleList_first_page (dbs : Sorter) (regexMatch : String → String → Bool)
    (st : RoleState) (req : RoleQueryRequest) (hpage : req.Page = 1)
    (hsize : req.PageSize = 1000) (hlen : st.roles.length ≤ 1000) :
    roleService.GetRoleList dbs regexMatch st req =
      .returned (.ok
        { Roles := (dbs.sort (fun a b =>
              decide (a.SortOrder < b.SortOrder) ||
                (decide (a.SortOrder = b.SortOrder) && decide (b.CreatedAt < a.CreatedAt)))
              (st.roles.filter (roleService.GetRoleList.filter regexMatch req))).map
            (fun role => { roleService.roleModelToInfo role with
              MenuIDs := rbacRepository.GetRolePermissions st.rolePermissions role.RoleID })
          Total := ((st.roles.filter (roleService.GetRoleList.filter regexMatch req)).length :
            Int)
          Page := 1, PageSize := 1000
          TotalPages := Int.tdiv
            (((st.roles.filter (roleService.GetRoleList.filter regexMatch req)).length : Int)
              + 1000 - 1) 1000 }) := by
  have hsorted : (dbs.sort (fun a b : Role =>
      decide (a.SortOrder < b.SortOrder) ||
        (decide (a.SortOrder = b.SortOrder) && decide (b.CreatedAt < a.CreatedAt)))
      (st.roles.filter (roleService.GetRoleList.filter regexMatch req))).length ≤ 1000 := by
    rw [(dbs.perm _ _).length_eq]
    exact le_trans (List.length_filter_le _ _) hlen
  unfold roleService.GetRoleList
  rw [hpage, hsize, repository_GetRoleList_ok dbs _ _ 1 1000 (by norm_num) (by norm_num)]
  have hne : ¬ ((1000 : Int) = 0) := by norm_num
  simp only [if_neg hne]
  have hz : (((1 : Int) - 1) * 1000).toNat = 0 := by norm_num
  have hn : (1000 : Int).natAbs = 1000 := by norm_num
  rw [hz, hn, List.drop_zero, List.take_of_length_le hsorted]

/-- C21, divergence: for every state with at most 1000 roles and every non-empty company id
`c`, the handler `GetRolesByCompanyID` answers 200 with the enabled roles of company `c`
followed by every enabled role of the store: its second call of `GetRoleList` carries an
empty `CompanyID`, which adds no `company_id` condition to the filter. So every enabled role
of any other company is listed, and the roles of `c` are listed twice. The repository
operation `GetRolesByCompanyID(c)` returns exactly the enabled roles whose `company_id` is
`c` or empty. -/
theorem GetRolesByCompanyID_lists_every_company (dbs : Sorter)
    (regexMatch : String → String → Bool) (st : RoleState) (c : String) (hc : c ≠ "")
    (hlen : st.roles.length ≤ 1000) :
    (∃ all : List RoleInfo,
      roleController.GetRolesByCompanyID dbs regexMatch st c =
        .returned (.success "获取公司角色列表成功" (some all)) ∧
      all.map (fun info => info.RoleID) =
        ((dbs.sort (fun a b =>
            decide (a.SortOrder < b.SortOrder) ||
              (decide (a.SortOrder = b.SortOrder) && decide (b.CreatedAt < a.CreatedAt)))
          (st.roles.filter (fun r =>
            decide (r.CompanyID = c) && decide (r.Status = "enable")))).map
            (fun r => r.RoleID)) ++
        ((dbs.sort (fun a b =>
            decide (a.SortOrder < b.SortOrder) ||
              (decide (a.SortOrder = b.SortOrder) && decide (b.CreatedAt < a.CreatedAt)))
          (st.roles.filter (fun r => decide (r.Status = "enable")))).map
            (fun r => r.RoleID)) ∧
      ∀ r ∈ st.roles, r.Status = "enable" →
        ∃ info ∈ all, info.RoleID = r.RoleID ∧ info.CompanyID = r.CompanyID) ∧
    (∀ r, r ∈ roleRepository.GetRolesByCompanyID dbs st.roles c ↔
      r ∈ st.roles ∧ (r.CompanyID = c ∨ r.CompanyID = "") ∧ r.Status = "enable") := by
  have hf1 : st.roles.filter (roleService.GetRoleList.filter regexMatch
      { Page := 1, PageSize := 1000, RoleName := "", RoleKey := "", CompanyID := c,
        DataScope := "", Status := "enable" }) =
      st.roles.filter (fun r => decide (r.CompanyID = c) && decide (r.Status = "enable")) := by
    apply List.filter_congr
    intro r _
    simp [roleService.GetRoleList.filter, hc]
  have hf2 : st.roles.filter (roleService.GetRoleList.filter regexMatch
      { Page := 1, PageSize := 1000, RoleName := "", RoleKey := "", CompanyID := "",
        DataScope := "", Status := "enable" }) =
      st.roles.filter (fun r => decide (r.Status = "enable")) := by
    apply List.filter_congr
    intro r _
    simp [roleService.GetRoleList.filter]
  have h1 := GetRoleList_first_page dbs regexMatch st
    { Page := 1, PageSize := 1000, RoleName := "", RoleKey := "", CompanyID := c,
      DataScope := "", Status := "enable" } rfl rfl hlen
  have h2 := GetRoleList_first_page dbs regexMatch st
    { Page := 1, PageSize := 1000, RoleName := "", RoleKey := "", CompanyID := "",
      DataScope := "", Status := "enable" } rfl rfl hlen
  rw [hf1] at h1
  rw [hf2] at h2
  constructor
  · unfold roleController.GetRolesByCompanyID
    rw [if_neg hc]
    simp only [h1, h2]
    refine ⟨_, rfl, ?_, ?_⟩
    · simp only [List.map_append, List.map_map]
      rfl
    · intro r hr hen
      have hr2 : r ∈ dbs.sort (fun a b : Role =>
          decide (a.SortOrder < b.SortOrder) ||
            (decide (a.SortOrder = b.SortOrder) && decide (b.CreatedAt < a.CreatedAt)))
          (st.roles.filter (fun r => decide (r.Status = "enable"))) :=
        (dbs.perm _ _).symm.subset (List.mem_filter.2 ⟨hr, by simpa using hen⟩)
      exact ⟨_, List.mem_append_right _ (List.mem_map.2 ⟨r, hr2, rfl⟩), rfl, rfl⟩
  · intro r
    unfold roleRepository.GetRolesByCompanyID
    rw [(dbs.perm _ _).mem_iff, List.mem_filter]
    simp

/-- Witness of `GetRolesByCompanyID_lists_every_company`: for company `C1` of `companyState`
the handler lists `A` twice and the role `B` of company `C2`; the repository operation
returns `A` and the platform role `P`. -/
theorem GetRolesByCompanyID_lists_every_company_witness :
    (match roleController.GetRolesByCompanyID insertionSorter (fun _ _ => true) companyState
        "C1" with
      | .returned resp =>
        (resp.Status, (resp.Data.getD []).map (fun info => (info.RoleID, info.CompanyID)))
      | .fault _ => (0, [])) =
      (200, [("A", "C1"), ("A", "C1"), ("B", "C2"), ("P", "")]) ∧
    (roleRepository.GetRolesByCompanyID insertionSorter companyState.roles "C1").map
        (fun r => r.RoleID) = ["A", "P"] ∧
    ∀ r, r ∈ roleRepository.GetRolesByCompanyID insertionSorter companyState.roles "C1" ↔
      r ∈ companyState.roles ∧ (r.CompanyID = "C1" ∨ r.CompanyID = "") ∧
        r.Status = "enable" :=
  ⟨rfl, rfl,
    (GetRolesByCompanyID_lists_every_company insertionSorter (fun _ _ => true) companyState
      "C1" (by decide) (by decide)).2⟩


/-- C26, divergence: the query without `page` and `page_size` passes the binding validation
and reaches the service with both equal to `0`: no default is applied. For every state and
every request with `page_size = 0` the computation of `totalPages` divides by zero and
`GetRoleList` ends in a run-time panic; with `page = 0` and a `page_size` from 1 to 100 the
skip is negative, the store refuses the query and the handler answers 500. With `page` at
least 1, `page_size` from 1 to 100 and a skip that fits the type `int`, the handler answers
200 with `total_pages = ceil(total / page_size)`. -/
theorem GetRoleList_page_size (dbs : Sorter) (regexMatch : String → String → Bool)
    (st : RoleState) :
    emptyRoleQuery.bindingOK = true ∧
    (∀ req : RoleQueryRequest, req.PageSize = 0 →
      roleService.GetRoleList dbs regexMatch st req =
          .fault "runtime error: integer divide by zero" ∧
        roleController.GetRoleList dbs regexMatch st (.ok req) =
          .fault "runtime error: integer divide by zero") ∧
    (∀ req : RoleQueryRequest, req.Page = 0 → 1 ≤ req.PageSize → req.PageSize ≤ 100 →
      roleController.GetRoleList dbs regexMatch st (.ok req) =
        .returned (.failure 500
          ("获取角色列表失败: " ++ ("获取角色列表失败: " ++ ("查询角色列表失败: " ++ negativeSkipError))))) ∧
    (∀ req : RoleQueryRequest, 1 ≤ req.Page → 1 ≤ req.PageSize → req.PageSize ≤ 100 →
      (req.Page - 1) * req.PageSize < 2 ^ 63 →
      ∃ resp : RoleListResponse,
        roleController.GetRoleList dbs regexMatch st (.ok req) =
          .returned (.success "获取角色列表成功" (some resp)) ∧
        resp.Total =
          ((st.roles.filter (roleService.GetRoleList.filter regexMatch req)).length : Int) ∧
        (resp.TotalPages - 1) * req.PageSize < resp.Total ∧
        resp.Total ≤ resp.TotalPages * req.PageSize) := by
  refine ⟨by decide, ?_, ?_, ?_⟩
  · intro req hsize
    have hsvc : roleService.GetRoleList dbs regexMatch st req =
        .fault "runtime error: integer divide by zero" := by
      unfold roleService.GetRoleList
      rw [repository_GetRoleList_ok dbs _ _ req.Page req.PageSize (by rw [hsize]; simp)
        (by rw [hsize]; norm_num)]
      simp only [if_pos hsize]
    refine ⟨hsvc, ?_⟩
    simp only [roleController.GetRoleList, hsvc]
  · intro req hpage h1 h100
    have hw : wrapInt64 ((req.Page - 1) * req.PageSize) = -req.PageSize := by
      rw [hpage]
      have : ((0 : Int) - 1) * req.PageSize = -req.PageSize := by ring
      rw [this]
      exact wrapInt64_id (by norm_num; omega) (by norm_num; omega)
    have hrepo : roleRepository.GetRoleList dbs st.roles
        (roleService.GetRoleList.filter regexMatch req) req.Page req.PageSize =
        .error ("查询角色列表失败: " ++ negativeSkipError) := by
      unfold roleRepository.GetRoleList
      simp only [hw]
      rw [if_pos (by omega)]
    simp only [roleController.GetRoleList, roleService.GetRoleList, hrepo]
    rfl
  · intro req hpage h1 h100 hskip
    have hnonneg : 0 ≤ (req.Page - 1) * req.PageSize :=
      Int.mul_nonneg (by omega) (by omega)
    have hne : ¬ req.PageSize = 0 := by omega
    simp only [roleController.GetRoleList, roleService.GetRoleList,
      repository_GetRoleList_ok dbs _ _ req.Page req.PageSize hnonneg hskip, if_neg hne]
    refine ⟨_, rfl, rfl, ?_, ?_⟩
    · show (Int.tdiv (((st.roles.filter
          (roleService.GetRoleList.filter regexMatch req)).length : Int) + req.PageSize - 1)
          req.PageSize - 1) * req.PageSize <
        ((st.roles.filter (roleService.GetRoleList.filter regexMatch req)).length : Int)
      have htot : (0 : Int) ≤ ((st.roles.filter
          (roleService.GetRoleList.filter regexMatch req)).length : Int) :=
        Int.natCast_nonneg _
      generalize ((st.roles.filter
        (roleService.GetRoleList.filter regexMatch req)).length : Int) = total at htot ⊢
      rw [Int.tdiv_eq_ediv (by omega) (by omega)]
      have hd := Int.ediv_add_emod (total + req.PageSize - 1) req.PageSize
      have hm := Int.emod_nonneg (total + req.PageSize - 1) hne
      nlinarith
    · show ((st.roles.filter (roleService.GetRoleList.filter regexMatch req)).length : Int) ≤
        Int.tdiv (((st.roles.filter
          (roleService.GetRoleList.filter regexMatch req)).length : Int) + req.PageSize - 1)
          req.PageSize * req.PageSize
      have htot : (0 : Int) ≤ ((st.roles.filter
          (roleService.GetRoleList.filter regexMatch req)).length : Int) :=
        Int.natCast_nonneg _
      generalize ((st.roles.filter
        (roleService.GetRoleList.filter regexMatch req)).length : Int) = total at htot ⊢
      rw [Int.tdiv_eq_ediv (by omega) (by omega)]
      have hd := Int.ediv_add_emod (total + req.PageSize - 1) req.PageSize
      have hm := Int.emod_lt_of_pos (total + req.PageSize - 1)
        (show (0 : Int) < req.PageSize by omega)
      nlinarith


/-! ## An empty `parent_id` in `UpdateMenu` -/

/-- C27, counterexample: the page `users` of `sampleMenus` has the parent `sys`; the request
of `UpdateMenu("users")` names no parent and the sort order 9. The call succeeds and the
stored `parent_id` of `users` is then empty: the menu has become a root. -/
theorem UpdateMenu_empty_parent_reparents :
    sampleMenus.map (fun m => (m.MenuID, m.ParentID)) =
      [("sys", ""), ("users", "sys"), ("roles", "sys"), ("roles:add", "roles")] ∧
    (menuService.UpdateMenu insertionSorter 3 sampleMenus "users"
        { reparentRequest "" with SortOrder := 9 } 30).map
        (fun r => (r.2.toBool, r.1.map (fun m => (m.MenuID, m.ParentID, m.SortOrder)))) =
      some (true, [("sys", "", 1), ("users", "", 9), ("roles", "sys", 1),
        ("roles:add", "roles", 1)]) :=
  ⟨rfl, rfl⟩

theorem UpdateMenu_parent_empty (dbs : Sorter) (fuel : Nat) (menus : List Menu)
    (menuID : String) (req : MenuUpdateRequest) (existing : Menu)
    (hpar : existing.ParentID ≠ "") (hreq : req.ParentID = "") (hid : menuID ≠ "") :
    menuService.UpdateMenu.parent dbs fuel menus menuID req existing =
      some (.ok { parent_id := some "" }) := by
  unfold menuService.UpdateMenu.parent
  rw [hreq, if_pos (Ne.symm hpar), if_neg (Ne.symm hid)]
  simp

/-- C27 (amended): for every existing menu with a non-empty `parent_id`, an `UpdateMenu`
request whose `parent_id` is empty is a request to move the menu to the root. The call
returns without any descendant walk; when it returns an error the store is unchanged, and
when it succeeds the stored `parent_id` of the menu is empty, as is the `parent_id` of the
menu returned. -/
theorem UpdateMenu_empty_parent_moves_to_root (dbs : Sorter) (fuel : Nat) (menus : List Menu)
    (menuID : String) (req : MenuUpdateRequest) (now : Nat) (existing : Menu)
    (hfind : menus.find? (fun m => decide (m.MenuID = menuID)) = some existing)
    (hpar : existing.ParentID ≠ "") (hreq : req.ParentID = "") :
    ∃ r, menuService.UpdateMenu dbs fuel menus menuID req now = some r ∧
      ((∃ err, r.2 = .error err) → r.1 = menus) ∧
      (∀ info, r.2 = .ok info →
        info.toMenu.ParentID = "" ∧
        ∃ m, r.1.find? (fun m => decide (m.MenuID = menuID)) = some m ∧ m.ParentID = "") := by
  have hget : menuRepository.GetMenuByID menus menuID = .ok existing := by
    simp only [menuRepository.GetMenuByID, hfind]
  by_cases hid : menuID = ""
  · have hparent : menuService.UpdateMenu.parent dbs fuel menus menuID req existing =
        some (.error "不能将菜单设置为自己的父菜单") := by
      unfold menuService.UpdateMenu.parent
      rw [hreq, if_pos (Ne.symm hpar), if_pos hid.symm]
    refine ⟨(menus, .error "不能将菜单设置为自己的父菜单"), ?_, fun _ => rfl, ?_⟩
    · simp only [menuService.UpdateMenu, hget, hparent]
    · intro info h
      exact Except.noConfusion h
  · have hparent := UpdateMenu_parent_empty dbs fuel menus menuID req existing hpar hreq hid
    cases hfields : menuService.UpdateMenu.fields menus menuID req existing
        { parent_id := some "" } with
    | error err =>
      refine ⟨(menus, .error err), ?_, fun _ => rfl, ?_⟩
      · simp only [menuService.UpdateMenu, hget, hparent, hfields]
      · intro info h
        exact Except.noConfusion h
    | ok updates =>
      have hpid : updates.parent_id = some "" := UpdateMenu_fields_parent_id hfields
      have hempty : updates.isEmpty = false := by
        unfold MenuUpdates.isEmpty
        rw [decide_eq_false_iff_not]
        intro h
        have := congrArg MenuUpdates.parent_id h
        rw [hpid] at this
        exact Option.noConfusion this
      have hany : menus.any (fun m => decide (m.MenuID = menuID)) = true :=
        List.any_eq_true.2 ⟨existing, List.mem_of_find?_eq_some hfind,
          by simpa using List.find?_some hfind⟩
      have hfind2 : (updateFirst (fun m => decide (m.MenuID = menuID)) (updates.set now)
          menus).find? (fun m => decide (m.MenuID = menuID)) =
            some (updates.set now existing) := by
        rw [find_updateFirst_eq menus (updates.set now) (fun _ => rfl) menuID, hfind]
        rfl
      have hset : (updates.set now existing).ParentID = "" := by
        simp [MenuUpdates.set, hpid]
      refine ⟨(updateFirst (fun m => decide (m.MenuID = menuID)) (updates.set now) menus,
        .ok (convertToMenuInfo (updates.set now existing))), ?_, ?_, ?_⟩
      · simp only [menuService.UpdateMenu, hget, hparent, hfields, hempty,
          Bool.false_eq_true, if_false]
        simp only [menuRepository.UpdateMenu, hany, if_true, menuService.GetMenuByID,
          menuRepository.GetMenuByID, hfind2]
      · rintro ⟨err, herr⟩
        exact Except.noConfusion herr
      · intro info h
        have hinfo : info = convertToMenuInfo (updates.set now existing) :=
          (Except.ok.inj h).symm
        rw [hinfo]
        exact ⟨hset, _, hfind2, hset⟩

/-- Witness of `UpdateMenu_empty_parent_moves_to_root` on the page `users` of
`sampleMenus`. -/
theorem UpdateMenu_empty_parent_moves_to_root_witness :
    ∃ r, menuService.UpdateMenu insertionSorter 0 sampleMenus "users"
        { reparentRequest "" with SortOrder := 9 } 30 = some r ∧
      ((∃ err, r.2 = .error err) → r.1 = sampleMenus) ∧
      (∀ info, r.2 = .ok info →
        info.toMenu.ParentID = "" ∧
        ∃ m, r.1.find? (fun m => decide (m.MenuID = "users")) = some m ∧ m.ParentID = "") :=
  UpdateMenu_empty_parent_moves_to_root insertionSorter 0 sampleMenus "users"
    { reparentRequest "" with SortOrder := 9 } 30
    (sampleMenu "users" "sys" 2 "enable" true "menu" 2) rfl (by decide) rfl

end YuFung
